import Mathlib

/-!
# Verification of the news-analyzer pipeline core

Shallow embedding, in Lean 4, of the parts of the `news-analyzer`
repository that the specification claims talk about:

* `summarizer/analysis.py`   — daily-metric trending (z-scores);
* `scraper/login.py`         — the `LockoutGuard` state machine;
* `extractor/pdf_extractor.py` — column segmentation and article assembly;
* `extractor/html_extractor.py` — word-count gate for HTML articles;
* `scraper/downloader.py`    — cache object keys (incl. a faithful MD5);
* `summarizer/weaviate_sync.py`, `summarizer/qdrant_sync.py`
                              — vector-index object identity (incl. SHA-1/UUIDv5);
* `extractor/event_parser.py` — event extraction invariants;
* `extractor/normalize.py`, `extractor/database.py`
                              — section normalization and the dedup merge;
* `summarizer/utils.py`      — tolerant JSON extraction, with an executable
                              model of `json.dumps` / `json.loads`.

Python strings are modelled as `List Char`; machine floats that only ever
hold exact small decimals (metric counts, coordinates) are modelled as `ℚ`;
Python `int` is `ℤ`/`ℕ`; fallible code returns `Option`/`Except`.
External collaborators (the `dateparser` search, `re` word-class tests that
no claim depends on, HTTP, the LLM) enter as explicit inputs.
-/

namespace NewsAnalyzer

/-! ## Python string primitives

`str` is `List Char`.  The helpers below model the exact CPython behaviour
of the methods the embedded code uses, restricted to the character sets the
source can actually meet (ASCII whitespace for `strip`/`split`; the
divergence of `str.lower` from `Char.toLower` outside ASCII is noted where
it is used and never load-bearing). -/

/-- Default Python whitespace for `str.strip()` / `str.split()` (ASCII part). -/
def isPySpace (c : Char) : Bool :=
  c = ' ' || c = '\t' || c = '\n' || c = '\x0d' || c = '\x0b' || c = '\x0c'

/-- `str.strip()` with no arguments. -/
def pyStrip (s : List Char) : List Char :=
  ((s.dropWhile isPySpace).reverse.dropWhile isPySpace).reverse

/-- `str.split()` with no arguments: split on whitespace runs, drop empties. -/
def pySplit : List Char → List (List Char)
  | [] => []
  | c :: rest =>
    if isPySpace c then pySplit rest
    else
      match pySplit rest with
      | [] => [[c]]
      | w :: ws =>
        -- a word continues unless the previous character was whitespace;
        -- recompute by looking at `rest`'s head
        match rest with
        | [] => [[c]]
        | d :: _ => if isPySpace d then [c] :: w :: ws else (c :: w) :: ws

/-- `str.lower()` on the ASCII range (the only range the embedded call sites
can produce a letter in after their own filtering). -/
def pyLower (s : List Char) : List Char := s.map Char.toLower

/-- `'sep'.join xs` for a one-character separator list. -/
def pyJoin (sep : List Char) : List (List Char) → List Char
  | [] => []
  | [w] => w
  | w :: ws => w ++ sep ++ pyJoin sep ws

/-- Python `s.startswith(p)`. -/
def pyStartsWith (s p : List Char) : Bool := p.isPrefixOf s

end NewsAnalyzer

namespace NewsAnalyzer.Trending

/-!  ## C2 — `summarizer/analysis.py`, `_compute_trending_for_day`

The SQL in `_compute_trending_for_day` computes, for each `(kind, key)`
present on day `d`:

* `c`      = today's count (`cur` CTE),
* `mean_c` = `COALESCE(AVG(count) over [d-W, d-1], 0.0)`,
* `std_c`  = `COALESCE(NULLIF(STDDEV_POP(count) over [d-W, d-1], 0.0), 1.0)`,

and stores `score = delta = c - mean_c` and `zscore = (c - mean_c) / std_c`.
Counts are exact small integers, so ℚ models the `real` arithmetic; the
square root inside `STDDEV_POP` is handled by passing the standard
deviation as a value constrained by `IsPopStd`. -/

/-- `AVG(count)` over the trailing-window rows; `NULL` (`none`) when the
window holds no row, as produced by the SQL `LEFT JOIN`. -/
def histMean (hist : List ℚ) : Option ℚ :=
  if hist.isEmpty then none else some (hist.sum / hist.length)

/-- Population variance of the trailing-window rows (`NULL` when empty). -/
def popVariance (hist : List ℚ) : Option ℚ :=
  match histMean hist with
  | none => none
  | some m => some ((hist.map (fun x => (x - m) ^ 2)).sum / hist.length)

/-- `s` is exactly `STDDEV_POP(hist)`: the unique nonnegative square root of
the population variance (only stated for a nonempty window). -/
def IsPopStd (hist : List ℚ) (s : ℚ) : Prop :=
  0 ≤ s ∧ some (s ^ 2) = popVariance hist

/-- `COALESCE(h.mean_c, 0.0)` from the `joined` CTE. -/
def meanCoalesced (hist : List ℚ) : ℚ := (histMean hist).getD 0

/-- `COALESCE(NULLIF(h.std_c, 0.0), 1.0)` from the `joined` CTE: the std used
as z-score divisor, floored to `1.0` only when it is `NULL` or exactly `0`. -/
def stdCoalesced (hist : List ℚ) (s : ℚ) : ℚ :=
  if hist.isEmpty then 1 else if s = 0 then 1 else s

/-- One row written into `trending_items`. -/
structure TrendRow where
  score : ℚ
  zscore : ℚ
  delta : ℚ
  winSize : ℤ
  deriving Repr, DecidableEq

/-- The `INSERT INTO trending_items ... SELECT` of `_compute_trending_for_day`,
for one `(kind, key)`: `c` is today's count, `hist` the counts over
`[d-W, d-1]`, and `s` the value `STDDEV_POP` returned for `hist`. -/
def trendRow (w : ℤ) (c : ℚ) (hist : List ℚ) (s : ℚ) : TrendRow :=
  { score := c - meanCoalesced hist
    zscore := (c - meanCoalesced hist) / stdCoalesced hist s
    delta := c - meanCoalesced hist
    winSize := w }

/-- The z-score formula the spec states: `(current - mean) / max(std, 1.0)`. -/
def specZscore (c : ℚ) (hist : List ℚ) (s : ℚ) : ℚ :=
  (c - meanCoalesced hist) / max s 1

end NewsAnalyzer.Trending

namespace NewsAnalyzer.Trending

/-- **C2, counterexample.** With trailing counts `[2, 3]` the population
standard deviation is `1/2` (nonzero, below one), so the stored z-score for a
current count of `10` is `(10 - 5/2) / (1/2) = 15`, while the claimed formula
`(current - mean) / max(std, 1.0)` yields `15/2`: the code floors the divisor
only when the deviation is `NULL` or exactly zero, not at `1.0`. -/
theorem trending_zscore_not_max_floored :
    IsPopStd [2, 3] (1/2)
      ∧ (trendRow 7 10 [2, 3] (1/2)).zscore = 15
      ∧ specZscore 10 [2, 3] (1/2) = 15/2
      ∧ (15 : ℚ) ≠ 15/2 := by
  refine ⟨⟨by norm_num, ?_⟩, ?_, ?_, by norm_num⟩
  · show some ((1/2 : ℚ) ^ 2) = popVariance [2, 3]
    norm_num [popVariance, histMean]
  · show (10 - meanCoalesced [2, 3]) / stdCoalesced [2, 3] (1/2) = 15
    norm_num [meanCoalesced, histMean, stdCoalesced]
  · show (10 - meanCoalesced [2, 3]) / max (1/2 : ℚ) 1 = 15/2
    norm_num [specZscore, meanCoalesced, histMean]

/-- **C2 (amended).** For every `(kind, key)` with a count on day `d`, the
trending computation stores `score = delta = current - mean` and
`zscore = (current - mean) / d` where the divisor `d` is the trailing-window
population standard deviation, replaced by `1.0` exactly when it is
undefined (empty window) or equal to zero — not floored at `1.0`; in
particular `current = 10` with trailing counts `[2,2,2,2,2,2,2]`
(mean 2, std 0) yields zscore `8` and score `8`. -/
theorem trending_row_formula (w : ℤ) (c : ℚ) (hist : List ℚ) (s : ℚ)
    (hs : IsPopStd hist s) :
    (trendRow w c hist s).score = c - meanCoalesced hist
      ∧ (trendRow w c hist s).delta = c - meanCoalesced hist
      ∧ (trendRow w c hist s).zscore =
          (c - meanCoalesced hist) /
            (if hist.isEmpty ∨ s = 0 then 1 else s)
      ∧ IsPopStd [2, 2, 2, 2, 2, 2, 2] 0
      ∧ (trendRow w 10 [2, 2, 2, 2, 2, 2, 2] 0).zscore = 8
      ∧ (trendRow w 10 [2, 2, 2, 2, 2, 2, 2] 0).score = 8 := by
  refine ⟨rfl, rfl, ?_, ⟨le_refl 0, ?_⟩, ?_, ?_⟩
  · unfold trendRow stdCoalesced
    by_cases h1 : hist.isEmpty <;> by_cases h2 : s = 0 <;> simp [h1, h2]
  · show some ((0:ℚ) ^ 2) = popVariance [2, 2, 2, 2, 2, 2, 2]
    norm_num [popVariance, histMean]
  · show (10 - meanCoalesced [2, 2, 2, 2, 2, 2, 2]) /
        stdCoalesced [2, 2, 2, 2, 2, 2, 2] 0 = 8
    norm_num [meanCoalesced, histMean, stdCoalesced]
  · show (10 - meanCoalesced [2, 2, 2, 2, 2, 2, 2]) = 8
    norm_num [meanCoalesced, histMean]

/-- Witness instantiating `trending_row_formula` at a concrete window. -/
theorem trending_row_formula_witness :
    IsPopStd [2, 3] (1/2)
      ∧ (trendRow 7 10 [2, 3] (1/2)).zscore =
          (10 - meanCoalesced [2, 3]) /
            (if ([2, 3] : List ℚ).isEmpty ∨ (1/2 : ℚ) = 0 then 1 else 1/2) := by
  have hstd : IsPopStd [2, 3] (1/2) := by
    refine ⟨by norm_num, ?_⟩
    show some ((1/2 : ℚ) ^ 2) = popVariance [2, 3]
    norm_num [popVariance, histMean]
  exact ⟨hstd, (trending_row_formula 7 10 [2, 3] (1/2) hstd).2.2.1⟩

end NewsAnalyzer.Trending

namespace NewsAnalyzer.Lockout

/-! ## C10 — `scraper/login.py`, `LockoutGuard`

The guard persists a JSON marker both in the object store (via `helper`)
and on local disk.  We model the two storage slots as `Option Marker`
(already-parsed payloads; an unparseable or absent file is `none`, matching
`_load_marker`'s `None` result paths), UTC timestamps as rational seconds,
and the best-effort writes as succeeding (the read path treats a failed
write the same as an absent marker, so failures are subsumed by the
`none` case). -/

/-- The parsed lockout marker.  `activate` writes all fields, but
`_load_marker` accepts arbitrary JSON, so `active_until_ts` may be absent. -/
structure Marker where
  activeUntilTs : Option ℚ
  reason : Option (List Char)
  deriving Repr, DecidableEq

/-- The two persistence slots (`helper` object + local file). -/
structure Store where
  remote : Option Marker
  localFile : Option Marker
  deriving Repr, DecidableEq

/-- `LockoutGuard.__init__`: `self.cooldown_minutes = max(int(cooldown_minutes or 0), 0)`. -/
def mkCooldown (cooldownMinutes : ℤ) : ℕ := cooldownMinutes.toNat

/-- `LockoutGuard._load_marker`: remote first (when a helper is configured),
local file otherwise. -/
def loadMarker (helperPresent : Bool) (st : Store) : Option Marker :=
  match (if helperPresent then st.remote else none) with
  | some m => some m
  | none => st.localFile

/-- `LockoutGuard.clear`: delete the remote object and the local file. -/
def clear (_st : Store) : Store := { remote := none, localFile := none }

/-- `LockoutGuard.is_active`, returning the boolean result together with the
store it leaves behind (`clear` is invoked on stale or ts-less markers). -/
def isActive (cooldown : ℕ) (helperPresent : Bool) (st : Store) (nowTs : ℚ) :
    Bool × Store :=
  if cooldown ≤ 0 then (false, st)
  else
    match loadMarker helperPresent st with
    | none => (false, st)
    | some m =>
      match m.activeUntilTs with
      | none => (false, clear st)
      | some untilTs =>
        if nowTs < untilTs then (true, st) else (false, clear st)

/-- `LockoutGuard.activate`: a no-op when the cooldown is non-positive,
otherwise persist a marker valid for `cooldown` minutes to both slots. -/
def activate (cooldown : ℕ) (st : Store) (nowTs : ℚ) (reason : List Char) :
    Store :=
  if cooldown ≤ 0 then st
  else
    let m : Marker :=
      { activeUntilTs := some (nowTs + 60 * cooldown), reason := some reason }
    { remote := some m, localFile := some m }

/-- **C10 (confirmed).** The Lockout Guard never outlives its cooldown: with a
configured cooldown `≤ 0` minutes, `is_active()` always returns `false` and
`activate()` persists no marker; and whenever the loaded marker's
`active_until_ts` is missing or not in the future, `is_active()` clears both
persistence slots and returns `false`. -/
theorem lockout_guard_cooldown (c : ℤ) (hp : Bool) (st : Store) (now : ℚ)
    (reason : List Char) :
    (c ≤ 0 →
      (isActive (mkCooldown c) hp st now).1 = false
        ∧ activate (mkCooldown c) st now reason = st)
      ∧ (∀ m : Marker, 0 < mkCooldown c → loadMarker hp st = some m →
          (m.activeUntilTs = none ∨ ∃ ts, m.activeUntilTs = some ts ∧ ts ≤ now) →
          isActive (mkCooldown c) hp st now = (false, clear st)) := by
  constructor
  · intro hc
    have h0 : mkCooldown c = 0 := by
      simp only [mkCooldown, Int.toNat_eq_zero]
      exact hc
    rw [h0]
    exact ⟨rfl, rfl⟩
  · intro m hpos hload hstale
    have hne : ¬ mkCooldown c ≤ 0 := by omega
    rcases hstale with hnone | ⟨ts, hts, hpast⟩
    · simp [isActive, hne, hload, hnone]
    · simp [isActive, hne, hload, hts, not_lt.mpr hpast]

/-- Witness for `lockout_guard_cooldown`: a zero cooldown ignores even a
far-future marker, and a positive cooldown clears an expired one. -/
theorem lockout_guard_cooldown_witness :
    ((isActive (mkCooldown (-5)) true
        ⟨some ⟨some 1000, none⟩, none⟩ 0).1 = false
      ∧ activate (mkCooldown (-5)) ⟨some ⟨some 1000, none⟩, none⟩ 0 [] =
          ⟨some ⟨some 1000, none⟩, none⟩)
    ∧ isActive (mkCooldown 15) true ⟨some ⟨some 10, none⟩, none⟩ 10 =
        (false, clear ⟨some ⟨some 10, none⟩, none⟩) := by
  refine ⟨(lockout_guard_cooldown (-5) true _ 0 []).1 (by norm_num), ?_⟩
  exact (lockout_guard_cooldown 15 true ⟨some ⟨some 10, none⟩, none⟩ 10 []).2
    ⟨some 10, none⟩ (by norm_num [mkCooldown]) rfl (Or.inr ⟨10, rfl, le_refl 10⟩)

end NewsAnalyzer.Lockout

namespace NewsAnalyzer.Pdf

/-! ## C6 — `extractor/pdf_extractor.py`, `PDFExtractor._segment_columns`

Blocks are grouped by page (in first-appearance order, like the Python
`dict`), sorted by `x0` (Python's stable `list.sort` ↦ `List.mergeSort`),
split into columns by the running `last_x` loop, tagged with their column
index (`block.column = len(columns)` at placement time equals the final
index of the block's column), and finally each column is sorted by
descending `y0`.  Coordinates are `ℚ` (pdfminer floats; exact values in the
scenarios of interest). -/

/-- `pdf_extractor.TextBlock`. -/
structure TextBlock where
  text : List Char
  x0 : ℚ
  y0 : ℚ
  x1 : ℚ
  y1 : ℚ
  pageNumber : ℤ
  fontSize : Option ℚ := none
  isTitle : Bool := false
  column : ℕ := 0
  deriving Repr, DecidableEq

/-- `page_blocks.sort(key=lambda b: b.x0)` (a stable sort; stable sorts of a
list under the same key agree, so insertion sort models Timsort). -/
def sortByX (blocks : List TextBlock) : List TextBlock :=
  blocks.insertionSort (fun a b => a.x0 ≤ b.x0)

/-- `column.sort(key=lambda b: -b.y0)` (stable, top-to-bottom). -/
def sortByYDesc (column : List TextBlock) : List TextBlock :=
  column.insertionSort (fun a b => b.y0 ≤ a.y0)

/-- The column-splitting loop of `_segment_columns`, after the first block
has opened the current column: `cur` is the current column so far, `lastX`
the previously placed block's `x0`.  A block joins the current column iff
`|b.x0 - last_x| < threshold`, else it opens a new column.  (The Python loop
accumulates completed columns in a list and appends the pending one at the
end; this recursion produces the same list.) -/
def segRun (thr : ℚ) (cur : List TextBlock) (lastX : ℚ) :
    List TextBlock → List (List TextBlock)
  | [] => [cur]
  | b :: rest =>
    if |b.x0 - lastX| < thr then segRun thr (cur ++ [b]) b.x0 rest
    else cur :: segRun thr [b] b.x0 rest

/-- Column groups of one page's x-sorted blocks (`last_x is None` admits the
first block unconditionally). -/
def segGroups (thr : ℚ) : List TextBlock → List (List TextBlock)
  | [] => []
  | b :: rest => segRun thr [b] b.x0 rest

/-- Tag every block of the `i`-th column group with `column := i`
(`block.column = len(columns)` at placement time) and sort each column by
descending `y0`. -/
def withColumnIndex (i : ℕ) : List (List TextBlock) → List (List TextBlock)
  | [] => []
  | g :: gs =>
    sortByYDesc (g.map (fun b => { b with column := i })) ::
      withColumnIndex (i + 1) gs

/-- One page of `_segment_columns`: sort by `x0`, split into columns, record
each block's column index, sort every column by descending `y0`. -/
def segmentColumnsPage (thr : ℚ) (pageBlocks : List TextBlock) :
    List (List TextBlock) :=
  withColumnIndex 0 (segGroups thr (sortByX pageBlocks))

/-- Page numbers in order of first appearance (iteration order of the
Python `pages` dict). -/
def pageKeys (blocks : List TextBlock) : List ℤ :=
  (blocks.map (·.pageNumber)).dedup

/-- `PDFExtractor._segment_columns`: concatenation of every page's columns. -/
def segmentColumns (thr : ℚ) (blocks : List TextBlock) :
    List (List TextBlock) :=
  (pageKeys blocks).flatMap
    (fun p => segmentColumnsPage thr (blocks.filter (·.pageNumber = p)))

theorem segRun_join (thr : ℚ) (cur : List TextBlock) (lastX : ℚ)
    (l : List TextBlock) : (segRun thr cur lastX l).flatten = cur ++ l := by
  induction l generalizing cur lastX with
  | nil => simp [segRun]
  | cons b rest ih =>
    by_cases h : |b.x0 - lastX| < thr
    · simp [segRun, h, ih]
    · simp [segRun, h, ih]

theorem segRun_head (thr : ℚ) (cur : List TextBlock) (lastX : ℚ)
    (l : List TextBlock) (hcur : cur ≠ []) :
    ((segRun thr cur lastX l).head?.bind List.head?) = cur.head? := by
  induction l generalizing cur lastX with
  | nil => simp [segRun]
  | cons b rest ih =>
    by_cases h : |b.x0 - lastX| < thr
    · rw [segRun, if_pos h, ih _ _ (by simp)]
      cases cur with
      | nil => exact absurd rfl hcur
      | cons a t => simp
    · rw [segRun, if_neg h]
      simp

theorem segRun_groups_sound (thr : ℚ) (cur : List TextBlock) (lastX : ℚ)
    (l : List TextBlock) (hcur : cur ≠ [])
    (hlast : ∃ a, cur.getLast? = some a ∧ a.x0 = lastX)
    (hchain : cur.Chain' (fun a b => |b.x0 - a.x0| < thr)) :
    (∀ g ∈ segRun thr cur lastX l,
        g ≠ [] ∧ g.Chain' (fun a b => |b.x0 - a.x0| < thr))
      ∧ (segRun thr cur lastX l).Chain'
          (fun g₁ g₂ => ∀ a b, g₁.getLast? = some a → g₂.head? = some b →
            thr ≤ |b.x0 - a.x0|) := by
  induction l generalizing cur lastX with
  | nil =>
    refine ⟨?_, by simp [segRun]⟩
    intro g hg
    simp only [segRun, List.mem_singleton] at hg
    exact hg ▸ ⟨hcur, hchain⟩
  | cons b rest ih =>
    by_cases h : |b.x0 - lastX| < thr
    · rw [segRun, if_pos h]
      obtain ⟨a, ha, hax⟩ := hlast
      refine ih (cur ++ [b]) b.x0 (by simp) ⟨b, by simp, rfl⟩ ?_
      have : |b.x0 - a.x0| < thr := hax ▸ h
      exact List.chain'_append.2 ⟨hchain, List.chain'_singleton b,
        fun c hc d hd => by
          simp only [List.head?_cons] at hd
          rw [hc] at ha
          cases ha; cases hd; exact this⟩
    · rw [segRun, if_neg h]
      obtain ⟨a, ha, hax⟩ := hlast
      obtain ⟨hall, hch⟩ :=
        ih [b] b.x0 (by simp) ⟨b, by simp, rfl⟩ (List.chain'_singleton b)
      refine ⟨?_, ?_⟩
      · intro g hg
        rcases List.mem_cons.1 hg with rfl | hg'
        · exact ⟨hcur, hchain⟩
        · exact hall g hg'
      · cases hrun : segRun thr [b] b.x0 rest with
        | nil => simp [hrun] at hch ⊢
        | cons g₂ gs =>
          rw [List.chain'_cons]
          refine ⟨fun a' b' ha' hb' => ?_, hrun ▸ hch⟩
          have hhead : ((segRun thr [b] b.x0 rest).head?.bind List.head?) =
              some b := by
            rw [segRun_head thr [b] b.x0 rest (by simp)]; rfl
          rw [hrun] at hhead
          simp only [List.head?_cons, Option.some_bind] at hhead
          rw [ha'] at ha
          cases ha
          rw [hb'] at hhead
          cases hhead
          rw [hax]
          exact le_of_not_lt h

/-- **C6 (confirmed).** Column segmentation on each page: the blocks are
stably sorted by `x0`, a block is appended to the current column exactly when
`|b.x0 - last_x| < threshold` (with `last_x` the previously placed block's
`x0`) and opens a new column otherwise — so consecutive blocks of one column
are `< threshold` apart in the x-sorted order while a column boundary jumps
by `≥ threshold` — and each column is finally sorted by descending `y0`; in
particular, blocks at `x0 = 72, 119, 320` with threshold `50` produce
exactly two columns, with the `x0 = 119` block in the left column. -/
theorem segment_columns_spec (thr : ℚ) (blocks : List TextBlock) :
    (sortByX blocks).Perm blocks
      ∧ (sortByX blocks).Pairwise (fun a b => a.x0 ≤ b.x0)
      ∧ (segGroups thr (sortByX blocks)).flatten = sortByX blocks
      ∧ (∀ g ∈ segGroups thr (sortByX blocks),
          g ≠ [] ∧ g.Chain' (fun a b => |b.x0 - a.x0| < thr))
      ∧ (segGroups thr (sortByX blocks)).Chain'
          (fun g₁ g₂ => ∀ a b, g₁.getLast? = some a → g₂.head? = some b →
            thr ≤ |b.x0 - a.x0|)
      ∧ (∀ c ∈ segmentColumnsPage thr blocks,
          c.Pairwise (fun a b => b.y0 ≤ a.y0))
      ∧ (segmentColumns 50
            [⟨[], 72, 700, 172, 720, 1, none, false, 0⟩,
             ⟨[], 320, 700, 420, 720, 1, none, false, 0⟩,
             ⟨[], 119, 650, 219, 670, 1, none, false, 0⟩] =
          [[⟨[], 72, 700, 172, 720, 1, none, false, 0⟩,
            ⟨[], 119, 650, 219, 670, 1, none, false, 0⟩],
           [⟨[], 320, 700, 420, 720, 1, none, false, 1⟩]]) := by
  haveI hxTot : IsTotal TextBlock (fun a b => a.x0 ≤ b.x0) :=
    ⟨fun a b => le_total a.x0 b.x0⟩
  haveI hxTrans : IsTrans TextBlock (fun a b => a.x0 ≤ b.x0) :=
    ⟨fun _ _ _ => le_trans⟩
  haveI hyTot : IsTotal TextBlock (fun a b => b.y0 ≤ a.y0) :=
    ⟨fun a b => le_total b.y0 a.y0⟩
  haveI hyTrans : IsTrans TextBlock (fun a b => b.y0 ≤ a.y0) :=
    ⟨fun _ _ _ hab hbc => le_trans hbc hab⟩
  refine ⟨List.perm_insertionSort _ blocks, ?_, ?_, ?_, ?_, ?_, ?_⟩
  · exact List.sorted_insertionSort (fun a b => a.x0 ≤ b.x0) blocks
  · cases hs : sortByX blocks with
    | nil => simp [segGroups]
    | cons b rest => simp [segGroups, segRun_join]
  · cases hs : sortByX blocks with
    | nil => simp [segGroups]
    | cons b rest =>
      exact (segRun_groups_sound thr [b] b.x0 rest (by simp)
        ⟨b, by simp, rfl⟩ (List.chain'_singleton b)).1
  · cases hs : sortByX blocks with
    | nil => simp [segGroups]
    | cons b rest =>
      exact (segRun_groups_sound thr [b] b.x0 rest (by simp)
        ⟨b, by simp, rfl⟩ (List.chain'_singleton b)).2
  · intro c hc
    have hgen : ∀ (i : ℕ) (gs : List (List TextBlock)),
        c ∈ withColumnIndex i gs →
        c.Pairwise (fun a b => b.y0 ≤ a.y0) := by
      intro i gs
      induction gs generalizing i with
      | nil => intro h; simp [withColumnIndex] at h
      | cons g rest ih =>
        intro h
        rcases List.mem_cons.1 h with rfl | h'
        · exact List.sorted_insertionSort (fun a b : TextBlock => b.y0 ≤ a.y0) _
        · exact ih (i + 1) h'
    exact hgen 0 _ hc
  · show segmentColumns 50 _ = _
    simp only [segmentColumns, pageKeys, segmentColumnsPage, sortByX,
      List.insertionSort, List.orderedInsert, segGroups, segRun,
      withColumnIndex, sortByYDesc, List.map, List.dedup, List.pwFilter,
      List.flatMap, List.filter]
    norm_num [segRun, withColumnIndex, sortByYDesc, List.insertionSort,
      List.orderedInsert]

end NewsAnalyzer.Pdf

namespace NewsAnalyzer.Hash

/-! ## Byte-level primitives: UTF-8, MD5, SHA-1, UUIDv5

`hashlib.md5` / `hashlib.sha1` / `uuid.uuid5` are modelled bit-for-bit
(RFC 1321 / RFC 3174 / RFC 4122); bytes are `ℕ < 256`, 32-bit words are `ℕ`
reduced mod `2^32` wherever the machine arithmetic overflows. -/

/-- `str.encode('utf-8')`. -/
def utf8EncodeChar (c : Char) : List ℕ :=
  let n := c.toNat
  if n < 128 then [n]
  else if n < 2048 then [192 + n / 64, 128 + n % 64]
  else if n < 65536 then [224 + n / 4096, 128 + n / 64 % 64, 128 + n % 64]
  else [240 + n / 262144, 128 + n / 4096 % 64, 128 + n / 64 % 64, 128 + n % 64]

def utf8Encode (s : List Char) : List ℕ := s.flatMap utf8EncodeChar

/-- Truncate to a 32-bit word. -/
def w32 (x : ℕ) : ℕ := x % 4294967296

/-- 32-bit bitwise complement. -/
def wnot (x : ℕ) : ℕ := 4294967295 - w32 x

/-- 32-bit rotate left. -/
def rotl (s x : ℕ) : ℕ :=
  w32 (Nat.lor (Nat.shiftLeft (w32 x) s) (Nat.shiftRight (w32 x) (32 - s)))

/-- Split into successive 64-byte chunks (fuel-driven so that the kernel can
evaluate it; `fuel ≥ length` always holds at call sites). -/
def chunks64 : ℕ → List ℕ → List (List ℕ)
  | 0, _ => []
  | _, [] => []
  | fuel + 1, l => l.take 64 :: chunks64 fuel (l.drop 64)

def hexChars : List Char := "0123456789abcdef".data

/-- Two lowercase hex digits of a byte. -/
def byteHex (b : ℕ) : List Char :=
  [hexChars.getD (b / 16 % 16) '0', hexChars.getD (b % 16) '0']

def bytesHex (bs : List ℕ) : List Char := bs.flatMap byteHex

/-- MD5 per-round shift amounts. -/
def md5S : List ℕ :=
  [7, 12, 17, 22, 7, 12, 17, 22, 7, 12, 17, 22, 7, 12, 17, 22,
   5, 9, 14, 20, 5, 9, 14, 20, 5, 9, 14, 20, 5, 9, 14, 20,
   4, 11, 16, 23, 4, 11, 16, 23, 4, 11, 16, 23, 4, 11, 16, 23,
   6, 10, 15, 21, 6, 10, 15, 21, 6, 10, 15, 21, 6, 10, 15, 21]

/-- MD5 sine-derived constants `K[i] = floor(2^32 * |sin(i+1)|)`. -/
def md5K : List ℕ :=
  [0xd76aa478, 0xe8c7b756, 0x242070db, 0xc1bdceee,
   0xf57c0faf, 0x4787c62a, 0xa8304613, 0xfd469501,
   0x698098d8, 0x8b44f7af, 0xffff5bb1, 0x895cd7be,
   0x6b901122, 0xfd987193, 0xa679438e, 0x49b40821,
   0xf61e2562, 0xc040b340, 0x265e5a51, 0xe9b6c7aa,
   0xd62f105d, 0x02441453, 0xd8a1e681, 0xe7d3fbc8,
   0x21e1cde6, 0xc33707d6, 0xf4d50d87, 0x455a14ed,
   0xa9e3e905, 0xfcefa3f8, 0x676f02d9, 0x8d2a4c8a,
   0xfffa3942, 0x8771f681, 0x6d9d6122, 0xfde5380c,
   0xa4beea44, 0x4bdecfa9, 0xf6bb4b60, 0xbebfbc70,
   0x289b7ec6, 0xeaa127fa, 0xd4ef3085, 0x04881d05,
   0xd9d4d039, 0xe6db99e5, 0x1fa27cf8, 0xc4ac5665,
   0xf4292244, 0x432aff97, 0xab9423a7, 0xfc93a039,
   0x655b59c3, 0x8f0ccc92, 0xffeff47d, 0x85845dd1,
   0x6fa87e4f, 0xfe2ce6e0, 0xa3014314, 0x4e0811a1,
   0xf7537e82, 0xbd3af235, 0x2ad7d2bb, 0xeb86d391]

/-- Little-endian byte serialization (`k` bytes). -/
def leBytes (k n : ℕ) : List ℕ := (List.range k).map (fun i => n / 256 ^ i % 256)

/-- MD5 padding: `0x80`, zeros to 56 mod 64, then the little-endian 64-bit
bit length. -/
def md5Pad (msg : List ℕ) : List ℕ :=
  msg ++ [128] ++ List.replicate ((119 - msg.length % 64) % 64) 0
    ++ leBytes 8 (8 * msg.length % 2 ^ 64)

/-- The 16 little-endian message words of one 64-byte chunk. -/
def md5Words (chunk : List ℕ) : List ℕ :=
  (List.range 16).map (fun g =>
    chunk.getD (4 * g) 0 + 256 * chunk.getD (4 * g + 1) 0
      + 65536 * chunk.getD (4 * g + 2) 0 + 16777216 * chunk.getD (4 * g + 3) 0)

/-- The round function F/G/H/I by round index. -/
def md5F (i b c d : ℕ) : ℕ :=
  if i < 16 then Nat.lor (Nat.land b c) (Nat.land (wnot b) d)
  else if i < 32 then Nat.lor (Nat.land d b) (Nat.land (wnot d) c)
  else if i < 48 then Nat.xor b (Nat.xor c d)
  else Nat.xor c (Nat.lor b (wnot d))

/-- The message-word index by round index. -/
def md5G (i : ℕ) : ℕ :=
  if i < 16 then i
  else if i < 32 then (5 * i + 1) % 16
  else if i < 48 then (3 * i + 5) % 16
  else 7 * i % 16

/-- One MD5 round on the running `(A, B, C, D)` state. -/
def md5Step (M : List ℕ) (st : ℕ × ℕ × ℕ × ℕ) (i : ℕ) : ℕ × ℕ × ℕ × ℕ :=
  let f := w32 (md5F i st.2.1 st.2.2.1 st.2.2.2 + st.1
    + md5K.getD i 0 + M.getD (md5G i) 0)
  (st.2.2.2, w32 (st.2.1 + rotl (md5S.getD i 0) f), st.2.1, st.2.2.1)

/-- Process one 64-byte chunk. -/
def md5Chunk (st : ℕ × ℕ × ℕ × ℕ) (chunk : List ℕ) : ℕ × ℕ × ℕ × ℕ :=
  let r := (List.range 64).foldl (md5Step (md5Words chunk)) st
  (w32 (st.1 + r.1), w32 (st.2.1 + r.2.1),
   w32 (st.2.2.1 + r.2.2.1), w32 (st.2.2.2 + r.2.2.2))

/-- `hashlib.md5(bytes).digest()`. -/
def md5Bytes (msg : List ℕ) : List ℕ :=
  let padded := md5Pad msg
  let st := (chunks64 padded.length padded).foldl md5Chunk
    (0x67452301, 0xefcdab89, 0x98badcfe, 0x10325476)
  leBytes 4 st.1 ++ leBytes 4 st.2.1 ++ leBytes 4 st.2.2.1 ++ leBytes 4 st.2.2.2

/-- `hashlib.md5(s.encode('utf-8')).hexdigest()`. -/
def md5Hex (s : List Char) : List Char := bytesHex (md5Bytes (utf8Encode s))

set_option maxRecDepth 100000 in
/-- Sanity: the RFC 1321 test vector for the empty message. -/
theorem md5Hex_nil : md5Hex [] = "d41d8cd98f00b204e9800998ecf8427e".data := by
  decide

set_option maxRecDepth 100000 in
/-- Sanity: the RFC 1321 test vector for `"abc"`. -/
theorem md5Hex_abc :
    md5Hex "abc".data = "900150983cd24fb0d6963f7d28e17f72".data := by
  decide

end NewsAnalyzer.Hash

namespace NewsAnalyzer.Hash

/-- Big-endian byte serialization (`k` bytes). -/
def beBytes (k n : ℕ) : List ℕ :=
  (List.range k).map (fun i => n / 256 ^ (k - 1 - i) % 256)

/-- SHA-1 padding: `0x80`, zeros to 56 mod 64, then the big-endian 64-bit
bit length. -/
def sha1Pad (msg : List ℕ) : List ℕ :=
  msg ++ [128] ++ List.replicate ((119 - msg.length % 64) % 64) 0
    ++ beBytes 8 (8 * msg.length % 2 ^ 64)

/-- The 16 big-endian message words of one 64-byte chunk. -/
def sha1Words (chunk : List ℕ) : List ℕ :=
  (List.range 16).map (fun g =>
    16777216 * chunk.getD (4 * g) 0 + 65536 * chunk.getD (4 * g + 1) 0
      + 256 * chunk.getD (4 * g + 2) 0 + chunk.getD (4 * g + 3) 0)

/-- Extend the 16 message words to 80 (`W[i] = rotl1(W[i-3]^W[i-8]^W[i-14]^W[i-16])`). -/
def sha1Extend : ℕ → List ℕ → List ℕ
  | 0, ws => ws
  | fuel + 1, ws =>
    let i := ws.length
    sha1Extend fuel (ws ++ [rotl 1 (Nat.xor (ws.getD (i - 3) 0)
      (Nat.xor (ws.getD (i - 8) 0)
        (Nat.xor (ws.getD (i - 14) 0) (ws.getD (i - 16) 0))))])

/-- Round function and constant for round `i`. -/
def sha1FK (i b c d : ℕ) : ℕ × ℕ :=
  if i < 20 then (Nat.lor (Nat.land b c) (Nat.land (wnot b) d), 0x5a827999)
  else if i < 40 then (Nat.xor b (Nat.xor c d), 0x6ed9eba1)
  else if i < 60 then
    (Nat.lor (Nat.land b c) (Nat.lor (Nat.land b d) (Nat.land c d)), 0x8f1bbcdc)
  else (Nat.xor b (Nat.xor c d), 0xca62c1d6)

/-- One SHA-1 round on the running `(a, b, c, d, e)` state. -/
def sha1Step (W : List ℕ) (st : ℕ × ℕ × ℕ × ℕ × ℕ) (i : ℕ) :
    ℕ × ℕ × ℕ × ℕ × ℕ :=
  let fk := sha1FK i st.2.1 st.2.2.1 st.2.2.2.1
  let temp := w32 (rotl 5 st.1 + fk.1 + st.2.2.2.2 + fk.2 + W.getD i 0)
  (temp, st.1, rotl 30 st.2.1, st.2.2.1, st.2.2.2.1)

/-- Process one 64-byte chunk. -/
def sha1Chunk (st : ℕ × ℕ × ℕ × ℕ × ℕ) (chunk : List ℕ) :
    ℕ × ℕ × ℕ × ℕ × ℕ :=
  let W := sha1Extend 64 (sha1Words chunk)
  let r := (List.range 80).foldl (sha1Step W) st
  (w32 (st.1 + r.1), w32 (st.2.1 + r.2.1), w32 (st.2.2.1 + r.2.2.1),
   w32 (st.2.2.2.1 + r.2.2.2.1), w32 (st.2.2.2.2 + r.2.2.2.2))

/-- `hashlib.sha1(bytes).digest()`. -/
def sha1Bytes (msg : List ℕ) : List ℕ :=
  let padded := sha1Pad msg
  let st := (chunks64 padded.length padded).foldl sha1Chunk
    (0x67452301, 0xefcdab89, 0x98badcfe, 0x10325476, 0xc3d2e1f0)
  beBytes 4 st.1 ++ beBytes 4 st.2.1 ++ beBytes 4 st.2.2.1
    ++ beBytes 4 st.2.2.2.1 ++ beBytes 4 st.2.2.2.2

set_option maxRecDepth 100000 in
/-- Sanity: the RFC 3174 test vector for `"abc"`. -/
theorem sha1_abc :
    bytesHex (sha1Bytes (utf8Encode "abc".data)) =
      "a9993e364706816aba3e25717850c26c9cd0d89d".data := by
  decide

/-- The 16 bytes of `uuid.NAMESPACE_URL` (`6ba7b811-9dad-11d1-80b4-00c04fd430c8`). -/
def namespaceURL : List ℕ :=
  [0x6b, 0xa7, 0xb8, 0x11, 0x9d, 0xad, 0x11, 0xd1,
   0x80, 0xb4, 0x00, 0xc0, 0x4f, 0xd4, 0x30, 0xc8]

/-- `uuid.uuid5(namespace, name)` bytes per RFC 4122: the first 16 bytes of
`sha1(namespace.bytes + name.encode('utf-8'))` with the version nibble set
to 5 and the variant bits set to `10`. -/
def uuid5Bytes (ns : List ℕ) (name : List Char) : List ℕ :=
  let d := (sha1Bytes (ns ++ utf8Encode name)).take 16
  d.mapIdx (fun i b =>
    if i = 6 then b % 16 + 80
    else if i = 8 then b % 64 + 128
    else b)

/-- `str(uuid)`: lowercase hex in 8-4-4-4-12 grouping. -/
def uuidStr (bs : List ℕ) : List Char :=
  bytesHex (bs.take 4) ++ ['-'] ++ bytesHex ((bs.drop 4).take 2) ++ ['-']
    ++ bytesHex ((bs.drop 6).take 2) ++ ['-'] ++ bytesHex ((bs.drop 8).take 2)
    ++ ['-'] ++ bytesHex (bs.drop 10)

/-- Decimal digits of a natural number (`str(n)` for `n ≥ 0`), fuel-driven. -/
def natDecimalAux : ℕ → ℕ → List Char
  | 0, _ => []
  | fuel + 1, n =>
    if n < 10 then [hexChars.getD n '0']
    else natDecimalAux fuel (n / 10) ++ [hexChars.getD (n % 10) '0']

/-- Python `str(n)` for a nonnegative `int`. -/
def pyStrOfNat (n : ℕ) : List Char := natDecimalAux (n + 1) n

set_option maxRecDepth 100000 in
/-- Sanity: `str(uuid.uuid5(uuid.NAMESPACE_URL, "article:7"))` as computed by
CPython. -/
theorem uuid5_article_7 :
    uuidStr (uuid5Bytes namespaceURL ("article:".data ++ pyStrOfNat 7)) =
      "d7830106-db7f-5419-af47-368ac38904ba".data := by
  decide

end NewsAnalyzer.Hash

namespace NewsAnalyzer

/-! ## Regex substitutions used by the extractors

`re.sub(r'\n\s*\n', '\n\n', s)`, `re.sub(r'[ \t]+', ' ', s)` and
`re.sub(r'\s+', ' ', s)` with CPython's leftmost-longest-with-backtracking
semantics (`\s` restricted to its ASCII members, the only ones the pipeline
produces).  All three are fuel-driven with `fuel ≥ length`, which the
wrappers establish. -/

def isSpaceTab (c : Char) : Bool := c = ' ' || c = '\t'

/-- `re.sub(r'[ \t]+', ' ', s)`: collapse space/tab runs to one space. -/
def subSpaceTabAux : ℕ → List Char → List Char
  | 0, l => l
  | _, [] => []
  | fuel + 1, c :: rest =>
    if isSpaceTab c then ' ' :: subSpaceTabAux fuel (rest.dropWhile isSpaceTab)
    else c :: subSpaceTabAux fuel rest

def subSpaceTab (s : List Char) : List Char := subSpaceTabAux s.length s

/-- `re.sub(r'\s+', ' ', s)`: collapse whitespace runs to one space. -/
def subWsAux : ℕ → List Char → List Char
  | 0, l => l
  | _, [] => []
  | fuel + 1, c :: rest =>
    if isPySpace c then ' ' :: subWsAux fuel (rest.dropWhile isPySpace)
    else c :: subWsAux fuel rest

def subWs (s : List Char) : List Char := subWsAux s.length s

/-- `re.sub(r'\n\s*\n', '\n\n', s)`: a greedy `\s*` with backtracking makes
the match run from a `'\n'` to the last `'\n'` inside the maximal whitespace
run that starts there (when that run holds a second newline); scanning
resumes right after the match. -/
def subBlankLinesAux : ℕ → List Char → List Char
  | 0, l => l
  | _, [] => []
  | fuel + 1, c :: rest =>
    if c = '\n' then
      let run := rest.takeWhile isPySpace
      if run.contains '\n' then
        let afterLast := (run.reverse.takeWhile (· ≠ '\n')).reverse
        '\n' :: '\n' ::
          subBlankLinesAux fuel (afterLast ++ rest.dropWhile isPySpace)
      else c :: subBlankLinesAux fuel rest
    else c :: subBlankLinesAux fuel rest

def subBlankLines (s : List Char) : List Char := subBlankLinesAux s.length s

end NewsAnalyzer

namespace NewsAnalyzer.Pdf

/-! ## C7 — word-count gate of the PDF and HTML extractors

`PDFExtractor._create_article_from_blocks` builds the cleaned content,
computes `word_count = len(content.split())` and returns `None` whenever
`word_count < min_article_words` (default 10).  The HTML paths
(`_extract_main_article`, `_extract_article_from_element`) apply the same
gate on their candidate content, and `HTMLArticle.__post_init__` recomputes
`word_count` from the stored content whenever the field is falsy (callers
never pass it). -/

/-- The emission threshold default (`min_article_words: int = 10`). -/
def defaultMinArticleWords : ℕ := 10

/-- `pdf_extractor.Article` (the `hash` field is filled by `__post_init__`
with `md5(title + content)`). -/
structure Article where
  title : List Char
  content : List Char
  pageNumber : ℤ
  column : ℕ
  x0 : ℚ
  y0 : ℚ
  x1 : ℚ
  y1 : ℚ
  wordCount : ℕ
  datePublished : Option ℤ := none
  sectionName : Option (List Char) := none
  hash : List Char := []
  deriving Repr, DecidableEq

/-- Python truthiness of an optional string (`None` and `""` are falsy). -/
def strTruthy : Option (List Char) → Bool
  | none => false
  | some s => !s.isEmpty

/-- `PDFExtractor._create_article_from_blocks`. -/
def createArticleFromBlocks (minWords : ℕ) (blocks : List TextBlock)
    (title : Option (List Char)) : Option Article :=
  match blocks with
  | [] => none
  | first :: _ =>
    let contentParts := blocks.map (fun b => pyStrip b.text)
    let content0 := pyStrip (pyJoin ['\n'] contentParts)
    let content := subSpaceTab (subBlankLines content0)
    let wordCount := (pySplit content).length
    if wordCount < minWords then none
    else
      let finalTitle :=
        if strTruthy title then
          (pyStrip (subWs (title.getD []))).take 200
        else
          let firstLine := content.takeWhile (· ≠ '\n')
          firstLine.take 100 ++
            (if 100 < firstLine.length then ['.', '.', '.'] else [])
      some
        { title := finalTitle
          content := content
          pageNumber := first.pageNumber
          column := first.column
          x0 := ((blocks.map (·.x0)).minimum?.getD 0)
          y0 := ((blocks.map (·.y0)).minimum?.getD 0)
          x1 := ((blocks.map (·.x1)).maximum?.getD 0)
          y1 := ((blocks.map (·.y1)).maximum?.getD 0)
          wordCount := wordCount
          hash := Hash.md5Hex (finalTitle ++ content) }

end NewsAnalyzer.Pdf

namespace NewsAnalyzer.Html

open NewsAnalyzer.Pdf (defaultMinArticleWords)

/-- `html_extractor.HTMLArticle` after `__post_init__` (the constructor
recomputes a falsy `word_count` from the content and fills the hash). -/
structure HTMLArticle where
  title : List Char
  content : List Char
  url : Option (List Char) := none
  author : Option (List Char) := none
  sectionName : Option (List Char) := none
  tags : List (List Char) := []
  wordCount : ℕ
  rawHtml : Option (List Char) := none
  hash : List Char := []
  deriving Repr, DecidableEq

/-- `HTMLArticle(...)` + `__post_init__`: `word_count` defaults to `0` and a
falsy value is replaced by `len(content.split())`. -/
def mkHTMLArticle (title content : List Char) (url author sectionName :
    Option (List Char)) (tags : List (List Char))
    (rawHtml : Option (List Char)) (wordCount : ℕ := 0) : HTMLArticle :=
  { title := title
    content := content
    url := url
    author := author
    sectionName := sectionName
    tags := tags
    wordCount := if wordCount = 0 then (pySplit content).length else wordCount
    rawHtml := rawHtml
    hash := Hash.md5Hex (title ++ content) }

/-- The emission gate of `_extract_main_article`: strip the boilerplate
extractor's text, reject when `len(content.split()) < min_article_words`
(the title/author/section/tags inputs come from the external `trafilatura`
data). -/
def mainArticleGate (minWords : ℕ) (trafText title : List Char)
    (url author sectionName : Option (List Char)) (tags : List (List Char))
    (rawHtml : Option (List Char)) : Option HTMLArticle :=
  let content := pyStrip trafText
  if (pySplit content).length < minWords then none
  else some (mkHTMLArticle title content url author sectionName tags rawHtml)

/-- The emission gate of `_extract_article_from_element`: the element's text
is stripped and run through the same two `re.sub` cleanups by
`_extract_content_from_element`; a falsy or short candidate is dropped. -/
def elementArticleGate (minWords : ℕ) (elementText title : List Char)
    (url author sectionName : Option (List Char))
    (rawHtml : Option (List Char)) : Option HTMLArticle :=
  let content := subSpaceTab (subBlankLines (pyStrip elementText))
  if content.isEmpty then none
  else if (pySplit content).length < minWords then none
  else some (mkHTMLArticle title content url author sectionName [] rawHtml)

end NewsAnalyzer.Html

namespace NewsAnalyzer.Pdf

/-- **C7 (confirmed).** Every article emitted by the PDF extractor or by
either HTML extraction path satisfies
`word_count = len(content.split())` over its cleaned content and
`word_count ≥ min_article_words` (default 10); shorter candidates are
dropped, never emitted. -/
theorem word_count_gate (minWords : ℕ) (blocks : List TextBlock)
    (title : Option (List Char)) (a : Article)
    (trafText etext t2 : List Char) (url author sectionName : Option (List Char))
    (tags : List (List Char)) (rawHtml : Option (List Char))
    (h1 h2 : Html.HTMLArticle) :
    defaultMinArticleWords = 10
      ∧ (createArticleFromBlocks minWords blocks title = some a →
          a.wordCount = (pySplit a.content).length ∧ minWords ≤ a.wordCount)
      ∧ (Html.mainArticleGate minWords trafText t2 url author sectionName tags
            rawHtml = some h1 →
          h1.wordCount = (pySplit h1.content).length
            ∧ minWords ≤ h1.wordCount)
      ∧ (Html.elementArticleGate minWords etext t2 url author sectionName
            rawHtml = some h2 →
          h2.wordCount = (pySplit h2.content).length
            ∧ minWords ≤ h2.wordCount) := by
  refine ⟨rfl, ?_, ?_, ?_⟩
  · intro h
    match blocks, h with
    | first :: rest, h =>
      simp only [createArticleFromBlocks] at h
      by_cases hlt : (pySplit (subSpaceTab (subBlankLines (pyStrip
          (pyJoin ['\n'] ((first :: rest).map (fun b => pyStrip b.text))))))).length
          < minWords
      · rw [if_pos hlt] at h; exact absurd h (by simp)
      · rw [if_neg hlt] at h
        cases h
        exact ⟨rfl, le_of_not_lt hlt⟩
  · intro h
    simp only [Html.mainArticleGate] at h
    by_cases hlt : (pySplit (pyStrip trafText)).length < minWords
    · rw [if_pos hlt] at h; exact absurd h (by simp)
    · rw [if_neg hlt] at h
      cases h
      simp only [Html.mkHTMLArticle, if_pos rfl]
      exact ⟨rfl, le_of_not_lt hlt⟩
  · intro h
    simp only [Html.elementArticleGate] at h
    by_cases hemp : (subSpaceTab (subBlankLines (pyStrip etext))).isEmpty
    · rw [if_pos hemp] at h; exact absurd h (by simp)
    · rw [if_neg hemp] at h
      by_cases hlt : (pySplit (subSpaceTab (subBlankLines (pyStrip
          etext)))).length < minWords
      · rw [if_pos hlt] at h; exact absurd h (by simp)
      · rw [if_neg hlt] at h
        cases h
        simp only [Html.mkHTMLArticle, if_pos rfl]
        exact ⟨rfl, le_of_not_lt hlt⟩

set_option maxRecDepth 200000 in
/-- Witness discharging `word_count_gate` at a concrete 12-word PDF article
and concrete HTML candidates. -/
theorem word_count_gate_witness :
    createArticleFromBlocks 10
        [⟨"the quick brown fox jumps over the lazy dog again and again".data,
          72, 700, 172, 720, 1, none, false, 0⟩] none
      = some
        { title := "the quick brown fox jumps over the lazy dog again and again".data
          content := "the quick brown fox jumps over the lazy dog again and again".data
          pageNumber := 1
          column := 0
          x0 := 72, y0 := 700, x1 := 172, y1 := 720
          wordCount := 12
          hash := Hash.md5Hex
            ("the quick brown fox jumps over the lazy dog again and again".data
              ++ "the quick brown fox jumps over the lazy dog again and again".data) }
      ∧ (12 = (pySplit "the quick brown fox jumps over the lazy dog again and again".data).length
          ∧ 10 ≤ 12) := by
  constructor
  · decide
  · have := (word_count_gate 10
      [⟨"the quick brown fox jumps over the lazy dog again and again".data,
        72, 700, 172, 720, 1, none, false, 0⟩] none
      { title := "the quick brown fox jumps over the lazy dog again and again".data
        content := "the quick brown fox jumps over the lazy dog again and again".data
        pageNumber := 1
        column := 0
        x0 := 72, y0 := 700, x1 := 172, y1 := 720
        wordCount := 12
        hash := Hash.md5Hex
          ("the quick brown fox jumps over the lazy dog again and again".data
            ++ "the quick brown fox jumps over the lazy dog again and again".data) }
      [] [] [] none none none [] none
      ⟨[], [], none, none, none, [], 0, none, []⟩
      ⟨[], [], none, none, none, [], 0, none, []⟩).2.1 (by decide)
    exact ⟨this.1, this.2⟩

end NewsAnalyzer.Pdf

namespace NewsAnalyzer.Downloader

/-! ## C8 — `scraper/downloader.py`, `DownloadCache._get_object_key`

`key = f"{edition.date.isoformat()}/{publication_slug}_page_{page.page_number:03d}_{url_hash}{extension}"`
with `url_hash = md5(page.url.encode()).hexdigest()[:8]`,
`publication_slug = _slugify(edition.publication)` and the extension derived
by `_get_file_extension` from the URL path first and the declared format
second. -/

def isAsciiDigit (c : Char) : Bool := '0' ≤ c && c ≤ '9'

def isAsciiAlnum (c : Char) : Bool :=
  isAsciiDigit c || ('a' ≤ c && c ≤ 'z') || ('A' ≤ c && c ≤ 'Z')

/-- `re.sub(r"[^a-zA-Z0-9]+", "-", s)`: each maximal run of non-alphanumeric
characters becomes one dash. -/
def slugSubAux : ℕ → List Char → List Char
  | 0, l => l
  | _, [] => []
  | fuel + 1, c :: rest =>
    if isAsciiAlnum c then c :: slugSubAux fuel rest
    else '-' :: slugSubAux fuel (rest.dropWhile (fun d => !isAsciiAlnum d))

def slugSub (s : List Char) : List Char := slugSubAux s.length s

/-- `str.strip('-')`. -/
def stripDashes (s : List Char) : List Char :=
  ((s.dropWhile (· = '-')).reverse.dropWhile (· = '-')).reverse

/-- `DownloadCache._slugify` (the `str.lower` model is ASCII `Char.toLower`;
the divergence only affects which non-slug characters collapse to a dash). -/
def slugify (text : Option (List Char)) : List Char :=
  match text with
  | none => "default".data
  | some t =>
    if t.isEmpty then "default".data
    else
      let slug := stripDashes (slugSub (pyLower (pyStrip t)))
      if slug.isEmpty then "default".data else slug

/-- The path component of `urllib.parse.urlparse`: fragment and query are
cut, then an RFC 3986 `scheme:` prefix and a `//netloc` are removed. -/
def urlparsePath (url : List Char) : List Char :=
  let s := (url.takeWhile (· ≠ '#')).takeWhile (· ≠ '?')
  let pre := s.takeWhile (· ≠ ':')
  let s :=
    if pre.length < s.length ∧ ¬pre.isEmpty
        ∧ pre.all (fun c => isAsciiAlnum c || c = '+' || c = '-' || c = '.')
        ∧ !isAsciiDigit (pre.headD '0') then
      s.drop (pre.length + 1)
    else s
  if pyStartsWith s "//".data then (s.drop 2).dropWhile (· ≠ '/')
  else s

def pyEndsWith (s p : List Char) : Bool := p.isSuffixOf s

/-- `DownloadCache._get_file_extension`. -/
def getFileExtension (url formatType : List Char) : List Char :=
  let path := pyLower (urlparsePath url)
  if pyEndsWith path ".pdf".data then ".pdf".data
  else if formatType = "pdf".data then ".pdf".data
  else ".html".data

/-- A `datetime.date` (the type invariant `1 ≤ month ≤ 12`, `1 ≤ day ≤ 31`,
`1 ≤ year ≤ 9999` is carried as theorem hypotheses). -/
structure PyDate where
  year : ℕ
  month : ℕ
  day : ℕ
  deriving Repr, DecidableEq

/-- Zero-pad a nonnegative decimal to a minimum width (`f"{n:0Nd}"`). -/
def pad0 (w n : ℕ) : List Char :=
  List.replicate (w - (Hash.pyStrOfNat n).length) '0' ++ Hash.pyStrOfNat n

/-- `date.isoformat()`. -/
def dateIso (d : PyDate) : List Char :=
  pad0 4 d.year ++ ['-'] ++ pad0 2 d.month ++ ['-'] ++ pad0 2 d.day

/-- `f"{n:03d}"` for a Python `int` (the sign counts toward the width). -/
def format03d (n : ℤ) : List Char :=
  if n < 0 then '-' :: pad0 2 n.natAbs else pad0 3 n.toNat

/-- `DownloadCache._get_object_key`. -/
def getObjectKey (dat : PyDate) (publication : Option (List Char))
    (pageNumber : ℤ) (url fmt : List Char) : List Char :=
  dateIso dat ++ ['/'] ++ slugify publication ++ "_page_".data
    ++ format03d pageNumber ++ ['_'] ++ (Hash.md5Hex url).take 8
    ++ getFileExtension url fmt

/-! The spec's key pattern
`^\d{4}-\d{2}-\d{2}/[a-z0-9-]+_page_\d{3}_[0-9a-f]{8}\.(pdf|html)$` as an
executable matcher.  The parse is deterministic: `_` is outside
`[a-z0-9-]`, so the class run must end exactly at the first underscore, and
every other piece has fixed width. -/

def isLowerHexDigit (c : Char) : Bool := isAsciiDigit c || ('a' ≤ c && c ≤ 'f')

def isSlugChar (c : Char) : Bool :=
  isAsciiDigit c || ('a' ≤ c && c ≤ 'z') || c = '-'

/-- Consume exactly `n` characters satisfying `p`. -/
def expectClass (p : Char → Bool) (n : ℕ) (s : List Char) :
    Option (List Char) :=
  if (s.take n).length = n ∧ (s.take n).all p then some (s.drop n) else none

/-- Consume a literal. -/
def expectLit (lit s : List Char) : Option (List Char) :=
  if lit.isPrefixOf s then some (s.drop lit.length) else none

/-- Decide `^\d{4}-\d{2}-\d{2}/[a-z0-9-]+_page_\d{3}_[0-9a-f]{8}\.(pdf|html)$`. -/
def matchesCacheKey (s : List Char) : Bool :=
  (Option.isSome <| do
    let s ← expectClass isAsciiDigit 4 s
    let s ← expectLit ['-'] s
    let s ← expectClass isAsciiDigit 2 s
    let s ← expectLit ['-'] s
    let s ← expectClass isAsciiDigit 2 s
    let s ← expectLit ['/'] s
    if (s.takeWhile isSlugChar).isEmpty then none else do
      let s ← expectLit "_page_".data (s.drop (s.takeWhile isSlugChar).length)
      let s ← expectClass isAsciiDigit 3 s
      let s ← expectLit ['_'] s
      let s ← expectClass isLowerHexDigit 8 s
      let s ← expectLit ['.'] s
      if s = "pdf".data ∨ s = "html".data then some ([] : List Char)
      else none)

end NewsAnalyzer.Downloader

namespace NewsAnalyzer.Downloader

theorem char_toNat_ofNat (n : ℕ) (h : n.isValidChar) :
    (Char.ofNat n).toNat = n := by
  unfold Char.ofNat
  split
  · rfl
  · rename_i hv; exact absurd h hv

/-- `Char.toLower` never returns an ASCII uppercase letter. -/
theorem toLower_not_upper (c : Char) :
    ¬ ('A' ≤ Char.toLower c ∧ Char.toLower c ≤ 'Z') := by
  unfold Char.toLower
  by_cases h : c.toNat ≥ 65 ∧ c.toNat ≤ 90
  · simp only [h, if_true]
    have hv : (c.toNat + 32).isValidChar := Or.inl (by omega)
    intro ⟨h1, h2⟩
    rw [Char.le_def] at h1 h2
    have hval : (Char.ofNat (c.toNat + 32)).toNat = c.toNat + 32 :=
      char_toNat_ofNat _ hv
    have h1' : (65 : ℕ) ≤ (Char.ofNat (c.toNat + 32)).toNat := by
      exact_mod_cast h1
    have h2' : (Char.ofNat (c.toNat + 32)).toNat ≤ 90 := by
      exact_mod_cast h2
    omega
  · simp only [h, if_false]
    intro ⟨h1, h2⟩
    rw [Char.le_def] at h1 h2
    have h1' : (65 : ℕ) ≤ c.toNat := by exact_mod_cast h1
    have h2' : c.toNat ≤ 90 := by exact_mod_cast h2
    exact h ⟨h1', h2'⟩

theorem natDecimalAux_all_digit (fuel : ℕ) :
    ∀ n, ∀ c ∈ Hash.natDecimalAux fuel n, isAsciiDigit c = true := by
  induction fuel with
  | zero => intro n c hc; simp [Hash.natDecimalAux] at hc
  | succ f ih =>
    intro n c hc
    unfold Hash.natDecimalAux at hc
    by_cases h : n < 10
    · rw [if_pos h] at hc
      simp only [List.mem_singleton] at hc
      subst hc
      interval_cases n <;> decide
    · rw [if_neg h] at hc
      rcases List.mem_append.1 hc with hc' | hc'
      · exact ih _ c hc'
      · simp only [List.mem_singleton] at hc'
        subst hc'
        have h10 : n % 10 < 10 := Nat.mod_lt _ (by norm_num)
        set m := n % 10 with hm
        interval_cases m <;> decide

theorem natDecimalAux_length_le (fuel : ℕ) :
    ∀ n k, n < 10 ^ k → 1 ≤ k →
      (Hash.natDecimalAux fuel n).length ≤ k := by
  induction fuel with
  | zero => intro n k _ _; simp [Hash.natDecimalAux]
  | succ f ih =>
    intro n k hn hk
    unfold Hash.natDecimalAux
    by_cases h : n < 10
    · simp [h, hk]
    · rw [if_neg h]
      have hk2 : 2 ≤ k := by
        by_contra hlt
        have : k = 1 := by omega
        subst this
        simp at hn
        omega
      have hdiv : n / 10 < 10 ^ (k - 1) := by
        rw [Nat.div_lt_iff_lt_mul (by norm_num : (0:ℕ) < 10)]
        calc n < 10 ^ k := hn
          _ = 10 ^ (k - 1) * 10 := by
            rw [← pow_succ]
            congr 1
            omega
      have := ih (n / 10) (k - 1) hdiv (by omega)
      simp only [List.length_append, List.length_singleton]
      omega

theorem pyStrOfNat_all_digit (n : ℕ) :
    ∀ c ∈ Hash.pyStrOfNat n, isAsciiDigit c = true :=
  natDecimalAux_all_digit (n + 1) n

theorem pyStrOfNat_length_le (n k : ℕ) (hn : n < 10 ^ k) (hk : 1 ≤ k) :
    (Hash.pyStrOfNat n).length ≤ k :=
  natDecimalAux_length_le (n + 1) n k hn hk

theorem pad0_spec (w n : ℕ) (hn : n < 10 ^ w) (hw : 1 ≤ w) :
    (pad0 w n).length = w ∧ ∀ c ∈ pad0 w n, isAsciiDigit c = true := by
  have hlen := pyStrOfNat_length_le n w hn hw
  constructor
  · simp only [pad0, List.length_append, List.length_replicate]
    omega
  · intro c hc
    rcases List.mem_append.1 hc with hc' | hc'
    · rw [List.eq_of_mem_replicate hc']
      decide
    · exact pyStrOfNat_all_digit n c hc'

theorem expectClass_append (p : Char → Bool) (a b : List Char)
    (hall : ∀ c ∈ a, p c = true) :
    expectClass p a.length (a ++ b) = some b := by
  simp only [expectClass, List.take_left, List.drop_left, List.all_eq_true]
  rw [if_pos ⟨trivial, hall⟩]

theorem expectLit_append (lit b : List Char) :
    expectLit lit (lit ++ b) = some b := by
  simp [expectLit, List.isPrefixOf_iff_prefix.2 (List.prefix_append lit b),
    List.drop_left]

theorem takeWhile_append_all (p : Char → Bool) (a b : List Char)
    (ha : ∀ c ∈ a, p c = true)
    (hb : ∀ c, b.head? = some c → p c = false) :
    (a ++ b).takeWhile p = a := by
  induction a with
  | nil =>
    cases b with
    | nil => rfl
    | cons c t =>
      simp only [List.nil_append, List.takeWhile]
      rw [hb c rfl]
  | cons c t ih =>
    simp only [List.cons_append, List.takeWhile, ha c (by simp)]
    congr 1
    exact ih (fun d hd => ha d (by simp [hd]))

theorem dropWhile_length_le (p : Char → Bool) (l : List Char) :
    (l.dropWhile p).length ≤ l.length := by
  induction l with
  | nil => simp
  | cons c t ih => by_cases h : p c <;> simp [List.dropWhile, h] <;> omega

theorem slugSubAux_slug_chars (fuel : ℕ) :
    ∀ s : List Char, s.length ≤ fuel →
      (∀ c ∈ s, ¬('A' ≤ c ∧ c ≤ 'Z')) →
      ∀ c ∈ slugSubAux fuel s, isSlugChar c = true := by
  induction fuel with
  | zero =>
    intro s hs _ c hc
    have : s = [] := List.length_eq_zero.1 (by omega)
    subst this
    simp [slugSubAux] at hc
  | succ f ih =>
    intro s hs hup c hc
    cases s with
    | nil => simp [slugSubAux] at hc
    | cons d rest =>
      unfold slugSubAux at hc
      by_cases hd : isAsciiAlnum d
      · rw [if_pos hd] at hc
        rcases List.mem_cons.1 hc with rfl | hc'
        · have hnotup := hup c (by simp)
          simp only [isAsciiAlnum, Bool.or_eq_true] at hd
          simp only [isSlugChar, Bool.or_eq_true]
          rcases hd with (h | h) | h
          · exact Or.inl (Or.inl h)
          · exact Or.inl (Or.inr h)
          · exact absurd ⟨by simpa using (Bool.and_elim_left h),
              by simpa using (Bool.and_elim_right h)⟩ hnotup
        · exact ih rest (by simpa using Nat.le_of_succ_le_succ hs)
            (fun e he => hup e (by simp [he])) c hc'
      · rw [if_neg hd] at hc
        rcases List.mem_cons.1 hc with rfl | hc'
        · decide
        · refine ih _ ?_ ?_ c hc'
          · have := dropWhile_length_le (fun d => !isAsciiAlnum d) rest
            simp only [List.length_cons] at hs
            omega
          · intro e he
            have : e ∈ rest := (List.dropWhile_sublist _).subset he
            exact hup e (by simp [this])
end NewsAnalyzer.Downloader

namespace NewsAnalyzer.Downloader

theorem stripDashes_subset (s : List Char) : ∀ c ∈ stripDashes s, c ∈ s := by
  intro c hc
  simp only [stripDashes, List.mem_reverse] at hc
  have h1 := (List.dropWhile_sublist (· = '-')).subset hc
  rw [List.mem_reverse] at h1
  exact (List.dropWhile_sublist (· = '-')).subset h1

/-- `_slugify` always produces a nonempty string over `[a-z0-9-]`. -/
theorem slugify_spec (publication : Option (List Char)) :
    slugify publication ≠ []
      ∧ ∀ c ∈ slugify publication, isSlugChar c = true := by
  have hdefault : ("default".data ≠ [] ∧
      ∀ c ∈ "default".data, isSlugChar c = true) := by decide
  match publication with
  | none => exact hdefault
  | some t =>
    simp only [slugify]
    by_cases h1 : t.isEmpty
    · rw [if_pos h1]; exact hdefault
    · rw [if_neg h1]
      by_cases h2 : (stripDashes (slugSub (pyLower (pyStrip t)))).isEmpty
      · rw [if_pos h2]; exact hdefault
      · rw [if_neg h2]
        refine ⟨fun he => h2 (by simp [he]), ?_⟩
        intro c hc
        have hmem := stripDashes_subset _ c hc
        refine slugSubAux_slug_chars _ _ le_rfl ?_ c hmem
        intro d hd
        obtain ⟨e, _, rfl⟩ := List.mem_map.1 hd
        exact toLower_not_upper e

theorem bytesHex_length (bs : List ℕ) : (Hash.bytesHex bs).length = 2 * bs.length := by
  induction bs with
  | nil => rfl
  | cons b t ih =>
    simp only [Hash.bytesHex, List.flatMap_cons, List.length_append] at *
    simp [Hash.byteHex, ih]
    ring

theorem bytesHex_lower_hex (bs : List ℕ) :
    ∀ c ∈ Hash.bytesHex bs, isLowerHexDigit c = true := by
  have hdig : ∀ j, j < 16 → isLowerHexDigit (Hash.hexChars.getD j '0') = true := by
    decide
  intro c hc
  simp only [Hash.bytesHex, List.mem_flatMap] at hc
  obtain ⟨b, _, hc⟩ := hc
  simp only [Hash.byteHex, List.mem_cons, List.mem_singleton] at hc
  rcases hc with rfl | rfl | h
  · exact hdig _ (Nat.mod_lt _ (by norm_num))
  · exact hdig _ (Nat.mod_lt _ (by norm_num))
  · simp at h

theorem md5Bytes_length (msg : List ℕ) : (Hash.md5Bytes msg).length = 16 := by
  simp [Hash.md5Bytes, Hash.leBytes]

/-- The eight-character URL hash is always eight lowercase hex digits. -/
theorem md5_take8_spec (url : List Char) :
    ((Hash.md5Hex url).take 8).length = 8
      ∧ ∀ c ∈ (Hash.md5Hex url).take 8, isLowerHexDigit c = true := by
  constructor
  · rw [List.length_take, Hash.md5Hex, bytesHex_length, md5Bytes_length]
    norm_num
  · intro c hc
    exact bytesHex_lower_hex _ c (List.mem_of_mem_take hc)

theorem format03d_spec (n : ℤ) (h0 : 0 ≤ n) (h : n ≤ 999) :
    (format03d n).length = 3 ∧ ∀ c ∈ format03d n, isAsciiDigit c = true := by
  have hn : ¬ n < 0 := not_lt.2 h0
  have hlt : n.toNat < 10 ^ 3 := by omega
  simpa [format03d, hn] using pad0_spec 3 n.toNat hlt (by norm_num)

theorem getFileExtension_cases (url fmt : List Char) :
    getFileExtension url fmt = ".pdf".data
      ∨ getFileExtension url fmt = ".html".data := by
  unfold getFileExtension
  by_cases h1 : pyEndsWith (pyLower (urlparsePath url)) ".pdf".data
  · simp [h1]
  · by_cases h2 : fmt = "pdf".data <;> simp [h1, h2]

theorem expectClass_append' (p : Char → Bool) (n : ℕ) (a b : List Char)
    (hn : a.length = n) (hall : ∀ c ∈ a, p c = true) :
    expectClass p n (a ++ b) = some b := by
  subst hn
  exact expectClass_append p a b hall

theorem someBind {α β : Type} (a : α) (f : α → Option β) :
    (some a >>= f) = f a := rfl

/-- Building block: any string assembled from the eight well-formed pieces
matches the cache-key pattern. -/
theorem matchesCacheKey_build (y4 m2 d2 slug p3 h8 ext : List Char)
    (hy : y4.length = 4) (hya : ∀ c ∈ y4, isAsciiDigit c = true)
    (hm : m2.length = 2) (hma : ∀ c ∈ m2, isAsciiDigit c = true)
    (hd : d2.length = 2) (hda : ∀ c ∈ d2, isAsciiDigit c = true)
    (hslug : slug ≠ []) (hsluga : ∀ c ∈ slug, isSlugChar c = true)
    (hp : p3.length = 3) (hpa : ∀ c ∈ p3, isAsciiDigit c = true)
    (hh : h8.length = 8) (hha : ∀ c ∈ h8, isLowerHexDigit c = true)
    (hext : ext = ".pdf".data ∨ ext = ".html".data) :
    matchesCacheKey (y4 ++ ['-'] ++ m2 ++ ['-'] ++ d2 ++ ['/'] ++ slug
      ++ "_page_".data ++ p3 ++ ['_'] ++ h8 ++ ext) = true := by
  unfold matchesCacheKey
  rw [List.append_assoc, List.append_assoc, List.append_assoc,
    List.append_assoc, List.append_assoc, List.append_assoc,
    List.append_assoc, List.append_assoc, List.append_assoc,
    List.append_assoc]
  rw [expectClass_append' isAsciiDigit 4 y4 _ hy hya]
  simp only [someBind]
  rw [expectLit_append ['-'] _]
  simp only [someBind]
  rw [expectClass_append' isAsciiDigit 2 m2 _ hm hma]
  simp only [someBind]
  rw [expectLit_append ['-'] _]
  simp only [someBind]
  rw [expectClass_append' isAsciiDigit 2 d2 _ hd hda]
  simp only [someBind]
  rw [expectLit_append ['/'] _]
  simp only [someBind]
  rw [takeWhile_append_all isSlugChar slug _ hsluga ?hb]
  case hb =>
    intro c hc
    have : List.head? ("_page_".data ++ (p3 ++ (['_'] ++ (h8 ++ ext)))) =
        some '_' := rfl
    rw [this] at hc
    cases hc
    decide
  rw [if_neg (by simp [hslug])]
  rw [List.drop_left' rfl]
  rw [expectLit_append "_page_".data _]
  simp only [someBind]
  rw [expectClass_append' isAsciiDigit 3 p3 _ hp hpa]
  simp only [someBind]
  rw [expectLit_append ['_'] _]
  simp only [someBind]
  rw [expectClass_append' isLowerHexDigit 8 h8 _ hh hha]
  simp only [someBind]
  rcases hext with rfl | rfl <;> decide

end NewsAnalyzer.Downloader

namespace NewsAnalyzer.Downloader

set_option maxRecDepth 400000 in
/-- **C8, counterexample.** `f"{page_number:03d}"` zero-pads to a *minimum*
of three digits: page number `1000` (reachable — `_extract_page_number`
falls back to any digit run in the text or URL) produces a four-digit key
segment, which the claimed pattern `_page_\d{3}_` rejects. -/
theorem cache_key_counterexample :
    getObjectKey ⟨2024, 1, 2⟩ (some "Smyth County".data) 1000
        "https://example.com/a.pdf".data "pdf".data
      = "2024-01-02/smyth-county_page_1000_919db111.pdf".data
    ∧ matchesCacheKey
        "2024-01-02/smyth-county_page_1000_919db111.pdf".data = false := by
  constructor
  · decide
  · decide

/-- **C8 (amended).** For every edition and page whose page number lies in
`0 ≤ n ≤ 999` (page numbers are zero-padded to a *minimum* of three digits,
so larger or negative values produce a longer segment), the cache object key
matches `^\d{4}-\d{2}-\d{2}/[a-z0-9-]+_page_\d{3}_[0-9a-f]{8}\.(pdf|html)$`:
ISO date, lowercase slug, three page digits, the first eight hex characters
of `md5(url)`, and an extension that is `.pdf` when the URL path ends in
`.pdf`, else `.pdf` when the declared format is `pdf`, else `.html`. -/
theorem cache_key_pattern (dat : PyDate) (publication : Option (List Char))
    (pageNumber : ℤ) (url fmt : List Char)
    (hy : dat.year ≤ 9999) (hm : dat.month ≤ 99) (hd : dat.day ≤ 99)
    (hp0 : 0 ≤ pageNumber) (hp : pageNumber ≤ 999) :
    matchesCacheKey (getObjectKey dat publication pageNumber url fmt) = true
      ∧ (pyEndsWith (pyLower (urlparsePath url)) ".pdf".data = true →
          getFileExtension url fmt = ".pdf".data)
      ∧ (pyEndsWith (pyLower (urlparsePath url)) ".pdf".data = false →
          fmt = "pdf".data → getFileExtension url fmt = ".pdf".data)
      ∧ (pyEndsWith (pyLower (urlparsePath url)) ".pdf".data = false →
          fmt ≠ "pdf".data → getFileExtension url fmt = ".html".data) := by
  refine ⟨?_, ?_, ?_, ?_⟩
  · have hy4 := pad0_spec 4 dat.year (by omega) (by norm_num)
    have hm2 := pad0_spec 2 dat.month (by omega) (by norm_num)
    have hd2 := pad0_spec 2 dat.day (by omega) (by norm_num)
    have hslug := slugify_spec publication
    have hp3 := format03d_spec pageNumber hp0 hp
    have hh8 := md5_take8_spec url
    have hext := getFileExtension_cases url fmt
    have hkey : getObjectKey dat publication pageNumber url fmt =
        pad0 4 dat.year ++ ['-'] ++ pad0 2 dat.month ++ ['-'] ++ pad0 2 dat.day
          ++ ['/'] ++ slugify publication ++ "_page_".data
          ++ format03d pageNumber ++ ['_'] ++ (Hash.md5Hex url).take 8
          ++ getFileExtension url fmt := by
      simp [getObjectKey, dateIso, List.append_assoc]
    rw [hkey]
    exact matchesCacheKey_build _ _ _ _ _ _ _
      hy4.1 hy4.2 hm2.1 hm2.2 hd2.1 hd2.2
      hslug.1 hslug.2 hp3.1 hp3.2 hh8.1 hh8.2 hext
  · intro h; simp [getFileExtension, h]
  · intro h hf; simp [getFileExtension, h, hf]
  · intro h hf; simp [getFileExtension, h, hf]

set_option maxRecDepth 400000 in
/-- Witness for `cache_key_pattern` at a concrete edition page. -/
theorem cache_key_pattern_witness :
    matchesCacheKey (getObjectKey ⟨2024, 3, 9⟩ (some "Smyth County".data) 7
        "https://example.com/page7".data "html".data) = true
      ∧ getObjectKey ⟨2024, 3, 9⟩ (some "Smyth County".data) 7
          "https://example.com/page7".data "html".data
        = "2024-03-09/smyth-county_page_007_3e8bde78.html".data := by
  constructor
  · exact (cache_key_pattern ⟨2024, 3, 9⟩ (some "Smyth County".data) 7
      "https://example.com/page7".data "html".data
      (by norm_num) (by norm_num) (by norm_num)
      (by norm_num) (by norm_num)).1
  · decide

end NewsAnalyzer.Downloader

namespace NewsAnalyzer.VectorSync

/-! ## C5 — `summarizer/weaviate_sync.py` / `summarizer/qdrant_sync.py`

Both sync jobs fetch the same rows and build the same payload.  The
Weaviate job derives the object id as
`str(uuid.uuid5(uuid.NAMESPACE_URL, f"article:{a['id']}"))`; the Qdrant job
passes the raw integer article id as the point id
(`PointStruct(id=a['id'], ...)`). -/

/-- One row produced by `fetch_articles`. -/
structure SyncArticle where
  id : ℕ
  title : List Char
  sectionName : List Char
  summary : List Char
  content : List Char
  datePublished : Option (List Char) := none
  deriving Repr, DecidableEq

/-- The payload both jobs attach (`article_id`, `title`, `section`,
`summary`, `content`, optional `date_published`). -/
structure Payload where
  articleId : ℕ
  title : List Char
  sectionName : List Char
  summary : List Char
  content : List Char
  datePublished : Option (List Char)
  deriving Repr, DecidableEq

def mkPayload (a : SyncArticle) : Payload :=
  ⟨a.id, a.title, a.sectionName, a.summary, a.content, a.datePublished⟩

/-- A Qdrant point id is either an unsigned integer or a UUID string. -/
inductive PointId where
  | int (n : ℕ)
  | str (s : List Char)
  deriving Repr, DecidableEq

/-- `str(uuid.uuid5(uuid.NAMESPACE_URL, f"article:{id}"))`. -/
def uuid5Article (id : ℕ) : List Char :=
  Hash.uuidStr (Hash.uuid5Bytes Hash.namespaceURL
    ("article:".data ++ Hash.pyStrOfNat id))

/-- One object of the Weaviate `/v1/batch/objects` body. -/
structure WObj where
  className : List Char
  oid : List Char
  properties : Payload
  vector : Option (List ℚ)
  deriving Repr, DecidableEq

/-- One `PointStruct` of the Qdrant upsert. -/
structure QPoint where
  pid : PointId
  vector : List ℚ
  payload : Payload
  deriving Repr, DecidableEq

/-- The object-building loop of `weaviate_sync.main` (`vectors` is `None`
when embedding failed — BM25-only mode). -/
def weaviateObjectsAux (vectors : Option (List (List ℚ))) (i : ℕ) :
    List SyncArticle → List WObj
  | [] => []
  | a :: rest =>
    { className := "Article".data
      oid := uuid5Article a.id
      properties := mkPayload a
      vector := vectors.map (fun vs => vs.getD i []) } ::
      weaviateObjectsAux vectors (i + 1) rest

def weaviateObjects (articles : List SyncArticle)
    (vectors : Option (List (List ℚ))) : List WObj :=
  weaviateObjectsAux vectors 0 articles

/-- The point-building loop of `qdrant_sync.main`. -/
def qdrantPointsAux (vectors : List (List ℚ)) (i : ℕ) :
    List SyncArticle → List QPoint
  | [] => []
  | a :: rest =>
    { pid := PointId.int a.id
      vector := vectors.getD i []
      payload := mkPayload a } :: qdrantPointsAux vectors (i + 1) rest

def qdrantPoints (articles : List SyncArticle) (vectors : List (List ℚ)) :
    List QPoint :=
  qdrantPointsAux vectors 0 articles

/-- **C5, counterexample.** The Qdrant indexer upserts the raw integer
article id as the point id, not the UUIDv5 string: for the article with
id 7 the upserted object id is the integer `7`, which is not
`UUIDv5(NAMESPACE_URL, "article:7")`. -/
theorem qdrant_point_id_not_uuid :
    (qdrantPoints [⟨7, "t".data, "General".data, "s".data, "c".data, none⟩]
        [[1]]).map (·.pid) = [PointId.int 7]
      ∧ PointId.int 7 ≠ PointId.str (uuid5Article 7) := by
  exact ⟨rfl, fun h => PointId.noConfusion h⟩

theorem weaviateObjectsAux_ids (vectors : Option (List (List ℚ))) (i : ℕ)
    (articles : List SyncArticle) :
    (weaviateObjectsAux vectors i articles).map (·.oid) =
        articles.map (fun a => uuid5Article a.id)
      ∧ (weaviateObjectsAux vectors i articles).map (·.properties) =
        articles.map mkPayload := by
  induction articles generalizing i with
  | nil => exact ⟨rfl, rfl⟩
  | cons a rest ih =>
    simp only [weaviateObjectsAux, List.map_cons]
    exact ⟨by rw [(ih (i + 1)).1], by rw [(ih (i + 1)).2]⟩

theorem qdrantPointsAux_ids (vectors : List (List ℚ)) (i : ℕ)
    (articles : List SyncArticle) :
    (qdrantPointsAux vectors i articles).map (·.pid) =
        articles.map (fun a => PointId.int a.id)
      ∧ (qdrantPointsAux vectors i articles).map (·.payload) =
        articles.map mkPayload := by
  induction articles generalizing i with
  | nil => exact ⟨rfl, rfl⟩
  | cons a rest ih =>
    simp only [qdrantPointsAux, List.map_cons]
    exact ⟨by rw [(ih (i + 1)).1], by rw [(ih (i + 1)).2]⟩

set_option maxRecDepth 400000 in
/-- **C5 (amended).** The Weaviate indexer upserts objects under the
deterministic id `UUIDv5(namespace=NAMESPACE_URL, name="article:<id>")`
derived from the article id, while the Qdrant indexer uses the integer
article id itself as the point id; in both backends the object ids and
payloads are functions of the fetched rows alone (independent of the
embedding vectors), so invoking the indexer twice over the same updated set
upserts the same object ids with identical payloads. -/
theorem vector_index_identity (articles : List SyncArticle)
    (v1 v2 : Option (List (List ℚ))) (q1 q2 : List (List ℚ)) :
    (weaviateObjects articles v1).map (·.oid) =
        articles.map (fun a => uuid5Article a.id)
      ∧ (weaviateObjects articles v1).map (·.oid) =
          (weaviateObjects articles v2).map (·.oid)
      ∧ (weaviateObjects articles v1).map (·.properties) =
          (weaviateObjects articles v2).map (·.properties)
      ∧ (qdrantPoints articles q1).map (·.pid) =
          articles.map (fun a => PointId.int a.id)
      ∧ (qdrantPoints articles q1).map (·.payload) =
          (qdrantPoints articles q2).map (·.payload)
      ∧ uuid5Article 7 = "d7830106-db7f-5419-af47-368ac38904ba".data := by
  obtain ⟨h1, h2⟩ := weaviateObjectsAux_ids v1 0 articles
  obtain ⟨h3, h4⟩ := weaviateObjectsAux_ids v2 0 articles
  obtain ⟨h5, h6⟩ := qdrantPointsAux_ids q1 0 articles
  obtain ⟨h7, h8⟩ := qdrantPointsAux_ids q2 0 articles
  refine ⟨h1, ?_, ?_, h5, ?_, by decide⟩
  · exact h1.trans h3.symm
  · exact h2.trans h4.symm
  · exact h6.trans h8.symm

end NewsAnalyzer.VectorSync

namespace NewsAnalyzer.Events

open NewsAnalyzer.Downloader (isAsciiDigit)

/-! ## C4 — `extractor/event_parser.py`, `extract_events`

Naive `datetime`s are modelled as integer microseconds `μ : ℤ`
(epoch 1970-01-01; `datetime` comparison, `timedelta` arithmetic and
`replace(second=0, microsecond=0)` = `μ - μ % 60_000_000` all transport
along this bijection, and `.isoformat()` — the stored/deduped form — is
injective on datetimes, so the dedup key is modelled as the pair
(minute-floored `μ`, `ctx[:80]`)).  The external `dateparser.search_dates`
call enters as an explicit list of `(snippet, datetime)` matches, and the
three word-class regex tests that no claim property depends on
(weekday/month, time-or-preposition, event keyword) enter as boolean
oracles; the remaining guards are implemented from the source. -/

def microsPerDay : ℤ := 86400000000

/-- `datetime.year` via the standard civil-from-days algorithm. -/
def yearOfMicros (μ : ℤ) : ℤ :=
  let z := μ.fdiv microsPerDay + 719468
  let era := z.fdiv 146097
  let doe := z - era * 146097
  let yoe := (doe - doe.fdiv 1460 + doe.fdiv 36524 - doe.fdiv 146096).fdiv 365
  let doy := doe - (365 * yoe + yoe.fdiv 4 - yoe.fdiv 100)
  let mp := (5 * doy + 2).fdiv 153
  let m := mp + (if mp < 10 then 3 else -9)
  (yoe + era * 400) + (if m ≤ 2 then 1 else 0)

/-- Sanity: the civil algorithm against CPython at three dates. -/
theorem yearOfMicros_check :
    yearOfMicros (19889 * microsPerDay) = 2024
      ∧ yearOfMicros (10956 * microsPerDay + 7000000) = 1999
      ∧ yearOfMicros (29585 * microsPerDay) = 2051 := by
  decide

/-- `haystack.find(needle)` (first index, `None` for Python's `-1`). -/
def findSubAux (pat : List Char) : ℕ → List Char → Option ℕ
  | i, s =>
    if pat.isPrefixOf s then some i
    else match s with
      | [] => none
      | _ :: t => findSubAux pat (i + 1) t

def findSub (pat s : List Char) : Option ℕ := findSubAux pat 0 s

/-- `haystack.rfind(needle)` (last index). -/
def rfindSub (pat s : List Char) : Option ℕ :=
  ((List.range (s.length + 1)).filter
    (fun i => pat.isPrefixOf (s.drop i))).getLast?

/-- `event_parser._extract_context` (window 160). -/
def extractContext (fullText snippet : List Char) (window : ℕ) : List Char :=
  let idx := (findSub (pyLower snippet) (pyLower fullText)).getD 0
  let start := idx - window
  let stop := min fullText.length (idx + snippet.length + window)
  let context := (fullText.drop start).take (stop - start)
  let context :=
    match rfindSub ['.', ' '] context with
    | some before =>
      if window / 2 < before then context.drop (before + 2) else context
    | none => context
  match findSub ['.', ' '] context with
  | some after =>
    if snippet.length < after then context.take (after + 1) else context
  | none => context

/-- `event_parser._derive_title`. -/
def deriveTitle (context : List Char) : List Char :=
  if context.isEmpty then "Community event".data
  else
    let title :=
      match findSub ['.', ' '] context with
      | some i => context.take (i + 1)
      | none => context
    let title := pyStrip title
    let title :=
      if 160 < title.length then title.take 157 ++ "...".data else title
    if title.isEmpty then "Community event".data else title

/-- `re.search(r"\$\s?\d", ctx)`: a dollar sign, at most one whitespace,
then a digit. -/
def containsMoney : List Char → Bool
  | [] => false
  | c :: rest =>
    (c = '$' &&
      (match rest with
       | d :: rest2 =>
         isAsciiDigit d ||
           (isPySpace d &&
             (match rest2 with
              | e :: _ => isAsciiDigit e
              | [] => false))
       | [] => false)) || containsMoney rest

/-- `ctx.lower().startswith(("key points", "sentiment"))`. -/
def looksLikeBullets (ctx : List Char) : Bool :=
  pyStartsWith (pyLower ctx) "key points".data
    || pyStartsWith (pyLower ctx) "sentiment".data

/-- The word-class regex tests and the location pipeline, abstracted: the
cap/dedup/bound properties of C4 hold for every instantiation. -/
structure Oracles where
  hasWeekdayOrMonth : List Char → Bool
  hasTimeOrAt : List Char → Bool
  hasKeyword : List Char → Bool
  locationOf : List Char → Option (List Char)

/-- One emitted event dict (`start_time` is stored as `dt.isoformat()`;
the μs value stands for it). -/
structure EventRec where
  title : List Char
  startTime : ℤ
  location : Option (List Char)
  context : List Char
  deriving Repr, DecidableEq

/-- The dedup key `(dt.replace(second=0, microsecond=0).isoformat(), ctx[:80])`. -/
def eventKey (dt : ℤ) (ctx : List Char) : ℤ × List Char :=
  (dt - dt % 60000000, ctx.take 80)

/-- The per-match filter chain of `extract_events`: year plausibility,
future/past caps, nonempty context, and the heuristic reject disjunction.
Returns the event dict a surviving match contributes. -/
def eventCandidate (cfg : Oracles) (text snippet : List Char) (now dt : ℤ) :
    Option EventRec :=
  if yearOfMicros dt < 2000 ∨ 2050 < yearOfMicros dt then none
  else if now + 180 * microsPerDay < dt then none
  else if dt < now - microsPerDay then none
  else if (pyStrip (extractContext text snippet 160)).isEmpty then none
  else if 220 < (pyStrip (extractContext text snippet 160)).length
      ∨ ¬cfg.hasWeekdayOrMonth (pyStrip (extractContext text snippet 160))
      ∨ ¬cfg.hasTimeOrAt (pyStrip (extractContext text snippet 160))
      ∨ looksLikeBullets (pyStrip (extractContext text snippet 160))
      ∨ containsMoney (pyStrip (extractContext text snippet 160))
      ∨ ¬cfg.hasKeyword (pyStrip (extractContext text snippet 160)) then none
  else some
    { title := deriveTitle (pyStrip (extractContext text snippet 160))
      startTime := dt
      location := cfg.locationOf (pyStrip (extractContext text snippet 160))
      context := pyStrip (extractContext text snippet 160) }

/-- The match loop of `extract_events`: `seen` is `seen_times`, `acc` the
events list; the loop stops after the fifth append. -/
def extractEventsLoop (cfg : Oracles) (text : List Char) (now : ℤ)
    (seen : List (ℤ × List Char)) (acc : List EventRec) :
    List (List Char × Option ℤ) → List EventRec
  | [] => acc
  | (snippet, dtO) :: rest =>
    match dtO with
    | none => extractEventsLoop cfg text now seen acc rest
    | some dt =>
      match eventCandidate cfg text snippet now dt with
      | none => extractEventsLoop cfg text now seen acc rest
      | some e =>
        if eventKey e.startTime e.context ∈ seen then
          extractEventsLoop cfg text now seen acc rest
        else if 5 ≤ (acc ++ [e]).length then acc ++ [e]
        else extractEventsLoop cfg text now
          (eventKey e.startTime e.context :: seen) (acc ++ [e]) rest

/-- `event_parser.extract_events` (`matches` is what `search_dates`
returned, `none` standing for its `None` result or a falsy `dt`). -/
def extractEvents (cfg : Oracles) (text : List Char) (now : ℤ)
    (ms : List (List Char × Option ℤ)) : List EventRec :=
  if text.isEmpty then []
  else if pyStartsWith (pyLower (pyStrip text)) "key points:".data then []
  else extractEventsLoop cfg text now [] [] ms

end NewsAnalyzer.Events

namespace NewsAnalyzer.Events

set_option maxRecDepth 100000 in
set_option maxHeartbeats 2000000 in
/-- A surviving candidate satisfies the past/future caps and the context
length bound. -/
theorem eventCandidate_bounds (cfg : Oracles) (text snippet : List Char)
    (now dt : ℤ) (e : EventRec)
    (h : eventCandidate cfg text snippet now dt = some e) :
    e.startTime = dt
      ∧ now - microsPerDay ≤ e.startTime
      ∧ e.startTime ≤ now + 180 * microsPerDay
      ∧ e.context.length ≤ 220 := by
  rw [eventCandidate] at h
  split_ifs at h with h1 h2 h3 h4 h5
  cases h
  push_neg at h5
  exact ⟨rfl, le_of_not_lt h3, le_of_not_lt h2, h5.1⟩

set_option maxRecDepth 100000 in
/-- The loop invariant behind C4: starting under capacity with deduplicated
keys covered by `seen`, the loop's output is capped at five events, has
pairwise-distinct dedup keys, and every event respects the caps. -/
theorem extractEventsLoop_inv (cfg : Oracles) (text : List Char) (now : ℤ)
    (ms : List (List Char × Option ℤ)) :
    ∀ (seen : List (ℤ × List Char)) (acc : List EventRec),
      acc.length < 5 →
      (acc.map (fun e => eventKey e.startTime e.context)).Nodup →
      (∀ k ∈ acc.map (fun e => eventKey e.startTime e.context), k ∈ seen) →
      (∀ e ∈ acc, now - microsPerDay ≤ e.startTime
        ∧ e.startTime ≤ now + 180 * microsPerDay
        ∧ e.context.length ≤ 220) →
      (extractEventsLoop cfg text now seen acc ms).length ≤ 5
        ∧ ((extractEventsLoop cfg text now seen acc ms).map
            (fun e => eventKey e.startTime e.context)).Nodup
        ∧ (∀ e ∈ extractEventsLoop cfg text now seen acc ms,
            now - microsPerDay ≤ e.startTime
              ∧ e.startTime ≤ now + 180 * microsPerDay
              ∧ e.context.length ≤ 220) := by
  induction ms with
  | nil =>
    intro seen acc h1 h2 _ h4
    exact ⟨le_of_lt h1, h2, h4⟩
  | cons m rest ih =>
    intro seen acc h1 h2 h3 h4
    obtain ⟨snippet, dtO⟩ := m
    cases dtO with
    | none => exact ih seen acc h1 h2 h3 h4
    | some dt =>
      rw [extractEventsLoop]
      cases hc : eventCandidate cfg text snippet now dt with
      | none => exact ih seen acc h1 h2 h3 h4
      | some e =>
        simp only []
        by_cases hseen : eventKey e.startTime e.context ∈ seen
        · rw [if_pos hseen]
          exact ih seen acc h1 h2 h3 h4
        rw [if_neg hseen]
        have hbounds := eventCandidate_bounds cfg text snippet now dt e hc
        have hknot : eventKey e.startTime e.context ∉
            acc.map (fun e => eventKey e.startTime e.context) :=
          fun hm => hseen (h3 _ hm)
        have h2' : ((acc ++ [e]).map
            (fun e => eventKey e.startTime e.context)).Nodup := by
          rw [List.map_append]
          simp only [List.map_cons, List.map_nil]
          rw [List.nodup_append]
          exact ⟨h2, List.nodup_singleton _,
            by simpa [List.disjoint_singleton] using hknot⟩
        have h4' : ∀ x ∈ acc ++ [e], now - microsPerDay ≤ x.startTime
            ∧ x.startTime ≤ now + 180 * microsPerDay
            ∧ x.context.length ≤ 220 := by
          intro x hx
          rcases List.mem_append.1 hx with hx' | hx'
          · exact h4 x hx'
          · simp only [List.mem_singleton] at hx'
            subst hx'
            exact ⟨hbounds.2.1, hbounds.2.2.1, hbounds.2.2.2⟩
        by_cases hfull : 5 ≤ (acc ++ [e]).length
        · rw [if_pos hfull]
          refine ⟨?_, h2', h4'⟩
          simp only [List.length_append, List.length_singleton]
          omega
        · rw [if_neg hfull]
          refine ih (eventKey e.startTime e.context :: seen) (acc ++ [e])
            (not_le.mp hfull) h2' ?_ h4'
          intro k hk
          rw [List.map_append] at hk
          rcases List.mem_append.1 hk with hk' | hk'
          · exact List.mem_cons_of_mem _ (h3 _ hk')
          · simp only [List.map_cons, List.map_nil,
              List.mem_singleton] at hk'
            subst hk'
            exact List.mem_cons_self _ _

/-- **C4 (confirmed).** For every input text, time `now`, `search_dates`
result and any instantiation of the regex-oracle filters, the event list
returned by `extract_events` has at most 5 elements, no two elements share
the dedup key (minute-truncated `start_time`, first 80 characters of
context), and every element satisfies
`now - 1 day ≤ start_time ≤ now + 180 days` with context length ≤ 220. -/
theorem extract_events_invariants (cfg : Oracles) (text : List Char)
    (now : ℤ) (ms : List (List Char × Option ℤ)) :
    (extractEvents cfg text now ms).length ≤ 5
      ∧ ((extractEvents cfg text now ms).map
          (fun e => eventKey e.startTime e.context)).Nodup
      ∧ (∀ e ∈ extractEvents cfg text now ms,
          now - microsPerDay ≤ e.startTime
            ∧ e.startTime ≤ now + 180 * microsPerDay
            ∧ e.context.length ≤ 220) := by
  unfold extractEvents
  by_cases h1 : text.isEmpty
  · simp [h1]
  rw [if_neg h1]
  by_cases h2 : pyStartsWith (pyLower (pyStrip text)) "key points:".data
  · simp [h2]
  rw [if_neg h2]
  exact extractEventsLoop_inv cfg text now ms [] []
    (by norm_num) List.nodup_nil (by simp) (by simp)

end NewsAnalyzer.Events

namespace NewsAnalyzer.Store

open NewsAnalyzer.Downloader (isAsciiDigit)

/-! ## C1 — `extractor/normalize.py` and `extractor/database.py`

`normalize_section`, the JSON-ish value universe used for `metadata` and
`event_dates` columns, the merge helpers of `DatabaseManager`, and
`_update_existing_article` itself. -/

/-- `normalize.SECTION_ALIASES`. -/
def sectionAliases : List (List Char × List Char) :=
  [("obituary".data, "Obituaries".data),
   ("obituaries".data, "Obituaries".data),
   ("obits".data, "Obituaries".data),
   ("sports".data, "Sports".data),
   ("news".data, "News".data),
   ("local".data, "Local".data),
   ("business".data, "Business".data),
   ("opinion".data, "Opinion".data),
   ("editorial".data, "Opinion".data),
   ("police".data, "Public Safety".data),
   ("police and courts".data, "Public Safety".data),
   ("crime".data, "Public Safety".data),
   ("classifieds".data, "Classifieds".data)]

def isAsciiAlpha (c : Char) : Bool :=
  ('a' ≤ c && c ≤ 'z') || ('A' ≤ c && c ≤ 'Z')

/-- `str.title()` on the ASCII range: a letter is uppercased when the
previous character is not a letter, lowercased otherwise. -/
def pyTitleAux (prevCased : Bool) : List Char → List Char
  | [] => []
  | c :: rest =>
    (if isAsciiAlpha c then
        (if prevCased then c.toLower else c.toUpper)
      else c) :: pyTitleAux (isAsciiAlpha c) rest

def pyTitle (s : List Char) : List Char := pyTitleAux false s

/-- `normalize.normalize_section`: `"General"` for falsy input, the alias
table on the stripped lowercase key, else whitespace-collapsed
title-casing (kept as-is when all-digits, e.g. `"A1"`-style page labels
reduce to digits only after the alias miss). -/
def normalizeSection (sectionName : Option (List Char)) : List Char :=
  match sectionName with
  | none => "General".data
  | some t =>
    if t.isEmpty then "General".data
    else
      match (sectionAliases.find? (fun p => p.1 = pyLower (pyStrip t))).map
          (·.2) with
      | some canonical => canonical
      | none =>
        let cleaned := pyJoin [' '] (pySplit t)
        let digits := cleaned.filter (· ≠ ' ')
        if !digits.isEmpty && digits.all isAsciiDigit then cleaned
        else pyTitle cleaned

/-- The JSON-ish values stored in the `metadata` / `event_dates` columns. -/
inductive JVal where
  | str (s : List Char)
  | num (q : ℚ)
  | dict (entries : List (List Char × JVal))

def JVal.isDict : JVal → Bool
  | .dict _ => true
  | _ => false

mutual
/-- Structural equality of stored JSON values. -/
def jvalBeq : JVal → JVal → Bool
  | .str a, .str b => a = b
  | .num a, .num b => a = b
  | .dict a, .dict b => jentriesBeq a b
  | _, _ => false

def jentriesBeq : List (List Char × JVal) → List (List Char × JVal) → Bool
  | [], [] => true
  | (k₁, v₁) :: t₁, (k₂, v₂) :: t₂ =>
    k₁ = k₂ && jvalBeq v₁ v₂ && jentriesBeq t₁ t₂
  | _, _ => false
end

/-- Lexicographic comparison of strings by code point (Python `str <`). -/
def strLeAux : List Char → List Char → Bool
  | [], _ => true
  | _ :: _, [] => false
  | a :: as_, b :: bs =>
    if a = b then strLeAux as_ bs else decide (a < b)

/-- Stable insertion into a key-sorted entry list. -/
def insertByKey (p : List Char × JVal) :
    List (List Char × JVal) → List (List Char × JVal)
  | [] => [p]
  | q :: rest =>
    if strLeAux p.1 q.1 then p :: q :: rest else q :: insertByKey p rest

def sortEntriesByKey (entries : List (List Char × JVal)) :
    List (List Char × JVal) :=
  entries.foldr insertByKey []

mutual
/-- The canonical form behind `json.dumps(evt, sort_keys=True)`: keys
sorted recursively; two dicts get the same dump iff their canonical forms
are equal. -/
def jvalCanon : JVal → JVal
  | .str s => .str s
  | .num q => .num q
  | .dict entries => .dict (sortEntriesByKey (jentriesCanon entries))

def jentriesCanon :
    List (List Char × JVal) → List (List Char × JVal)
  | [] => []
  | (k, v) :: rest => (k, jvalCanon v) :: jentriesCanon rest
end

/-- `{**a, **b}`: `a`'s keys in order with `b`'s values taking precedence,
then `b`'s new keys in order. -/
def dictUpdate (a b : List (List Char × JVal)) : List (List Char × JVal) :=
  (a.map (fun p =>
    match b.find? (fun q => q.1 = p.1) with
    | some q => (p.1, q.2)
    | none => p))
    ++ b.filter (fun q => !(a.any (fun p => p.1 = q.1)))

/-- Python dict assignment `d[k] = v` on an insertion-ordered model. -/
def dictSet (d : List (List Char × JVal)) (k : List Char) (v : JVal) :
    List (List Char × JVal) :=
  if d.any (fun p => p.1 = k) then
    d.map (fun p => if p.1 = k then (k, v) else p)
  else d ++ [(k, v)]

/-- One step of `_merge_metadata`'s loop: nested dicts merge one level. -/
def mergeMetaStep (acc : List (List Char × JVal)) (kv : List Char × JVal) :
    List (List Char × JVal) :=
  match kv.2, ((acc.find? (fun p => p.1 = kv.1)).map Prod.snd : Option JVal) with
  | .dict nv, some (.dict ev) => dictSet acc kv.1 (.dict (dictUpdate ev nv))
  | v, _ => dictSet acc kv.1 v

/-- `DatabaseManager._merge_metadata`. -/
def mergeMetadata (existing : List (List Char × JVal))
    (newMeta : Option (List (List Char × JVal))) :
    List (List Char × JVal) :=
  match newMeta with
  | none => existing
  | some nm => if nm.isEmpty then existing else nm.foldl mergeMetaStep existing

/-- The accumulation loop of `_merge_tags` over one source list. -/
def mergeTagsAux (combined : List (List Char)) :
    List (List Char) → List (List Char)
  | [] => combined
  | t :: rest =>
    let n := pyStrip t
    if !n.isEmpty && !combined.contains n then
      mergeTagsAux (combined ++ [n]) rest
    else mergeTagsAux combined rest

/-- `DatabaseManager._merge_tags`: ordered union of stripped nonempty tags. -/
def mergeTags (existing incoming : List (List Char)) : List (List Char) :=
  mergeTagsAux (mergeTagsAux [] existing) incoming

/-- `seen[dumps(evt, sort_keys=True)] = evt`: upsert on the canonical key,
keeping first-insertion order and replacing the value. -/
def upsertEvent (acc : List (JVal × JVal)) (evt : JVal) : List (JVal × JVal) :=
  let k := jvalCanon evt
  if acc.any (fun p => jvalBeq p.1 k) then
    acc.map (fun p => if jvalBeq p.1 k then (p.1, evt) else p)
  else acc ++ [(k, evt)]

/-- `DatabaseManager._merge_event_lists`. -/
def mergeEventLists (existing newEvents : List JVal) : List JVal :=
  ((newEvents.filter JVal.isDict).foldl upsertEvent
    (existing.foldl upsertEvent [])).map (·.2)

/-- Python truthiness of an optional string (`None` and `""` are falsy). -/
def strOptTruthy (a : Option (List Char)) : Bool :=
  a.elim false (fun s => !s.isEmpty)

/-- `a or b` for an optional string (both `None` and `""` are falsy). -/
def pyOrStr (a b : Option (List Char)) : Option (List Char) :=
  if strOptTruthy a then a else b

/-- `a if a is not None else b`. -/
def orIsNone {α : Type} (a b : Option α) : Option α :=
  if a.isSome then a else b

/-- `database.StoredArticle` (also the `articles` row it is stored into;
timestamps are integer microseconds). -/
structure StoredArticle where
  id : ℕ := 0
  title : List Char
  content : List Char
  contentHash : List Char
  url : Option (List Char) := none
  sourceType : List Char := "unknown".data
  sourceUrl : Option (List Char) := none
  sourceFile : Option (List Char) := none
  pageNumber : Option ℤ := none
  columnNumber : Option ℤ := none
  sectionName : Option (List Char) := none
  author : Option (List Char) := none
  tags : Option (List (List Char)) := none
  wordCount : ℕ := 0
  datePublished : Option ℤ := none
  dateExtracted : ℤ := 0
  processingStatus : List Char := "extracted".data
  rawHtml : Option (List Char) := none
  metadata : Option (List (List Char × JVal)) := none
  locationName : Option (List Char) := none
  locationLat : Option ℚ := none
  locationLon : Option ℚ := none
  eventDates : Option (List JVal) := none

/-- The merged `event_dates` value of `_update_existing_article` (the merge
runs only when the incoming list is truthy, i.e. nonempty). -/
def mergedEventDates (existing newA : StoredArticle) : List JVal :=
  let existingEvents := (existing.eventDates.getD []).filter JVal.isDict
  if newA.eventDates.elim false (fun l => !l.isEmpty) then
    mergeEventLists existingEvents (newA.eventDates.getD [])
  else existingEvents

/-- `DatabaseManager._update_existing_article`: the row after the `UPDATE`
(fields not in the `SET` list are untouched). -/
def updateExistingArticle (existing newA : StoredArticle) : StoredArticle :=
  { existing with
    sectionName := pyOrStr newA.sectionName existing.sectionName
    author := pyOrStr newA.author existing.author
    tags :=
      (let m := mergeTags (existing.tags.getD []) (newA.tags.getD [])
       if m.isEmpty then none else some m)
    wordCount :=
      if newA.wordCount ≠ 0 then newA.wordCount
      else if existing.wordCount ≠ 0 then existing.wordCount else 0
    pageNumber := orIsNone newA.pageNumber existing.pageNumber
    columnNumber := orIsNone newA.columnNumber existing.columnNumber
    datePublished :=
      if newA.datePublished.isSome then newA.datePublished
      else existing.datePublished
    metadata :=
      (let m := mergeMetadata (existing.metadata.getD []) newA.metadata
       if m.isEmpty then none else some m)
    rawHtml := pyOrStr newA.rawHtml existing.rawHtml
    locationName := pyOrStr newA.locationName existing.locationName
    locationLat := orIsNone newA.locationLat existing.locationLat
    locationLon := orIsNone newA.locationLon existing.locationLon
    sourceFile := pyOrStr existing.sourceFile newA.sourceFile
    sourceUrl := pyOrStr existing.sourceUrl newA.sourceUrl
    eventDates :=
      (let m := mergedEventDates existing newA
       if m.isEmpty then none else some m) }

/-- The section assignment of `_convert_to_stored_article` for both PDF and
HTML articles: `section = normalize_section(article.section)` — never null,
never empty ("General" for a null extracted section). -/
def convertedSection (extractedSection : Option (List Char)) :
    Option (List Char) :=
  some (normalizeSection extractedSection)

end NewsAnalyzer.Store

namespace NewsAnalyzer.Store

/-- **C1, counterexample.** An article whose stored row has section
`"Sports"` is re-extracted with a null section: conversion normalizes the
null section to `"General"` (non-null, non-empty), and the merge gives the
*new* value priority, so the stored `"Sports"` is overwritten with
`"General"` — the claimed existing-wins rule would have kept `"Sports"`. -/
theorem merge_nulls_section_counterexample :
    (updateExistingArticle
        { title := "X".data, content := "Y".data, contentHash := "h".data,
          sectionName := some "Sports".data }
        { title := "X".data, content := "Y".data, contentHash := "h".data,
          sectionName := convertedSection none }).sectionName
      = some "General".data
    ∧ some "General".data ≠ (some "Sports".data : Option (List Char)) := by
  constructor
  · decide
  · decide

/-- **C1 (amended).** On a `content_hash` match the merge gives each scalar
field the *newly extracted* value whenever that value is non-null/non-empty
(non-`None` for the numeric fields `page_number`, `column_number`,
`location_lat`, `location_lon`, nonzero for `word_count`), and keeps the
existing value only when the new one is null/empty — except `source_file`
and `source_url`, where the *existing* value wins and the new value fills
only a null/empty slot.  Moreover `_convert_to_stored_article` normalizes a
null extracted section to `"General"`, so re-extracting an article with a
null section sets the stored section to `"General"`, overwriting any
existing non-null section instead of leaving it unchanged. -/
theorem merge_scalar_fields (ex newA : StoredArticle) :
    (strOptTruthy newA.sectionName = true →
        (updateExistingArticle ex newA).sectionName = newA.sectionName)
      ∧ (strOptTruthy newA.sectionName = false →
          (updateExistingArticle ex newA).sectionName = ex.sectionName)
      ∧ (strOptTruthy newA.author = true →
          (updateExistingArticle ex newA).author = newA.author)
      ∧ (strOptTruthy newA.author = false →
          (updateExistingArticle ex newA).author = ex.author)
      ∧ (strOptTruthy newA.rawHtml = true →
          (updateExistingArticle ex newA).rawHtml = newA.rawHtml)
      ∧ (strOptTruthy newA.rawHtml = false →
          (updateExistingArticle ex newA).rawHtml = ex.rawHtml)
      ∧ (strOptTruthy newA.locationName = true →
          (updateExistingArticle ex newA).locationName = newA.locationName)
      ∧ (strOptTruthy newA.locationName = false →
          (updateExistingArticle ex newA).locationName = ex.locationName)
      ∧ (newA.pageNumber ≠ none →
          (updateExistingArticle ex newA).pageNumber = newA.pageNumber)
      ∧ (newA.pageNumber = none →
          (updateExistingArticle ex newA).pageNumber = ex.pageNumber)
      ∧ (newA.columnNumber ≠ none →
          (updateExistingArticle ex newA).columnNumber = newA.columnNumber)
      ∧ (newA.columnNumber = none →
          (updateExistingArticle ex newA).columnNumber = ex.columnNumber)
      ∧ (newA.locationLat ≠ none →
          (updateExistingArticle ex newA).locationLat = newA.locationLat)
      ∧ (newA.locationLat = none →
          (updateExistingArticle ex newA).locationLat = ex.locationLat)
      ∧ (newA.locationLon ≠ none →
          (updateExistingArticle ex newA).locationLon = newA.locationLon)
      ∧ (newA.locationLon = none →
          (updateExistingArticle ex newA).locationLon = ex.locationLon)
      ∧ (newA.datePublished ≠ none →
          (updateExistingArticle ex newA).datePublished = newA.datePublished)
      ∧ (newA.datePublished = none →
          (updateExistingArticle ex newA).datePublished = ex.datePublished)
      ∧ (newA.wordCount ≠ 0 →
          (updateExistingArticle ex newA).wordCount = newA.wordCount)
      ∧ (newA.wordCount = 0 →
          (updateExistingArticle ex newA).wordCount = ex.wordCount)
      ∧ (strOptTruthy ex.sourceFile = true →
          (updateExistingArticle ex newA).sourceFile = ex.sourceFile)
      ∧ (strOptTruthy ex.sourceFile = false →
          (updateExistingArticle ex newA).sourceFile = newA.sourceFile)
      ∧ (strOptTruthy ex.sourceUrl = true →
          (updateExistingArticle ex newA).sourceUrl = ex.sourceUrl)
      ∧ (strOptTruthy ex.sourceUrl = false →
          (updateExistingArticle ex newA).sourceUrl = newA.sourceUrl)
      ∧ normalizeSection none = "General".data
      ∧ (updateExistingArticle ex
          { newA with sectionName := convertedSection none }).sectionName
          = some "General".data := by
  refine ⟨?_, ?_, ?_, ?_, ?_, ?_, ?_, ?_, ?_, ?_, ?_, ?_, ?_, ?_, ?_, ?_,
    ?_, ?_, ?_, ?_, ?_, ?_, ?_, ?_, rfl, ?_⟩
  all_goals
    first
    | (intro h
       simp only [updateExistingArticle, pyOrStr, orIsNone, convertedSection,
         normalizeSection, h]
       try simp [h]
       try (rw [if_neg (by simp [h])] <;> rfl)
       try (cases hn : newA.datePublished <;> simp [hn] at h ⊢)
       try omega)
    | skip
  have ht : strOptTruthy (convertedSection none) = true := by decide
  simp only [updateExistingArticle, pyOrStr, ht, if_true]
  decide

end NewsAnalyzer.Store

namespace NewsAnalyzer.Store

/-- Witness for `merge_scalar_fields`: a non-null new section ("News")
overwrites the stored "Sports". -/
theorem merge_scalar_fields_witness :
    strOptTruthy (some "News".data) = true
      ∧ (updateExistingArticle
          { title := "X".data, content := "Y".data, contentHash := "h".data,
            sectionName := some "Sports".data }
          { title := "X".data, content := "Y".data, contentHash := "h".data,
            sectionName := some "News".data }).sectionName
        = some "News".data := by
  refine ⟨by decide, ?_⟩
  exact (merge_scalar_fields
    { title := "X".data, content := "Y".data, contentHash := "h".data,
      sectionName := some "Sports".data }
    { title := "X".data, content := "Y".data, contentHash := "h".data,
      sectionName := some "News".data }).1 (by decide)

end NewsAnalyzer.Store

namespace NewsAnalyzer.Store

/-! ## C9 — `extractor/database.py`, `store_articles`

`store_articles` opens one connection and one `conn.transaction()` block;
every per-article insert, dedup merge, `store_article_events`
delete-and-reinsert and the final `processing_history` upsert run inside
it.  The transaction is modelled as: the body runs as a pure state
transformer in `Except`; on an exception the pre-call state is kept.
`_normalize_datetime` (string/datetime parsing for event rows) enters as an
explicit function. -/

/-- One `article_events` row. -/
structure EventRow where
  articleId : ℕ
  title : List Char
  description : Option (List Char)
  startTime : Option ℤ
  endTime : Option ℤ
  locationName : Option (List Char)
  locationMeta : Option JVal

/-- One `processing_history` row. -/
structure HistoryRow where
  dateProcessed : ℤ
  sourceType : List Char
  sourceIdentifier : List Char
  articlesFound : ℕ
  articlesNew : ℕ
  articlesDuplicate : ℕ
  processingTimeMs : ℤ
  status : List Char := "success".data

/-- The relational state `store_articles` touches. -/
structure DB where
  articles : List StoredArticle
  events : List EventRow
  history : List HistoryRow
  nextId : ℕ := 1

/-- `_find_duplicate`: id of the row with the given `content_hash`. -/
def findDuplicate (db : DB) (hash : List Char) : Option ℕ :=
  (db.articles.find? (fun a => a.contentHash = hash)).map (·.id)

/-- `_insert_article`: serial id assignment plus append. -/
def insertArticle (db : DB) (a : StoredArticle) : DB × ℕ :=
  ({ db with
      articles := db.articles ++ [{ a with id := db.nextId }]
      nextId := db.nextId + 1 },
   db.nextId)

/-- Accessors on an event dict (string-valued fields). -/
def eventStrField (key : List Char) (evt : JVal) : Option (List Char) :=
  match evt with
  | .dict entries =>
    match (entries.find? (fun p => p.1 = key)).map Prod.snd with
    | some (.str s) => if s.isEmpty then none else some s
    | _ => none
  | _ => none

/-- `store_article_events`: delete the article's event rows, then insert one
row per event dict (`normDt` stands for `_normalize_datetime`). -/
def storeArticleEvents (normDt : Option (List Char) → Option ℤ)
    (db : DB) (articleId : ℕ) (events : List JVal) : DB :=
  { db with
    events :=
      db.events.filter (fun r => r.articleId ≠ articleId)
        ++ events.map (fun evt =>
          { articleId := articleId
            title := (eventStrField "title".data evt).getD
              "Community Event".data
            description := eventStrField "context".data evt
            startTime := normDt (eventStrField "start_time".data evt)
            endTime := normDt (eventStrField "end_time".data evt)
            locationName := eventStrField "location_name".data evt
            locationMeta := some evt }) }

/-- `_update_existing_article` as a state transformer: merge the row, and
when the incoming event list is truthy and the merged list nonempty,
regenerate `article_events`. -/
def applyMerge (normDt : Option (List Char) → Option ℤ)
    (db : DB) (articleId : ℕ) (newA : StoredArticle) : DB :=
  let db' :=
    if newA.eventDates.elim false (fun l => !l.isEmpty) then
      (let merged := mergedEventDates
        ((db.articles.find? (fun a => a.id = articleId)).getD newA) newA
       if merged.isEmpty then db
       else storeArticleEvents normDt db articleId merged)
    else db
  { db' with
    articles := db'.articles.map (fun a =>
      if a.id = articleId then updateExistingArticle a newA else a) }

/-- `_record_processing_history`: upsert on
`(date_processed, source_type, source_identifier)`. -/
def recordHistory (db : DB) (row : HistoryRow) : DB :=
  if db.history.any (fun h => h.dateProcessed = row.dateProcessed
      ∧ h.sourceType = row.sourceType
      ∧ h.sourceIdentifier = row.sourceIdentifier) then
    { db with
      history := db.history.map (fun h =>
        if h.dateProcessed = row.dateProcessed
            ∧ h.sourceType = row.sourceType
            ∧ h.sourceIdentifier = row.sourceIdentifier then row else h) }
  else { db with history := db.history ++ [row] }

/-- One batch element: an article that converts cleanly, or one whose
processing raises (conversion error, driver error, …). -/
inductive BatchItem where
  | article (a : StoredArticle)
  | raisesErr (msg : List Char)

/-- The body of `store_articles`'s transaction block: the per-article loop
followed by the history upsert; any raise aborts the whole body. -/
def processBatch (normDt : Option (List Char) → Option ℤ)
    (srcType srcId : List Char) (date procMs : ℤ) (found : ℕ) (db : DB) :
    List BatchItem → ℕ → ℕ → Except (List Char) (DB × ℕ × ℕ)
  | [], newCount, dupCount =>
    .ok (recordHistory db
      { dateProcessed := date
        sourceType := srcType
        sourceIdentifier := srcId
        articlesFound := found
        articlesNew := newCount
        articlesDuplicate := dupCount
        processingTimeMs := procMs },
      newCount, dupCount)
  | .raisesErr msg :: _, _, _ => .error msg
  | .article a :: rest, newCount, dupCount =>
    match findDuplicate db a.contentHash with
    | some existingId =>
      processBatch normDt srcType srcId date procMs found
        (applyMerge normDt db existingId a) rest newCount (dupCount + 1)
    | none =>
      let (db', newId) := insertArticle db a
      let db'' :=
        if a.eventDates.elim false (fun l => !l.isEmpty) then
          storeArticleEvents normDt db' newId (a.eventDates.getD [])
        else db'
      processBatch normDt srcType srcId date procMs found db'' rest
        (newCount + 1) dupCount

/-- `store_articles`: run the body inside one transaction; an exception
rolls the whole call back to the pre-call state. -/
def storeArticles (normDt : Option (List Char) → Option ℤ)
    (srcType srcId : List Char) (date procMs : ℤ) (db : DB)
    (items : List BatchItem) : DB × Except (List Char) (ℕ × ℕ) :=
  match processBatch normDt srcType srcId date procMs items.length db
      items 0 0 with
  | .ok (db', n, d) => (db', .ok (n, d))
  | .error e => (db, .error e)

/-- **C9 (confirmed).** All per-article inserts, dedup merges, event
regenerations and the processing-history upsert of one `store_articles`
call run inside a single transaction: if processing any article in the
batch raises, the resulting database state is exactly the pre-call state —
no article, event or history row from the call is persisted — and on
success the state is exactly the transaction body's final state. -/
theorem store_articles_atomic (normDt : Option (List Char) → Option ℤ)
    (srcType srcId : List Char) (date procMs : ℤ) (db : DB)
    (items : List BatchItem) :
    (∀ e, processBatch normDt srcType srcId date procMs items.length db
          items 0 0 = .error e →
        storeArticles normDt srcType srcId date procMs db items =
          (db, .error e))
      ∧ (∀ db' n d, processBatch normDt srcType srcId date procMs
            items.length db items 0 0 = .ok (db', n, d) →
          storeArticles normDt srcType srcId date procMs db items =
            (db', .ok (n, d))) := by
  constructor
  · intro e he
    simp [storeArticles, he]
  · intro db' n d hok
    simp [storeArticles, hok]

/-- Witness for `store_articles_atomic`: a two-element batch whose first
article would insert fine and whose second raises leaves the database
untouched. -/
theorem store_articles_atomic_witness :
    processBatch (fun _ => none) "pdf".data "f.pdf".data 0 0 2
        ⟨[], [], [], 1⟩
        [.article
            { title := "T".data, content := "C".data,
              contentHash := "h1".data },
          .raisesErr "boom".data] 0 0 = .error "boom".data
      ∧ storeArticles (fun _ => none) "pdf".data "f.pdf".data 0 0
          ⟨[], [], [], 1⟩
          [.article
              { title := "T".data, content := "C".data,
                contentHash := "h1".data },
            .raisesErr "boom".data] =
        (⟨[], [], [], 1⟩, .error "boom".data) := by
  have hrun : processBatch (fun _ => none) "pdf".data "f.pdf".data 0 0 2
      ⟨[], [], [], 1⟩
      [.article
          { title := "T".data, content := "C".data,
            contentHash := "h1".data },
        .raisesErr "boom".data] 0 0 = .error "boom".data := by
    rfl
  refine ⟨hrun, ?_⟩
  exact (store_articles_atomic (fun _ => none) "pdf".data "f.pdf".data 0 0
    ⟨[], [], [], 1⟩
    [.article
        { title := "T".data, content := "C".data,
          contentHash := "h1".data },
      .raisesErr "boom".data]).1 "boom".data hrun

end NewsAnalyzer.Store

namespace NewsAnalyzer.Tolerant

open NewsAnalyzer.Downloader (isAsciiDigit)

/-! ## C3 — `summarizer/utils.py`, `extract_json_object`

An executable model of the relevant slice of CPython's `json` module:

* values are `Json` below — `null`, booleans, numbers, strings, arrays and
  objects (an object is an insertion-ordered entry list, like a `dict`);
* a number carries its literal (sign, integer digits, fraction digits,
  exponent), which is exactly the information `repr(float)` /
  `str(int)` serialize — two structurally equal values are `==` in
  Python, so the structural round trip below subsumes the Python one;
* `dumps` is `json.dumps` with its defaults (`ensure_ascii=True`,
  separators `", "` / `": "`): strings are ASCII-escaped with the
  `\b \t \n \f \r \" \\` shortcuts, `\uXXXX` for other control and
  non-ASCII characters and surrogate pairs for astral ones;
* `loads` is a fuel-driven strict JSON parser (fuel ≥ input length + 2 at
  every call site).  Deviations from CPython, none reachable from `dumps`
  output and none exercised by any theorem: `NaN/Infinity` literals are
  rejected, and a lone `\uD800`-range escape is rejected rather than
  producing a lone-surrogate `str` (unrepresentable in `Char`). -/

/-- A JSON number literal: `-? digits (. digits)? ([eE] sign? digits)?`.
`frac = []` and `exp = none` make it a Python `int`; digits are the
written digit values. -/
structure NumLit where
  neg : Bool
  intPart : List ℕ
  frac : List ℕ
  exp : Option (Bool × List ℕ)
  deriving Repr, DecidableEq

mutual
inductive Json where
  | null
  | bool (b : Bool)
  | num (n : NumLit)
  | str (s : List Char)
  | arr (l : JList)
  | obj (o : JObj)
  deriving DecidableEq

inductive JList where
  | nil
  | cons (hd : Json) (tl : JList)
  deriving DecidableEq

inductive JObj where
  | nil
  | cons (key : List Char) (val : Json) (tl : JObj)
  deriving DecidableEq
end

/-- `0`-`9` (also the lowercase hex digits below `a`). -/
def digitChar (d : ℕ) : Char := Hash.hexChars.getD d '0'

/-- Grammar well-formedness of a number literal: nonempty integer part
with no leading zero, digits below ten, nonempty fraction/exponent digit
runs when present. -/
def numWf (n : NumLit) : Bool :=
  !n.intPart.isEmpty
    && (n.intPart.headD 1 ≠ 0 || n.intPart.length = 1)
    && n.intPart.all (· < 10)
    && n.frac.all (· < 10)
    && (match n.exp with
        | none => true
        | some (_, ds) => !ds.isEmpty && ds.all (· < 10))

/-- Print a number literal back (what `json.dumps` emits for the
`int`/`float` carrying it). -/
def printNum (n : NumLit) : List Char :=
  (if n.neg then ['-'] else []) ++ n.intPart.map digitChar
    ++ (if n.frac.isEmpty then [] else '.' :: n.frac.map digitChar)
    ++ (match n.exp with
        | none => []
        | some (sg, ds) => 'e' :: (if sg then '-' else '+') :: ds.map digitChar)

/-- The four-digit lowercase hex of `\uXXXX`. -/
def hex4 (n : ℕ) : List Char :=
  [digitChar (n / 4096 % 16), digitChar (n / 256 % 16),
   digitChar (n / 16 % 16), digitChar (n % 16)]

/-- `json.dumps` escaping of one character (`ensure_ascii=True`). -/
def escChar (c : Char) : List Char :=
  if c = '"' then ['\\', '"']
  else if c = '\\' then ['\\', '\\']
  else if c = '\n' then ['\\', 'n']
  else if c = '\t' then ['\\', 't']
  else if c = '\x0d' then ['\\', 'r']
  else if c = '\x08' then ['\\', 'b']
  else if c = '\x0c' then ['\\', 'f']
  else if c.toNat < 32 || 126 < c.toNat then
    (if c.toNat < 65536 then '\\' :: 'u' :: hex4 c.toNat
     else
       '\\' :: 'u' :: hex4 (55296 + (c.toNat - 65536) / 1024)
         ++ '\\' :: 'u' :: hex4 (56320 + (c.toNat - 65536) % 1024))
  else [c]

def escStr (s : List Char) : List Char := s.flatMap escChar

mutual
/-- `json.dumps(v)` with the default separators. -/
def dumpJson : Json → List Char
  | .null => "null".data
  | .bool true => "true".data
  | .bool false => "false".data
  | .num n => printNum n
  | .str s => '"' :: escStr s ++ ['"']
  | .arr l => '[' :: dumpList l ++ [']']
  | .obj o => '{' :: dumpObj o ++ ['}']

def dumpList : JList → List Char
  | .nil => []
  | .cons v .nil => dumpJson v
  | .cons v (.cons w tl) =>
    dumpJson v ++ ',' :: ' ' :: dumpList (.cons w tl)

def dumpObj : JObj → List Char
  | .nil => []
  | .cons k v .nil => '"' :: escStr k ++ '"' :: ':' :: ' ' :: dumpJson v
  | .cons k v (.cons k2 v2 tl) =>
    '"' :: escStr k ++ '"' :: ':' :: ' ' :: dumpJson v
      ++ ',' :: ' ' :: dumpObj (.cons k2 v2 tl)
end

mutual
/-- Number literals well-formed throughout the value. -/
def jsonWf : Json → Bool
  | .null => true
  | .bool _ => true
  | .num n => numWf n
  | .str _ => true
  | .arr l => jlistWf l
  | .obj o => jobjWf o

def jlistWf : JList → Bool
  | .nil => true
  | .cons v tl => jsonWf v && jlistWf tl

def jobjWf : JObj → Bool
  | .nil => true
  | .cons _ v tl => jsonWf v && jobjWf tl
end

end NewsAnalyzer.Tolerant

namespace NewsAnalyzer.Tolerant

open NewsAnalyzer.Downloader (isAsciiDigit)

/-- JSON whitespace (`json.decoder.WHITESPACE`). -/
def isJsonWs (c : Char) : Bool :=
  c = ' ' || c = '\t' || c = '\n' || c = '\x0d'

/-- Value of one hex digit (`int(c, 16)` accepts both cases). -/
def hexDigitVal (c : Char) : Option ℕ :=
  if '0' ≤ c && c ≤ '9' then some (c.toNat - 48)
  else if 'a' ≤ c && c ≤ 'f' then some (c.toNat - 87)
  else if 'A' ≤ c && c ≤ 'F' then some (c.toNat - 55)
  else none

/-- Read the four hex digits of a `\uXXXX` escape. -/
def parseHex4 : List Char → Option (ℕ × List Char)
  | a :: b :: c :: d :: rest =>
    match hexDigitVal a, hexDigitVal b, hexDigitVal c, hexDigitVal d with
    | some va, some vb, some vc, some vd =>
      some (4096 * va + 256 * vb + 16 * vc + vd, rest)
    | _, _, _, _ => none
  | _ => none

/-- String body after the opening quote (strict: raw control characters are
rejected; surrogate escapes must pair). -/
def parseStringBody : ℕ → List Char → Option (List Char × List Char)
  | 0, _ => none
  | _ + 1, [] => none
  | fuel + 1, c :: rest =>
    if c = '"' then some ([], rest)
    else if c = '\\' then
      match rest with
      | [] => none
      | e :: r2 =>
        if e = '"' || e = '\\' || e = '/' then
          (parseStringBody fuel r2).map (fun p => (e :: p.1, p.2))
        else if e = 'b' then
          (parseStringBody fuel r2).map (fun p => ('\x08' :: p.1, p.2))
        else if e = 'f' then
          (parseStringBody fuel r2).map (fun p => ('\x0c' :: p.1, p.2))
        else if e = 'n' then
          (parseStringBody fuel r2).map (fun p => ('\n' :: p.1, p.2))
        else if e = 'r' then
          (parseStringBody fuel r2).map (fun p => ('\x0d' :: p.1, p.2))
        else if e = 't' then
          (parseStringBody fuel r2).map (fun p => ('\t' :: p.1, p.2))
        else if e = 'u' then
          match parseHex4 r2 with
          | none => none
          | some (n, r3) =>
            if 55296 ≤ n ∧ n < 56320 then
              match r3 with
              | '\\' :: 'u' :: r4 =>
                match parseHex4 r4 with
                | some (m, r5) =>
                  if 56320 ≤ m ∧ m < 57344 then
                    (parseStringBody fuel r5).map (fun p =>
                      (Char.ofNat (65536 + 1024 * (n - 55296) + (m - 56320))
                        :: p.1, p.2))
                  else none
                | none => none
              | _ => none
            else if 56320 ≤ n ∧ n < 57344 then none
            else (parseStringBody fuel r3).map (fun p =>
              (Char.ofNat n :: p.1, p.2))
        else none
    else if c.toNat < 32 then none
    else (parseStringBody fuel rest).map (fun p => (c :: p.1, p.2))

/-- Sign phase of the scanner's `NUMBER_RE`: an optional leading `-`. -/
def numSign : List Char → Bool × List Char
  | [] => (false, [])
  | c :: t => if c = '-' then (true, t) else (false, c :: t)

/-- Fraction phase: `(\.\d+)?` — the fraction digits and the remainder,
or no digits and the unchanged input when the group does not match. -/
def numFrac : List Char → List Char × List Char
  | [] => ([], [])
  | c :: t =>
    if c = '.' then
      let fracRun := t.takeWhile isAsciiDigit
      if fracRun.isEmpty then ([], c :: t)
      else (fracRun, t.drop fracRun.length)
    else ([], c :: t)

/-- Exponent phase: `([eE][-+]?\d+)?`. -/
def numExp : List Char → Option (Bool × List Char) × List Char
  | [] => (none, [])
  | e :: t =>
    if e = 'e' ∨ e = 'E' then
      let (sg, t2) :=
        match t with
        | [] => (false, t)
        | c :: u =>
          if c = '-' then (true, u)
          else if c = '+' then (false, u)
          else (false, t)
      let expRun := t2.takeWhile isAsciiDigit
      if expRun.isEmpty then (none, e :: t)
      else (some (sg, expRun), t2.drop expRun.length)
    else (none, e :: t)

/-- `(-?(?:0|[1-9]\d*))(\.\d+)?([eE][-+]?\d+)?` (the scanner's `NUMBER_RE`),
returning the literal; a remainder the document grammar could never
continue (a stray `.` or a dangling exponent head) is rejected here, as
the scanner's caller would reject it one step later. -/
def parseNumber (s : List Char) : Option (NumLit × List Char) :=
  let (neg, s1) := numSign s
  let intRun := s1.takeWhile isAsciiDigit
  if intRun.isEmpty then none
  else if intRun.headD '0' = '0' ∧ 1 < intRun.length then none
  else
    let s2 := s1.drop intRun.length
    let (frac, s3) := numFrac s2
    if s2 ≠ s3 ∨ frac.isEmpty then
      -- either a fraction was consumed, or there was none to consume
      if s2 = s3 ∧ s2.headD ' ' = '.' then none  -- a stray dot follows
      else
        let (exp, s4) := numExp s3
        if (s4.headD ' ' = 'e' ∨ s4.headD ' ' = 'E') ∧ exp = none then
          none  -- a dangling exponent head follows
        else
          some
            ({ neg := neg
               intPart := intRun.map (fun c => c.toNat - 48)
               frac := frac.map (fun c => c.toNat - 48)
               exp := exp.map (fun p => (p.1, p.2.map (fun c => c.toNat - 48))) },
             s4)
    else none

end NewsAnalyzer.Tolerant

namespace NewsAnalyzer.Tolerant

mutual
/-- One JSON value (fuel ≥ remaining input length + 1 at every call site). -/
def parseValue : ℕ → List Char → Option (Json × List Char)
  | 0, _ => none
  | _ + 1, [] => none
  | fuel + 1, c :: rest =>
    if c = 'n' then
      match rest with
      | 'u' :: 'l' :: 'l' :: r => some (.null, r)
      | _ => none
    else if c = 't' then
      match rest with
      | 'r' :: 'u' :: 'e' :: r => some (.bool true, r)
      | _ => none
    else if c = 'f' then
      match rest with
      | 'a' :: 'l' :: 's' :: 'e' :: r => some (.bool false, r)
      | _ => none
    else if c = '"' then
      (parseStringBody fuel rest).map (fun p => (.str p.1, p.2))
    else if c = '[' then
      match rest.dropWhile isJsonWs with
      | [] => none
      | d :: r =>
        if d = ']' then some (.arr .nil, r)
        else (parseItems fuel (d :: r)).map (fun p => (.arr p.1, p.2))
    else if c = '{' then
      match rest.dropWhile isJsonWs with
      | [] => none
      | d :: r =>
        if d = '}' then some (.obj .nil, r)
        else (parseMembers fuel (d :: r)).map (fun p => (.obj p.1, p.2))
    else
      (parseNumber (c :: rest)).map (fun p => (.num p.1, p.2))

/-- Array items after `[ ws` (at least one item; consumes the closing `]`). -/
def parseItems : ℕ → List Char → Option (JList × List Char)
  | 0, _ => none
  | fuel + 1, s =>
    match parseValue fuel s with
    | none => none
    | some (v, r) =>
      match r.dropWhile isJsonWs with
      | [] => none
      | d :: r2 =>
        if d = ',' then
          (parseItems fuel (r2.dropWhile isJsonWs)).map
            (fun p => (.cons v p.1, p.2))
        else if d = ']' then some (.cons v .nil, r2)
        else none

/-- Object members after `{ ws` (at least one; consumes the closing `}`). -/
def parseMembers : ℕ → List Char → Option (JObj × List Char)
  | 0, _ => none
  | fuel + 1, s =>
    match s with
    | [] => none
    | q :: s1 =>
      if q = '"' then
        match parseStringBody fuel s1 with
        | none => none
        | some (k, r) =>
          match r.dropWhile isJsonWs with
          | [] => none
          | d :: r2 =>
            if d = ':' then
              match parseValue fuel (r2.dropWhile isJsonWs) with
              | none => none
              | some (v, r3) =>
                match r3.dropWhile isJsonWs with
                | [] => none
                | d2 :: r4 =>
                  if d2 = ',' then
                    (parseMembers fuel (r4.dropWhile isJsonWs)).map
                      (fun p => (.cons k v p.1, p.2))
                  else if d2 = '}' then some (.cons k v .nil, r4)
                  else none
            else none
      else none
end

/-- `json.loads`: leading/trailing whitespace allowed, nothing else. -/
def loads (s : List Char) : Option Json :=
  match parseValue (2 * s.length + 2) (s.dropWhile isJsonWs) with
  | some (v, rest) => if (rest.dropWhile isJsonWs).isEmpty then some v else none
  | none => none

end NewsAnalyzer.Tolerant

namespace NewsAnalyzer.Tolerant

open NewsAnalyzer.Events (findSub rfindSub)

/-- `THINK_TAG_PATTERN.sub("", raw)` for
`re.compile(r"<think>.*?</think>", re.DOTALL | re.IGNORECASE)`: at each
position, a case-insensitive `<think>` whose remainder contains a
case-insensitive `</think>` matches up to the *first* such closer
(non-greedy), is deleted, and scanning resumes after it. -/
def thinkSubAux : ℕ → List Char → List Char
  | 0, l => l
  | _, [] => []
  | fuel + 1, c :: rest =>
    if pyStartsWith (pyLower (c :: rest)) "<think>".data then
      match findSub "</think>".data (pyLower ((c :: rest).drop 7)) with
      | some j => thinkSubAux fuel ((c :: rest).drop (7 + j + 8))
      | none => c :: thinkSubAux fuel rest
    else c :: thinkSubAux fuel rest

def thinkSub (s : List Char) : List Char := thinkSubAux s.length s

/-- `utils.sanitize_response_text`. -/
def sanitizeResponseText (raw : List Char) : List Char :=
  if raw.isEmpty then [] else pyStrip (thinkSub raw)

/-- Python `str.splitlines()` (line boundaries: `\n`, `\r`, `\r\n`, `\v`,
`\f`, `\x1c`-`\x1e`, `\x85`, ` `, ` `). -/
def isLineBreak (c : Char) : Bool :=
  c = '\n' || c = '\x0d' || c = '\x0b' || c = '\x0c' || c = '\x1c'
    || c = '\x1d' || c = '\x1e' || c = '\x85' || c = ' ' || c = ' '

def pySplitlinesAux (cur : List Char) : List Char → List (List Char)
  | [] => if cur.isEmpty then [] else [cur.reverse]
  | '\x0d' :: '\n' :: rest => cur.reverse :: pySplitlinesAux [] rest
  | c :: rest =>
    if isLineBreak c then cur.reverse :: pySplitlinesAux [] rest
    else pySplitlinesAux (c :: cur) rest

def pySplitlines (s : List Char) : List (List Char) := pySplitlinesAux [] s

/-- `line.lstrip("-•* ")`. -/
def lstripBullets (s : List Char) : List Char :=
  s.dropWhile (fun c => c = '-' || c = '•' || c = '*' || c = ' ')

/-- `line[:1] in ("-", "•", "*")`. -/
def isBulletLine (s : List Char) : Bool :=
  match s.head? with
  | some c => c = '-' || c = '•' || c = '*'
  | none => false

/-- A `NumLit` for a plain one-digit-dot-one-digit float such as `0.5`. -/
def decLit (i f : ℕ) : NumLit :=
  { neg := false, intPart := [i], frac := [f], exp := none }

/-- The synthesized dict of the empty-input path
(`summary/key_points/sentiment/topics/confidence_score = 0.5`). -/
def emptyFallback : Json :=
  .obj (.cons "summary".data (.str [])
    (.cons "key_points".data (.arr .nil)
      (.cons "sentiment".data (.str "neutral".data)
        (.cons "topics".data (.arr .nil)
          (.cons "confidence_score".data (.num (decLit 0 5)) .nil)))))

def jlistOfStrs : List (List Char) → JList
  | [] => .nil
  | s :: rest => .cons (.str s) (jlistOfStrs rest)

/-- The synthesized dict of the free-form fallback path. -/
def textFallback (summary : List Char) (bullets : List (List Char)) : Json :=
  .obj (.cons "summary".data (.str summary)
    (.cons "key_points".data (.arr (jlistOfStrs bullets))
      (.cons "sentiment".data (.str "neutral".data)
        (.cons "topics".data (.arr .nil)
          (.cons "confidence_score".data (.num (decLit 0 6)) .nil)))))

/-- `utils.extract_json_object`. -/
def extractJsonObject (raw : List Char) : Json × Bool :=
  let cleaned := sanitizeResponseText raw
  if cleaned.isEmpty then (emptyFallback, true)
  else
    match loads cleaned with
    | some v => (v, false)
    | none =>
      let snippetResult :=
        match findSub ['\x7b'] cleaned, rfindSub ['\x7d'] cleaned with
        | some start, some stop =>
          if start < stop then
            loads ((cleaned.drop start).take (stop + 1 - start))
          else none
        | _, _ => none
      match snippetResult with
      | some v => (v, true)
      | none =>
        let lines := (pySplitlines cleaned).map pyStrip
          |>.filter (fun l => !l.isEmpty)
        let bullets := (lines.filter isBulletLine).map lstripBullets
        let nonBullets := lines.filter (fun l => !bullets.contains l)
        let summaryText := pyStrip (pyJoin [' '] nonBullets)
        (textFallback (if summaryText.isEmpty then cleaned else summaryText)
          bullets, true)

end NewsAnalyzer.Tolerant

namespace NewsAnalyzer.Tolerant

set_option maxRecDepth 200000 in
/-- Sanity: the strict parser on a small compound document. -/
theorem loads_check :
    loads "  \x7b\"a\": [1, true, null], \"b\": \"x\\n\" \x7d ".data =
      some (.obj (.cons "a".data
          (.arr (.cons (.num ⟨false, [1], [], none⟩)
            (.cons (.bool true) (.cons .null .nil))))
        (.cons "b".data (.str ['x', '\n']) .nil))) := by
  rfl

set_option maxRecDepth 200000 in
/-- Sanity: `sanitize_response_text` strips think blocks and whitespace. -/
theorem sanitize_check :
    sanitizeResponseText " <think>x</think>ok ".data = "ok".data := by
  rfl

end NewsAnalyzer.Tolerant

namespace NewsAnalyzer.Tolerant

set_option maxRecDepth 400000 in
/-- **C3, counterexample.** The think-tag stripping runs over the *whole*
response, including the inside of JSON string literals: for the
schema-conforming dict whose `summary` is the string `"<think>a</think>"`,
`extract_json_object(json.dumps(obj))` deletes the tag from inside the
serialized string and returns the dict with `summary = ""` — not `obj` —
still with `used_fallback = false`. -/
theorem extract_json_roundtrip_counterexample :
    extractJsonObject (dumpJson (.obj (.cons "summary".data
        (.str "<think>a</think>".data)
      (.cons "key_points".data (.arr .nil)
        (.cons "sentiment".data (.str "neutral".data)
          (.cons "confidence_score".data (.num (decLit 0 9)) .nil))))))
      = (.obj (.cons "summary".data (.str [])
          (.cons "key_points".data (.arr .nil)
            (.cons "sentiment".data (.str "neutral".data)
              (.cons "confidence_score".data (.num (decLit 0 9)) .nil)))),
         false)
    ∧ (Json.obj (.cons "summary".data (.str [])
          (.cons "key_points".data (.arr .nil)
            (.cons "sentiment".data (.str "neutral".data)
              (.cons "confidence_score".data (.num (decLit 0 9)) .nil)))))
      ≠ (.obj (.cons "summary".data (.str "<think>a</think>".data)
          (.cons "key_points".data (.arr .nil)
            (.cons "sentiment".data (.str "neutral".data)
              (.cons "confidence_score".data (.num (decLit 0 9)) .nil))))) := by
  constructor
  · rfl
  · decide

end NewsAnalyzer.Tolerant

namespace NewsAnalyzer.Tolerant

open NewsAnalyzer.Downloader (isAsciiDigit takeWhile_append_all)

/-- Facts about the ten decimal digit characters, used throughout the
round-trip proofs. -/
theorem digitChar_facts (d : ℕ) (h : d < 10) :
    isAsciiDigit (digitChar d) = true ∧ isJsonWs (digitChar d) = false ∧
    (digitChar d).toNat - 48 = d ∧ digitChar d ≠ ']' ∧ digitChar d ≠ '\x7d' ∧
    digitChar d ≠ 'n' ∧ digitChar d ≠ 't' ∧ digitChar d ≠ 'f' ∧
    digitChar d ≠ '"' ∧ digitChar d ≠ '[' ∧ digitChar d ≠ '\x7b' ∧
    digitChar d ≠ '-' ∧ digitChar d ≠ '.' ∧ digitChar d ≠ 'e' ∧
    digitChar d ≠ 'E' ∧ (digitChar d = '0' ↔ d = 0) := by
  interval_cases d <;> exact ⟨rfl, rfl, rfl, by decide, by decide, by decide,
    by decide, by decide, by decide, by decide, by decide, by decide,
    by decide, by decide, by decide, by decide⟩

/-- Value of a hex digit printed by `digitChar`. -/
theorem hexDigitVal_digitChar (k : ℕ) (h : k < 16) :
    hexDigitVal (digitChar k) = some k := by
  interval_cases k <;> rfl

/-- Reading back the four hex digits of `hex4`. -/
theorem parseHex4_hex4 (m : ℕ) (rest : List Char) (h : m < 65536) :
    parseHex4 (hex4 m ++ rest) = some (m, rest) := by
  show parseHex4 (digitChar (m / 4096 % 16) :: digitChar (m / 256 % 16) ::
    digitChar (m / 16 % 16) :: digitChar (m % 16) :: rest) = some (m, rest)
  have h1 := hexDigitVal_digitChar (m / 4096 % 16) (Nat.mod_lt _ (by omega))
  have h2 := hexDigitVal_digitChar (m / 256 % 16) (Nat.mod_lt _ (by omega))
  have h3 := hexDigitVal_digitChar (m / 16 % 16) (Nat.mod_lt _ (by omega))
  have h4 := hexDigitVal_digitChar (m % 16) (Nat.mod_lt _ (by omega))
  have harith : 4096 * (m / 4096 % 16) + 256 * (m / 256 % 16)
      + 16 * (m / 16 % 16) + m % 16 = m := by omega
  simp only [parseHex4, h1, h2, h3, h4, harith]

/-- Digit lists survive printing and re-reading. -/
theorem map_digitChar_toNat (l : List ℕ) (h : l.all (· < 10) = true) :
    (l.map digitChar).map (fun c => c.toNat - 48) = l := by
  induction l with
  | nil => rfl
  | cons d t ih =>
    simp only [List.all_cons, Bool.and_eq_true, decide_eq_true_eq] at h
    simp only [List.map_cons, List.cons.injEq]
    exact ⟨(digitChar_facts d h.1).2.2.1, ih h.2⟩

/-- Printed digit runs consist of ASCII digits. -/
theorem all_digit_map (l : List ℕ) (h : l.all (· < 10) = true) :
    ∀ c ∈ l.map digitChar, isAsciiDigit c = true := by
  intro c hc
  rw [List.mem_map] at hc
  obtain ⟨d, hd, rfl⟩ := hc
  simp only [List.all_eq_true, decide_eq_true_eq] at h
  exact (digitChar_facts d (h d hd)).1

/-- Every escape produced by `escChar` is at least one character long. -/
theorem one_le_escChar_length (c : Char) : 1 ≤ (escChar c).length := by
  unfold escChar
  split_ifs <;> simp [hex4]

/-- Escaping cannot shrink a string. -/
theorem length_le_escStr (s : List Char) : s.length ≤ (escStr s).length := by
  induction s with
  | nil => exact Nat.le_refl 0
  | cons c t ih =>
    show t.length + 1 ≤ (escChar c ++ escStr t).length
    rw [List.length_append]
    have := one_le_escChar_length c
    omega

/-- Every valid scalar either precedes the surrogate range or follows it. -/
theorem char_toNat_valid (c : Char) :
    c.toNat < 55296 ∨ (57344 ≤ c.toNat ∧ c.toNat < 1114112) := by
  have h := c.valid
  unfold UInt32.isValidChar Nat.isValidChar at h
  have : c.toNat = c.val.toNat := rfl
  omega

end NewsAnalyzer.Tolerant

namespace NewsAnalyzer.Tolerant

open NewsAnalyzer.Downloader (isAsciiDigit takeWhile_append_all)

/-- A printed number starts with a minus sign or a digit — never with
whitespace, a bracket or a keyword/string/object opener. -/
theorem printNum_shape (n : NumLit) (hwf : numWf n = true) :
    ∃ c t, printNum n = c :: t ∧ isJsonWs c = false ∧ c ≠ ']' ∧
      c ≠ '\x7d' ∧ c ≠ 'n' ∧ c ≠ 't' ∧ c ≠ 'f' ∧ c ≠ '"' ∧ c ≠ '[' ∧
      c ≠ '\x7b' := by
  have hip : n.intPart ≠ [] := by
    unfold numWf at hwf
    simp only [Bool.and_eq_true, Bool.not_eq_true'] at hwf
    exact fun h => by simp [h] at hwf
  obtain ⟨d, ds, hds⟩ := List.exists_cons_of_ne_nil hip
  have hd10 : d < 10 := by
    unfold numWf at hwf
    simp only [Bool.and_eq_true, List.all_eq_true, decide_eq_true_eq] at hwf
    exact hwf.1.1.2 d (by rw [hds]; exact List.mem_cons_self d ds)
  cases hn : n.neg
  · rw [printNum, hn, hds]
    simp only [if_neg Bool.false_ne_true, List.map_cons, List.nil_append,
      List.cons_append, List.append_assoc]
    obtain ⟨_, h2, _, h4, h5, h6, h7, h8, h9, h10, h11, _⟩ :=
      digitChar_facts d hd10
    exact ⟨_, _, rfl, h2, h4, h5, h6, h7, h8, h9, h10, h11⟩
  · rw [printNum, hn]
    simp only [if_pos rfl, List.cons_append, List.nil_append,
      List.append_assoc]
    exact ⟨'-', _, rfl, by decide, by decide, by decide, by decide,
      by decide, by decide, by decide, by decide, by decide⟩

/-- A serialized JSON value starts with a significant character: never
whitespace and never a closing bracket. -/
theorem dumpJson_shape (v : Json) (hwf : jsonWf v = true) :
    ∃ c t, dumpJson v = c :: t ∧ isJsonWs c = false ∧ c ≠ ']' ∧
      c ≠ '\x7d' := by
  cases v with
  | null => exact ⟨'n', ['u', 'l', 'l'], rfl, by decide, by decide, by decide⟩
  | bool b =>
    cases b
    · exact ⟨'f', ['a', 'l', 's', 'e'], rfl, by decide, by decide, by decide⟩
    · exact ⟨'t', ['r', 'u', 'e'], rfl, by decide, by decide, by decide⟩
  | num n =>
    obtain ⟨c, t, hct, h1, h2, h3, _⟩ := printNum_shape n hwf
    exact ⟨c, t, hct, h1, h2, h3⟩
  | str s =>
    exact ⟨'"', escStr s ++ ['"'], by simp [dumpJson], by decide,
      by decide, by decide⟩
  | arr l =>
    exact ⟨'[', dumpList l ++ [']'], by simp [dumpJson], by decide,
      by decide, by decide⟩
  | obj o =>
    exact ⟨'\x7b', dumpObj o ++ ['\x7d'], by simp [dumpJson], by decide,
      by decide, by decide⟩

/-- Whitespace skipping is a no-op in front of a serialized value. -/
theorem dropWhile_ws_dumps (v : Json) (hwf : jsonWf v = true)
    (t : List Char) :
    (dumpJson v ++ t).dropWhile isJsonWs = dumpJson v ++ t := by
  obtain ⟨c, u, hcu, hws, _, _⟩ := dumpJson_shape v hwf
  rw [hcu, List.cons_append, List.dropWhile_cons, hws]
  simp

/-- The strip is a no-op on a string with significant first and last
characters. -/
theorem pyStrip_id_of_ends (c d : Char) (l : List Char)
    (hc : isPySpace c = false) (hd : isPySpace d = false) :
    pyStrip (c :: (l ++ [d])) = c :: (l ++ [d]) := by
  unfold pyStrip
  have h1 : (c :: (l ++ [d])).dropWhile isPySpace = c :: (l ++ [d]) := by
    rw [List.dropWhile_cons, hc]; simp
  rw [h1]
  have h2 : (c :: (l ++ [d])).reverse = d :: (l.reverse ++ [c]) := by
    simp
  rw [h2]
  have h3 : (d :: (l.reverse ++ [c])).dropWhile isPySpace
      = d :: (l.reverse ++ [c]) := by
    rw [List.dropWhile_cons, hd]; simp
  rw [h3, ← h2, List.reverse_reverse]

end NewsAnalyzer.Tolerant

namespace NewsAnalyzer.Tolerant

open NewsAnalyzer.Downloader (isAsciiDigit takeWhile_append_all)

/-- A digit head is not a sign. -/
theorem numSign_digit (d : ℕ) (h : d < 10) (t : List Char) :
    numSign (digitChar d :: t) = (false, digitChar d :: t) := by
  obtain ⟨_, _, _, _, _, _, _, _, _, _, _, hm, _, _, _, _⟩ :=
    digitChar_facts d h
  simp [numSign, hm]

/-- No fraction group matches without a dot. -/
theorem numFrac_noDot (s : List Char)
    (h : ∀ c, s.head? = some c → c ≠ '.') : numFrac s = ([], s) := by
  cases s with
  | nil => rfl
  | cons c t => simp [numFrac, h c rfl]

/-- The fraction group consumes exactly the printed fraction digits. -/
theorem numFrac_digits (f : List ℕ) (t : List Char) (hne : f ≠ [])
    (hall : f.all (· < 10) = true)
    (ht : ∀ c, t.head? = some c → isAsciiDigit c = false) :
    numFrac ('.' :: (f.map digitChar ++ t)) = (f.map digitChar, t) := by
  simp only [numFrac, if_pos rfl]
  rw [takeWhile_append_all _ _ _ (all_digit_map f hall) ht]
  have h1 : (f.map digitChar).isEmpty = false := by
    cases f with
    | nil => exact absurd rfl hne
    | cons a b => rfl
  simp [h1, List.drop_left]

/-- No exponent group matches without an `e`/`E` head. -/
theorem numExp_none (s : List Char)
    (h : ∀ c, s.head? = some c → c ≠ 'e' ∧ c ≠ 'E') :
    numExp s = (none, s) := by
  cases s with
  | nil => rfl
  | cons c t =>
    have := h c rfl
    simp [numExp, this.1, this.2]

/-- The exponent group consumes the printed sign and digits. -/
theorem numExp_digits (sg : Bool) (ds : List ℕ) (t : List Char)
    (hne : ds ≠ []) (hall : ds.all (· < 10) = true)
    (ht : ∀ c, t.head? = some c → isAsciiDigit c = false) :
    numExp ('e' :: (if sg then '-' else '+') :: (ds.map digitChar ++ t))
      = (some (sg, ds.map digitChar), t) := by
  have hde : (ds.map digitChar).isEmpty = false := by
    cases ds with
    | nil => exact absurd rfl hne
    | cons a b => rfl
  have htw := takeWhile_append_all isAsciiDigit _ t (all_digit_map ds hall) ht
  cases sg
  · simp only [numExp, if_pos (Or.inl rfl), Bool.false_eq_true, if_false]
    simp only [show ('+' = '-') = False by simp, if_false,
      show ('+' = '+') = True by simp, if_true]
    rw [htw]
    simp [hde, List.drop_left]
  · simp only [numExp, if_pos (Or.inl rfl), if_true]
    rw [htw]
    simp [hde, List.drop_left]

end NewsAnalyzer.Tolerant

namespace NewsAnalyzer.Tolerant

open NewsAnalyzer.Downloader (isAsciiDigit takeWhile_append_all)

/-- The sign phase over an optional printed minus and a digit head. -/
theorem numSign_sign_digits (neg : Bool) (d0 : ℕ) (h : d0 < 10)
    (t : List Char) :
    numSign ((if neg then ['-'] else []) ++ (digitChar d0 :: t))
      = (neg, digitChar d0 :: t) := by
  cases neg
  · simpa using numSign_digit d0 h t
  · simp [numSign]

/-- Composed form of the digit round trip, as `simp` normalizes nested
maps. -/
theorem map_digitChar_toNat_comp (l : List ℕ) (h : l.all (· < 10) = true) :
    l.map ((fun c => c.toNat - 48) ∘ digitChar) = l := by
  rw [← List.map_map]
  exact map_digitChar_toNat l h

set_option maxHeartbeats 1000000 in
/-- Reading back a printed number literal when nothing number-like
follows it. -/
theorem parseNumber_printNum (n : NumLit) (rest : List Char)
    (hwf : numWf n = true)
    (hstop : ∀ c, rest.head? = some c →
      isAsciiDigit c = false ∧ c ≠ '.' ∧ c ≠ 'e' ∧ c ≠ 'E') :
    parseNumber (printNum n ++ rest) = some (n, rest) := by
  obtain ⟨neg, ip, fr, ex⟩ := n
  unfold numWf at hwf
  simp only [Bool.and_eq_true, Bool.not_eq_true', Bool.or_eq_true,
    decide_eq_true_eq] at hwf
  obtain ⟨⟨⟨⟨hipE, hlead⟩, hip10⟩, hfr10⟩, hexwf⟩ := hwf
  have hipne : ip ≠ [] := fun h => by rw [h] at hipE; exact absurd hipE (by simp)
  obtain ⟨d0, ip', hip⟩ := List.exists_cons_of_ne_nil hipne
  have hd010 : d0 < 10 := by
    have := hip10
    rw [hip] at this
    simp only [List.all_cons, Bool.and_eq_true, decide_eq_true_eq] at this
    exact this.1
  have hrestD : ∀ c, rest.head? = some c → isAsciiDigit c = false :=
    fun c hc => (hstop c hc).1
  have hrdot : rest.head?.getD ' ' ≠ '.' := by
    cases hr : rest with
    | nil => decide
    | cons c t => simpa using (hstop c (by rw [hr]; rfl)).2.1
  have hre : rest.head?.getD ' ' ≠ 'e' ∧ rest.head?.getD ' ' ≠ 'E' := by
    cases hr : rest with
    | nil => exact ⟨by decide, by decide⟩
    | cons c t =>
      exact ⟨by simpa using (hstop c (by rw [hr]; rfl)).2.2.1,
        by simpa using (hstop c (by rw [hr]; rfl)).2.2.2⟩
  obtain ⟨hD1, hD2, hD3zero⟩ :
      (ip.map digitChar).isEmpty = false ∧
      (ip.map digitChar).headD '0' = digitChar d0 ∧
      (digitChar d0 = '0' ↔ d0 = 0) := by
    refine ⟨by rw [hip]; rfl, by rw [hip]; rfl, ?_⟩
    obtain ⟨_, _, _, _, _, _, _, _, _, _, _, _, _, _, _, hz⟩ :=
      digitChar_facts d0 hd010
    exact hz
  have hnoLead : ¬((ip.map digitChar).headD '0' = '0'
      ∧ 1 < (ip.map digitChar).length) := by
    rw [hD2]
    rintro ⟨hzero, hlen⟩
    rcases hlead with h0 | h1
    · rw [hip] at h0
      exact h0 (by simpa [List.headD] using hD3zero.1 hzero)
    · rw [List.length_map, h1] at hlen
      omega
  have hipAll : (ip.map digitChar).map (fun c => c.toNat - 48) = ip :=
    map_digitChar_toNat ip hip10
  revert hexwf
  rcases ex with _ | ⟨sg, ds⟩ <;> rcases fr with _ | ⟨f0, fr'⟩ <;>
    intro hexwf
  · -- no fraction, no exponent
    have hshape : printNum ⟨neg, ip, [], none⟩ ++ rest
        = (if neg then ['-'] else []) ++ (digitChar d0
          :: (ip'.map digitChar ++ rest)) := by
      rw [printNum, hip]
      simp [List.append_assoc]
    have hsgn : numSign (printNum ⟨neg, ip, [], none⟩ ++ rest)
        = (neg, ip.map digitChar ++ rest) := by
      rw [hshape, numSign_sign_digits neg d0 hd010, hip]
      rfl
    have htw : (ip.map digitChar ++ rest).takeWhile isAsciiDigit
        = ip.map digitChar :=
      takeWhile_append_all _ _ _ (all_digit_map ip hip10) hrestD
    have hfr : numFrac rest = ([], rest) :=
      numFrac_noDot rest (fun c hc => (hstop c hc).2.1)
    have hexp : numExp rest = (none, rest) :=
      numExp_none rest (fun c hc => ⟨(hstop c hc).2.2.1, (hstop c hc).2.2.2⟩)
    simp only [parseNumber, hsgn, htw, hD1, Bool.false_eq_true, if_false,
      if_neg hnoLead, List.drop_left, hfr, hexp, ne_eq, not_true_eq_false,
      List.isEmpty_nil, or_true, if_true]
    simp [hipAll, hrdot, hre.1, hre.2, map_digitChar_toNat_comp ip hip10]
  · -- fraction present, no exponent
    have hfrne : (f0 :: fr') ≠ [] := by simp
    have hshape : printNum ⟨neg, ip, f0 :: fr', none⟩ ++ rest
        = (if neg then ['-'] else []) ++ (digitChar d0
          :: (ip'.map digitChar ++ ('.' :: ((f0 :: fr').map digitChar
            ++ rest)))) := by
      rw [printNum, hip]
      simp [List.append_assoc]
    have hsgn : numSign (printNum ⟨neg, ip, f0 :: fr', none⟩ ++ rest)
        = (neg, ip.map digitChar ++ ('.' :: ((f0 :: fr').map digitChar
          ++ rest))) := by
      rw [hshape, numSign_sign_digits neg d0 hd010, hip]
      rfl
    have htw : (ip.map digitChar ++ ('.' :: ((f0 :: fr').map digitChar
        ++ rest))).takeWhile isAsciiDigit = ip.map digitChar :=
      takeWhile_append_all _ _ _ (all_digit_map ip hip10)
        (fun c hc => by cases hc; rfl)
    have hfrr := numFrac_digits (f0 :: fr') rest hfrne hfr10 hrestD
    have hneq : ('.' :: ((f0 :: fr').map digitChar ++ rest)) ≠ rest := by
      intro h
      have := congrArg List.length h
      simp at this
      omega
    have hexp : numExp rest = (none, rest) :=
      numExp_none rest (fun c hc => ⟨(hstop c hc).2.2.1, (hstop c hc).2.2.2⟩)
    have hfr10c := hfr10
    simp only [List.all_cons, Bool.and_eq_true, decide_eq_true_eq] at hfr10c
    simp only [parseNumber, hsgn, htw, hD1, Bool.false_eq_true, if_false,
      if_neg hnoLead, List.drop_left, hfrr, ne_eq,
      if_pos (Or.inl hneq), hexp]
    simp [hipAll, hneq, hrdot, hre.1, hre.2, map_digitChar_toNat _ hfr10,
      map_digitChar_toNat_comp ip hip10, map_digitChar_toNat_comp fr'
        (by simp [List.all_eq_true, hfr10c.2]),
      (digitChar_facts f0 hfr10c.1).2.2.1]
    intro h
    have := congrArg List.length h
    simp at this
    omega
  · -- no fraction, exponent present
    simp only [Bool.and_eq_true, Bool.not_eq_true'] at hexwf
    obtain ⟨hdsE, hds10⟩ := hexwf
    have hdsne : ds ≠ [] := fun h => by rw [h] at hdsE; exact absurd hdsE (by simp)
    have hshape : printNum ⟨neg, ip, [], some (sg, ds)⟩ ++ rest
        = (if neg then ['-'] else []) ++ (digitChar d0
          :: (ip'.map digitChar ++ ('e' :: (if sg then '-' else '+')
            :: (ds.map digitChar ++ rest)))) := by
      rw [printNum, hip]
      simp [List.append_assoc]
    have hsgn : numSign (printNum ⟨neg, ip, [], some (sg, ds)⟩ ++ rest)
        = (neg, ip.map digitChar ++ ('e' :: (if sg then '-' else '+')
          :: (ds.map digitChar ++ rest))) := by
      rw [hshape, numSign_sign_digits neg d0 hd010, hip]
      rfl
    have htw : (ip.map digitChar ++ ('e' :: (if sg then '-' else '+')
        :: (ds.map digitChar ++ rest))).takeWhile isAsciiDigit
        = ip.map digitChar :=
      takeWhile_append_all _ _ _ (all_digit_map ip hip10)
        (fun c hc => by cases hc; rfl)
    have hfr : numFrac ('e' :: (if sg then '-' else '+')
        :: (ds.map digitChar ++ rest)) = ([], 'e' :: (if sg then '-' else '+')
        :: (ds.map digitChar ++ rest)) :=
      numFrac_noDot _ (fun c hc => by cases hc; decide)
    have hexp := numExp_digits sg ds rest hdsne hds10 hrestD
    simp only [parseNumber, hsgn, htw, hD1, Bool.false_eq_true, if_false,
      if_neg hnoLead, List.drop_left, hfr, hexp, ne_eq, not_true_eq_false,
      List.isEmpty_nil, or_true, if_true]
    simp [hipAll, map_digitChar_toNat ds hds10,
      map_digitChar_toNat_comp ip hip10, map_digitChar_toNat_comp ds hds10]
  · -- fraction and exponent present
    simp only [Bool.and_eq_true, Bool.not_eq_true'] at hexwf
    obtain ⟨hdsE, hds10⟩ := hexwf
    have hdsne : ds ≠ [] := fun h => by rw [h] at hdsE; exact absurd hdsE (by simp)
    have hfrne : (f0 :: fr') ≠ [] := by simp
    have hshape : printNum ⟨neg, ip, f0 :: fr', some (sg, ds)⟩ ++ rest
        = (if neg then ['-'] else []) ++ (digitChar d0
          :: (ip'.map digitChar ++ ('.' :: ((f0 :: fr').map digitChar
            ++ ('e' :: (if sg then '-' else '+')
              :: (ds.map digitChar ++ rest)))))) := by
      rw [printNum, hip]
      simp [List.append_assoc]
    have hsgn : numSign (printNum ⟨neg, ip, f0 :: fr', some (sg, ds)⟩ ++ rest)
        = (neg, ip.map digitChar ++ ('.' :: ((f0 :: fr').map digitChar
          ++ ('e' :: (if sg then '-' else '+')
            :: (ds.map digitChar ++ rest))))) := by
      rw [hshape, numSign_sign_digits neg d0 hd010, hip]
      rfl
    have htw : (ip.map digitChar ++ ('.' :: ((f0 :: fr').map digitChar
        ++ ('e' :: (if sg then '-' else '+')
          :: (ds.map digitChar ++ rest))))).takeWhile isAsciiDigit
        = ip.map digitChar :=
      takeWhile_append_all _ _ _ (all_digit_map ip hip10)
        (fun c hc => by cases hc; rfl)
    have hfrr := numFrac_digits (f0 :: fr')
      ('e' :: (if sg then '-' else '+') :: (ds.map digitChar ++ rest))
      hfrne hfr10 (fun c hc => by cases hc; rfl)
    have hneq : ('.' :: ((f0 :: fr').map digitChar
        ++ ('e' :: (if sg then '-' else '+') :: (ds.map digitChar ++ rest))))
        ≠ ('e' :: (if sg then '-' else '+') :: (ds.map digitChar ++ rest)) := by
      intro h
      have := congrArg List.length h
      simp at this
      omega
    have hexp := numExp_digits sg ds rest hdsne hds10 hrestD
    have hfr10c := hfr10
    simp only [List.all_cons, Bool.and_eq_true, decide_eq_true_eq] at hfr10c
    simp only [parseNumber, hsgn, htw, hD1, Bool.false_eq_true, if_false,
      if_neg hnoLead, List.drop_left, hfrr, ne_eq,
      if_pos (Or.inl hneq), hexp]
    simp [hipAll, hneq, map_digitChar_toNat _ hfr10,
      map_digitChar_toNat ds hds10, map_digitChar_toNat_comp ip hip10,
      map_digitChar_toNat_comp ds hds10, map_digitChar_toNat_comp fr'
        (by simp [List.all_eq_true, hfr10c.2]),
      (digitChar_facts f0 hfr10c.1).2.2.1]

end NewsAnalyzer.Tolerant

namespace NewsAnalyzer.Tolerant

/-- One step of the string parser over a surrogate-pair escape
(`\uXXXX\uXXXX`), stated over opaque tails so each use instantiates a
proved equation instead of a definitional reduction. -/
theorem parseStringBody_surrogate (f : ℕ) (X Y r5 : List Char) (n m : ℕ)
    (h1 : parseHex4 X = some (n, '\\' :: 'u' :: Y))
    (h2 : parseHex4 Y = some (m, r5))
    (hn : 55296 ≤ n ∧ n < 56320)
    (hm : 56320 ≤ m ∧ m < 57344) :
    parseStringBody (f + 1) ('\\' :: 'u' :: X)
      = (parseStringBody f r5).map (fun p =>
          (Char.ofNat (65536 + 1024 * (n - 55296) + (m - 56320)) :: p.1, p.2))
    := by
  simp only [parseStringBody, h1, if_pos hn, h2, if_pos hm]
  simp

set_option maxHeartbeats 1000000 in
/-- Reading back an escaped string body up to its closing quote. -/
theorem parseStringBody_escStr (s : List Char) : ∀ (fuel : ℕ) (rest : List Char),
    s.length < fuel →
    parseStringBody fuel (escStr s ++ '"' :: rest) = some (s, rest) := by
  induction s with
  | nil =>
    intro fuel rest h
    obtain ⟨f, rfl⟩ : ∃ f, fuel = f + 1 := ⟨fuel - 1, by omega⟩
    rfl
  | cons c s' ih =>
    intro fuel rest h
    obtain ⟨f, rfl⟩ : ∃ f, fuel = f + 1 := ⟨fuel - 1, by omega⟩
    have hf : s'.length < f := by
      simp only [List.length_cons] at h
      omega
    have hihf := ih f rest hf
    by_cases h1 : c = '"'
    · subst h1
      have hstep : parseStringBody (f + 1) (escStr ('"' :: s') ++ '"' :: rest)
          = (parseStringBody f (escStr s' ++ '"' :: rest)).map
            (fun p => ('"' :: p.1, p.2)) := rfl
      rw [hstep, hihf]
      rfl
    by_cases h2 : c = '\\'
    · subst h2
      have hstep : parseStringBody (f + 1) (escStr ('\\' :: s') ++ '"' :: rest)
          = (parseStringBody f (escStr s' ++ '"' :: rest)).map
            (fun p => ('\\' :: p.1, p.2)) := rfl
      rw [hstep, hihf]
      rfl
    by_cases h3 : c = '\n'
    · subst h3
      have hstep : parseStringBody (f + 1) (escStr ('\n' :: s') ++ '"' :: rest)
          = (parseStringBody f (escStr s' ++ '"' :: rest)).map
            (fun p => ('\n' :: p.1, p.2)) := rfl
      rw [hstep, hihf]
      rfl
    by_cases h4 : c = '\t'
    · subst h4
      have hstep : parseStringBody (f + 1) (escStr ('\t' :: s') ++ '"' :: rest)
          = (parseStringBody f (escStr s' ++ '"' :: rest)).map
            (fun p => ('\t' :: p.1, p.2)) := rfl
      rw [hstep, hihf]
      rfl
    by_cases h5 : c = '\x0d'
    · subst h5
      have hstep : parseStringBody (f + 1) (escStr ('\x0d' :: s') ++ '"' :: rest)
          = (parseStringBody f (escStr s' ++ '"' :: rest)).map
            (fun p => ('\x0d' :: p.1, p.2)) := rfl
      rw [hstep, hihf]
      rfl
    by_cases h6 : c = '\x08'
    · subst h6
      have hstep : parseStringBody (f + 1) (escStr ('\x08' :: s') ++ '"' :: rest)
          = (parseStringBody f (escStr s' ++ '"' :: rest)).map
            (fun p => ('\x08' :: p.1, p.2)) := rfl
      rw [hstep, hihf]
      rfl
    by_cases h7 : c = '\x0c'
    · subst h7
      have hstep : parseStringBody (f + 1) (escStr ('\x0c' :: s') ++ '"' :: rest)
          = (parseStringBody f (escStr s' ++ '"' :: rest)).map
            (fun p => ('\x0c' :: p.1, p.2)) := rfl
      rw [hstep, hihf]
      rfl
    by_cases h8 : c.toNat < 32 ∨ 126 < c.toNat
    · -- non-printable or non-ASCII: a unicode escape
      have hb : (decide (c.toNat < 32) || decide (126 < c.toNat)) = true := by
        rcases h8 with hx | hx <;> simp [hx]
      by_cases h9 : c.toNat < 65536
      · -- basic-plane scalar: one escape
        have hesc : escStr (c :: s') = '\\' :: 'u'
            :: (hex4 c.toNat ++ escStr s') := by
          show escChar c ++ escStr s' = _
          unfold escChar
          rw [if_neg h1, if_neg h2, if_neg h3, if_neg h4, if_neg h5,
            if_neg h6, if_neg h7, if_pos hb, if_pos h9]
          simp
        rw [hesc]
        have hshape : ('\\' :: 'u' :: (hex4 c.toNat ++ escStr s'))
            ++ '"' :: rest
            = '\\' :: 'u' :: (hex4 c.toNat ++ (escStr s' ++ '"' :: rest)) := by
          simp
        rw [hshape]
        have hhex := parseHex4_hex4 c.toNat (escStr s' ++ '"' :: rest) h9
        have hval := char_toNat_valid c
        have h10 : ¬(55296 ≤ c.toNat ∧ c.toNat < 56320) := by omega
        have h11 : ¬(56320 ≤ c.toNat ∧ c.toNat < 57344) := by omega
        simp only [parseStringBody, hhex, if_neg h10, if_neg h11, hihf,
          Char.ofNat_toNat, Option.map_some]
        simp
      · -- astral scalar: a surrogate pair
        have hval := char_toNat_valid c
        have hlt : c.toNat < 1114112 := by omega
        have hesc : escStr (c :: s') = '\\' :: 'u'
            :: (hex4 (55296 + (c.toNat - 65536) / 1024)
              ++ ('\\' :: 'u' :: (hex4 (56320 + (c.toNat - 65536) % 1024)
                ++ escStr s'))) := by
          show escChar c ++ escStr s' = _
          unfold escChar
          rw [if_neg h1, if_neg h2, if_neg h3, if_neg h4, if_neg h5,
            if_neg h6, if_neg h7, if_pos hb, if_neg h9]
          simp
        rw [hesc]
        have hshape : ('\\' :: 'u' :: (hex4 (55296 + (c.toNat - 65536) / 1024)
            ++ ('\\' :: 'u' :: (hex4 (56320 + (c.toNat - 65536) % 1024)
              ++ escStr s')))) ++ '"' :: rest
            = '\\' :: 'u' :: (hex4 (55296 + (c.toNat - 65536) / 1024)
              ++ ('\\' :: 'u' :: (hex4 (56320 + (c.toNat - 65536) % 1024)
                ++ (escStr s' ++ '"' :: rest)))) := by
          simp
        rw [hshape]
        have hmod := Nat.mod_lt (c.toNat - 65536) (show 0 < 1024 by omega)
        have hhex1 := parseHex4_hex4 (55296 + (c.toNat - 65536) / 1024)
          ('\\' :: 'u' :: (hex4 (56320 + (c.toNat - 65536) % 1024)
            ++ (escStr s' ++ '"' :: rest))) (by omega)
        have hhex2 := parseHex4_hex4 (56320 + (c.toNat - 65536) % 1024)
          (escStr s' ++ '"' :: rest) (by omega)
        rw [parseStringBody_surrogate f _ _ _ _ _ hhex1 hhex2
          ⟨by omega, by omega⟩ ⟨by omega, by omega⟩, hihf]
        have hrecon : 65536 + 1024 * (55296 + (c.toNat - 65536) / 1024 - 55296)
            + (56320 + (c.toNat - 65536) % 1024 - 56320) = c.toNat := by
          have := Nat.div_add_mod (c.toNat - 65536) 1024
          omega
        rw [hrecon, Char.ofNat_toNat]
        rfl
    · -- printable ASCII other than quote and backslash: kept verbatim
      have hb2 : 32 ≤ c.toNat ∧ c.toNat ≤ 126 := by
        rcases Nat.lt_or_ge c.toNat 32 with hx | hx
        · exact absurd (Or.inl hx) h8
        refine ⟨hx, ?_⟩
        by_contra hy
        exact h8 (Or.inr (by omega))
      have hesc : escStr (c :: s') = c :: escStr s' := by
        show escChar c ++ escStr s' = _
        unfold escChar
        rw [if_neg h1, if_neg h2, if_neg h3, if_neg h4, if_neg h5,
          if_neg h6, if_neg h7, if_neg (by simpa using hb2)]
        rfl
      rw [hesc]
      have h32 : ¬ c.toNat < 32 := fun hx => h8 (Or.inl hx)
      have hstep : (c :: escStr s') ++ '"' :: rest
          = c :: (escStr s' ++ '"' :: rest) := rfl
      rw [hstep]
      simp only [parseStringBody, if_neg h1, if_neg h2, if_neg h32, hihf]
      rfl

end NewsAnalyzer.Tolerant

namespace NewsAnalyzer.Tolerant

/-- Step lemmas for the value parser, one per dispatch branch, stated over
opaque tails. -/
theorem parseValue_null_step (f : ℕ) (r : List Char) :
    parseValue (f + 1) ('n' :: 'u' :: 'l' :: 'l' :: r) = some (.null, r) := rfl

theorem parseValue_true_step (f : ℕ) (r : List Char) :
    parseValue (f + 1) ('t' :: 'r' :: 'u' :: 'e' :: r)
      = some (.bool true, r) := rfl

theorem parseValue_false_step (f : ℕ) (r : List Char) :
    parseValue (f + 1) ('f' :: 'a' :: 'l' :: 's' :: 'e' :: r)
      = some (.bool false, r) := rfl

theorem parseValue_str_step (f : ℕ) (t : List Char) :
    parseValue (f + 1) ('"' :: t)
      = (parseStringBody f t).map (fun p => (.str p.1, p.2)) := rfl

theorem parseValue_arr_nil_step (f : ℕ) (t r : List Char)
    (h : t.dropWhile isJsonWs = ']' :: r) :
    parseValue (f + 1) ('[' :: t) = some (.arr .nil, r) := by
  simp only [parseValue, h]
  simp

theorem parseValue_arr_cons_step (f : ℕ) (t r : List Char) (d : Char)
    (h : t.dropWhile isJsonWs = d :: r) (hd : d ≠ ']') :
    parseValue (f + 1) ('[' :: t)
      = (parseItems f (d :: r)).map (fun p => (.arr p.1, p.2)) := by
  simp only [parseValue, h]
  simp [hd]

theorem parseValue_obj_nil_step (f : ℕ) (t r : List Char)
    (h : t.dropWhile isJsonWs = '\x7d' :: r) :
    parseValue (f + 1) ('\x7b' :: t) = some (.obj .nil, r) := by
  simp only [parseValue, h]
  simp

theorem parseValue_obj_cons_step (f : ℕ) (t r : List Char) (d : Char)
    (h : t.dropWhile isJsonWs = d :: r) (hd : d ≠ '\x7d') :
    parseValue (f + 1) ('\x7b' :: t)
      = (parseMembers f (d :: r)).map (fun p => (.obj p.1, p.2)) := by
  simp only [parseValue, h]
  simp [hd]

theorem parseValue_num_step (f : ℕ) (c : Char) (t : List Char)
    (h1 : c ≠ 'n') (h2 : c ≠ 't') (h3 : c ≠ 'f') (h4 : c ≠ '"')
    (h5 : c ≠ '[') (h6 : c ≠ '\x7b') :
    parseValue (f + 1) (c :: t)
      = (parseNumber (c :: t)).map (fun p => (.num p.1, p.2)) := by
  simp only [parseValue]
  simp [h1, h2, h3, h4, h5, h6]

/-- Step lemmas for the item parser: the last item before `]`, and an item
followed by a comma. -/
theorem parseItems_last_step (f : ℕ) (s r r2 : List Char) (v : Json)
    (h1 : parseValue f s = some (v, r))
    (h2 : r.dropWhile isJsonWs = ']' :: r2) :
    parseItems (f + 1) s = some (.cons v .nil, r2) := by
  simp only [parseItems, h1, h2]
  simp

theorem parseItems_comma_step (f : ℕ) (s r r2 : List Char) (v : Json)
    (h1 : parseValue f s = some (v, r))
    (h2 : r.dropWhile isJsonWs = ',' :: r2) :
    parseItems (f + 1) s
      = (parseItems f (r2.dropWhile isJsonWs)).map
        (fun p => (.cons v p.1, p.2)) := by
  simp only [parseItems, h1, h2]
  simp

/-- Step lemmas for the member parser: the last member before the closing
brace, and a member followed by a comma. -/
theorem parseMembers_last_step (f : ℕ) (s1 r r2 r3 r4 : List Char)
    (k : List Char) (v : Json)
    (h1 : parseStringBody f s1 = some (k, r))
    (h2 : r.dropWhile isJsonWs = ':' :: r2)
    (h3 : parseValue f (r2.dropWhile isJsonWs) = some (v, r3))
    (h4 : r3.dropWhile isJsonWs = '\x7d' :: r4) :
    parseMembers (f + 1) ('"' :: s1) = some (.cons k v .nil, r4) := by
  simp only [parseMembers, h1, h2, h3, h4]
  simp

theorem parseMembers_comma_step (f : ℕ) (s1 r r2 r3 r4 : List Char)
    (k : List Char) (v : Json)
    (h1 : parseStringBody f s1 = some (k, r))
    (h2 : r.dropWhile isJsonWs = ':' :: r2)
    (h3 : parseValue f (r2.dropWhile isJsonWs) = some (v, r3))
    (h4 : r3.dropWhile isJsonWs = ',' :: r4) :
    parseMembers (f + 1) ('"' :: s1)
      = (parseMembers f (r4.dropWhile isJsonWs)).map
        (fun p => (.cons k v p.1, p.2)) := by
  simp only [parseMembers, h1, h2, h3, h4]
  simp

end NewsAnalyzer.Tolerant

namespace NewsAnalyzer.Tolerant

open NewsAnalyzer.Downloader (isAsciiDigit)

/-- Serialization of a nonempty list: the first element, then either
nothing or a comma-space separator and the remaining elements. -/
theorem dumpList_cons_eq (w : Json) (tl : JList) (X : List Char) :
    dumpList (.cons w tl) ++ X
      = dumpJson w ++ ((match tl with
          | .nil => []
          | .cons _ _ => ',' :: ' ' :: dumpList tl) ++ X) := by
  cases tl <;> simp [dumpList]

/-- Serialization of a nonempty object: the quoted first key, colon-space,
its value, then either nothing or a comma-space separator and the rest. -/
theorem dumpObj_cons_eq (k : List Char) (v : Json) (tl : JObj) (X : List Char) :
    dumpObj (.cons k v tl) ++ X
      = '"' :: (escStr k ++ '"' :: (':' :: ' ' :: (dumpJson v
        ++ ((match tl with
            | .nil => []
            | .cons _ _ _ => ',' :: ' ' :: dumpObj tl) ++ X)))) := by
  cases tl <;> simp [dumpObj]

/-- A remainder with a known significant head satisfies the number-stop
condition. -/
theorem litStop (d : Char) (X : List Char)
    (h1 : isAsciiDigit d = false) (h2 : d ≠ '.') (h3 : d ≠ 'e')
    (h4 : d ≠ 'E') :
    ∀ c, (d :: X).head? = some c →
      isAsciiDigit c = false ∧ c ≠ '.' ∧ c ≠ 'e' ∧ c ≠ 'E' := by
  intro c hc
  rw [List.head?_cons, Option.some.injEq] at hc
  subst hc
  exact ⟨h1, h2, h3, h4⟩

end NewsAnalyzer.Tolerant

namespace NewsAnalyzer.Tolerant

open NewsAnalyzer.Downloader (isAsciiDigit)

/-- Head decomposition of a serialized nonempty list. -/
theorem dumpList_cons_head (w : Json) (tl : JList) (hwf : jsonWf w = true)
    (X : List Char) :
    ∃ c0 t1, dumpList (.cons w tl) ++ X = c0 :: t1 ∧ isJsonWs c0 = false
      ∧ c0 ≠ ']' ∧ c0 ≠ '\x7d' := by
  obtain ⟨c0, t0, hct, hws, hb1, hb2⟩ := dumpJson_shape w hwf
  cases tl with
  | nil => exact ⟨c0, t0 ++ X, by simp [dumpList, hct], hws, hb1, hb2⟩
  | cons w2 tl2 =>
    exact ⟨c0, t0 ++ (',' :: ' ' :: (dumpList (.cons w2 tl2) ++ X)),
      by simp [dumpList, hct], hws, hb1, hb2⟩

/-- Serialization equations for nonempty lists, by shape of the tail. -/
theorem dumpList_cons_nil_eq (w : Json) (X : List Char) :
    dumpList (.cons w .nil) ++ X = dumpJson w ++ X := by
  simp [dumpList]

theorem dumpList_cons_cons_eq (w w2 : Json) (tl2 : JList) (X : List Char) :
    dumpList (.cons w (.cons w2 tl2)) ++ X
      = dumpJson w ++ (',' :: ' ' :: (dumpList (.cons w2 tl2) ++ X)) := by
  simp [dumpList]

/-- Serialization equations for nonempty objects, by shape of the tail. -/
theorem dumpObj_cons_nil_eq (k : List Char) (v : Json) (X : List Char) :
    dumpObj (.cons k v .nil) ++ X
      = '"' :: (escStr k ++ '"' :: (':' :: ' ' :: (dumpJson v ++ X))) := by
  simp [dumpObj]

theorem dumpObj_cons_cons_eq (k : List Char) (v : Json) (k2 : List Char)
    (v2 : Json) (tl2 : JObj) (X : List Char) :
    dumpObj (.cons k v (.cons k2 v2 tl2)) ++ X
      = '"' :: (escStr k ++ '"' :: (':' :: ' ' :: (dumpJson v
        ++ (',' :: ' ' :: (dumpObj (.cons k2 v2 tl2) ++ X))))) := by
  simp [dumpObj]

/-- Head decomposition of a serialized nonempty object. -/
theorem dumpObj_cons_head (k : List Char) (v : Json) (tl : JObj)
    (X : List Char) :
    ∃ t1, dumpObj (.cons k v tl) ++ X = '"' :: t1 := by
  cases tl with
  | nil => exact ⟨_, dumpObj_cons_nil_eq k v X⟩
  | cons k2 v2 tl2 => exact ⟨_, dumpObj_cons_cons_eq k v k2 v2 tl2 X⟩

mutual

/-- The strict scanner reads back any serialized well-formed value,
leaving the remainder untouched, given enough fuel and a remainder that
cannot extend a trailing number. -/
theorem parseValue_dump (v : Json) (fuel : ℕ) (rest : List Char)
    (hwf : jsonWf v = true)
    (hfuel : 2 * (dumpJson v ++ rest).length + 1 ≤ fuel)
    (hstop : ∀ c, rest.head? = some c →
      isAsciiDigit c = false ∧ c ≠ '.' ∧ c ≠ 'e' ∧ c ≠ 'E') :
    parseValue fuel (dumpJson v ++ rest) = some (v, rest) := by
  obtain ⟨f, rfl⟩ : ∃ f, fuel = f + 1 := ⟨fuel - 1, by omega⟩
  cases v with
  | null => exact parseValue_null_step f rest
  | bool b =>
    cases b
    · exact parseValue_false_step f rest
    · exact parseValue_true_step f rest
  | str s =>
    have hsh : dumpJson (.str s) ++ rest = '"' :: (escStr s ++ '"' :: rest) := by
      simp [dumpJson]
    rw [hsh] at hfuel ⊢
    have hlen := length_le_escStr s
    rw [parseValue_str_step f _, parseStringBody_escStr s f rest (by
      simp only [List.length_cons, List.length_append] at hfuel
      omega)]
    rfl
  | num n =>
    obtain ⟨c0, t0, hct, _, _, _, hn, ht, hf, hq, hlb, hob⟩ :=
      printNum_shape n hwf
    have hsh : printNum n ++ rest = c0 :: (t0 ++ rest) := by rw [hct]; rfl
    show parseValue (f + 1) (printNum n ++ rest) = some (.num n, rest)
    rw [hsh, parseValue_num_step f c0 _ hn ht hf hq hlb hob, ← hsh,
      parseNumber_printNum n rest hwf hstop]
    rfl
  | arr l =>
    cases l with
    | nil =>
      have hsh : dumpJson (.arr .nil) ++ rest = '[' :: (']' :: rest) := by
        simp [dumpJson, dumpList]
      rw [hsh]
      exact parseValue_arr_nil_step f _ rest rfl
    | cons w tl =>
      have hw : jsonWf w = true ∧ jlistWf tl = true := by
        simp only [jsonWf, jlistWf, Bool.and_eq_true] at hwf
        exact hwf
      have hsh : dumpJson (.arr (.cons w tl)) ++ rest
          = '[' :: (dumpList (.cons w tl) ++ ']' :: rest) := by
        simp [dumpJson]
      rw [hsh] at hfuel ⊢
      obtain ⟨c0, t1, hct1, hws1, hbr1, _⟩ :=
        dumpList_cons_head w tl hw.1 (']' :: rest)
      have hXdrop : (dumpList (.cons w tl) ++ ']' :: rest).dropWhile isJsonWs
          = c0 :: t1 := by
        rw [hct1, List.dropWhile_cons, hws1]
        simp
      rw [parseValue_arr_cons_step f _ t1 c0 hXdrop hbr1, ← hct1,
        parseItems_dump w tl f rest hw.1 hw.2 (by
          simp only [List.length_cons, List.length_append] at hfuel
          simp only [List.length_cons, List.length_append]
          omega)]
      rfl
  | obj o =>
    cases o with
    | nil =>
      have hsh : dumpJson (.obj .nil) ++ rest = '\x7b' :: ('\x7d' :: rest) := by
        simp [dumpJson, dumpObj]
      rw [hsh]
      exact parseValue_obj_nil_step f _ rest rfl
    | cons k w tl =>
      have hw : jsonWf w = true ∧ jobjWf tl = true := by
        simp only [jsonWf, jobjWf, Bool.and_eq_true] at hwf
        exact hwf
      have hsh : dumpJson (.obj (.cons k w tl)) ++ rest
          = '\x7b' :: (dumpObj (.cons k w tl) ++ '\x7d' :: rest) := by
        simp [dumpJson]
      rw [hsh] at hfuel ⊢
      obtain ⟨t1, hct1⟩ := dumpObj_cons_head k w tl ('\x7d' :: rest)
      have hXdrop : (dumpObj (.cons k w tl) ++ '\x7d' :: rest).dropWhile
          isJsonWs = '"' :: t1 := by
        rw [hct1]
        rfl
      rw [parseValue_obj_cons_step f _ t1 '"' hXdrop (by decide), ← hct1,
        parseMembers_dump k w tl f rest hw.1 hw.2 (by
          simp only [List.length_cons, List.length_append] at hfuel
          simp only [List.length_cons, List.length_append]
          omega)]
      rfl
termination_by sizeOf v

/-- The item scanner reads back any serialized nonempty list up to the
closing bracket. -/
theorem parseItems_dump (v : Json) (tl : JList) (fuel : ℕ) (rest : List Char)
    (hwf : jsonWf v = true) (hwtl : jlistWf tl = true)
    (hfuel : 2 * (dumpList (.cons v tl) ++ ']' :: rest).length + 2 ≤ fuel) :
    parseItems fuel (dumpList (.cons v tl) ++ ']' :: rest)
      = some (.cons v tl, rest) := by
  obtain ⟨f, rfl⟩ : ∃ f, fuel = f + 1 := ⟨fuel - 1, by omega⟩
  cases tl with
  | nil =>
    rw [dumpList_cons_nil_eq v (']' :: rest)] at hfuel ⊢
    have hpv := parseValue_dump v f (']' :: rest) hwf (by
        simp only [List.length_cons, List.length_append] at hfuel ⊢
        omega)
      (litStop ']' rest (by decide) (by decide) (by decide) (by decide))
    exact parseItems_last_step f _ (']' :: rest) rest v hpv rfl
  | cons w tl2 =>
    have hw : jsonWf w = true ∧ jlistWf tl2 = true := by
      simp only [jlistWf, Bool.and_eq_true] at hwtl
      exact hwtl
    rw [dumpList_cons_cons_eq v w tl2 (']' :: rest)] at hfuel ⊢
    have hpv := parseValue_dump v f
      (',' :: ' ' :: (dumpList (.cons w tl2) ++ ']' :: rest)) hwf (by
        simp only [List.length_cons, List.length_append] at hfuel ⊢
        omega)
      (litStop ',' _ (by decide) (by decide) (by decide) (by decide))
    obtain ⟨c0, t1, hct1, hws1, _, _⟩ :=
      dumpList_cons_head w tl2 hw.1 (']' :: rest)
    have hdw2 : ((' ' :: (dumpList (.cons w tl2) ++ ']' :: rest))
        : List Char).dropWhile isJsonWs
        = dumpList (.cons w tl2) ++ ']' :: rest := by
      rw [List.dropWhile_cons]
      simp only [show isJsonWs ' ' = true from rfl, if_true]
      rw [hct1, List.dropWhile_cons, hws1]
      simp
    rw [parseItems_comma_step f _ _
      (' ' :: (dumpList (.cons w tl2) ++ ']' :: rest)) v hpv rfl, hdw2,
      parseItems_dump w tl2 f rest hw.1 hw.2 (by
        obtain ⟨c0v, t0v, hctv, _, _, _⟩ := dumpJson_shape v hwf
        have hdv1 : 1 ≤ (dumpJson v).length := by rw [hctv]; simp
        simp only [List.length_cons, List.length_append] at hfuel ⊢
        omega)]
    rfl
termination_by sizeOf v + sizeOf tl + 1

/-- The member scanner reads back any serialized nonempty object up to the
closing brace. -/
theorem parseMembers_dump (k : List Char) (v : Json) (tl : JObj) (fuel : ℕ)
    (rest : List Char) (hwf : jsonWf v = true) (hwtl : jobjWf tl = true)
    (hfuel : 2 * (dumpObj (.cons k v tl) ++ '\x7d' :: rest).length + 2
      ≤ fuel) :
    parseMembers fuel (dumpObj (.cons k v tl) ++ '\x7d' :: rest)
      = some (.cons k v tl, rest) := by
  obtain ⟨f, rfl⟩ : ∃ f, fuel = f + 1 := ⟨fuel - 1, by omega⟩
  have hklen := length_le_escStr k
  cases tl with
  | nil =>
    rw [dumpObj_cons_nil_eq k v ('\x7d' :: rest)] at hfuel ⊢
    have hsb := parseStringBody_escStr k f
      (':' :: ' ' :: (dumpJson v ++ '\x7d' :: rest)) (by
        simp only [List.length_cons, List.length_append] at hfuel
        omega)
    have hdw2 : ((' ' :: (dumpJson v ++ '\x7d' :: rest))
        : List Char).dropWhile isJsonWs = dumpJson v ++ '\x7d' :: rest := by
      rw [List.dropWhile_cons]
      simp only [show isJsonWs ' ' = true from rfl, if_true]
      exact dropWhile_ws_dumps v hwf _
    have hpv := parseValue_dump v f ('\x7d' :: rest) hwf (by
        simp only [List.length_cons, List.length_append] at hfuel ⊢
        omega)
      (litStop '\x7d' rest (by decide) (by decide) (by decide) (by decide))
    have h3 : parseValue f (((' ' :: (dumpJson v ++ '\x7d' :: rest))
        : List Char).dropWhile isJsonWs) = some (v, '\x7d' :: rest) := by
      rw [hdw2]
      exact hpv
    exact parseMembers_last_step f _ _
      (' ' :: (dumpJson v ++ '\x7d' :: rest)) _ rest k v hsb rfl h3 rfl
  | cons k2 v2 tl2 =>
    have hw : jsonWf v2 = true ∧ jobjWf tl2 = true := by
      simp only [jobjWf, Bool.and_eq_true] at hwtl
      exact hwtl
    rw [dumpObj_cons_cons_eq k v k2 v2 tl2 ('\x7d' :: rest)] at hfuel ⊢
    have hsb := parseStringBody_escStr k f
      (':' :: ' ' :: (dumpJson v ++ (',' :: ' '
        :: (dumpObj (.cons k2 v2 tl2) ++ '\x7d' :: rest)))) (by
        simp only [List.length_cons, List.length_append] at hfuel
        omega)
    have hdw2 : ((' ' :: (dumpJson v ++ (',' :: ' '
        :: (dumpObj (.cons k2 v2 tl2) ++ '\x7d' :: rest))))
        : List Char).dropWhile isJsonWs
        = dumpJson v ++ (',' :: ' '
          :: (dumpObj (.cons k2 v2 tl2) ++ '\x7d' :: rest)) := by
      rw [List.dropWhile_cons]
      simp only [show isJsonWs ' ' = true from rfl, if_true]
      exact dropWhile_ws_dumps v hwf _
    have hpv := parseValue_dump v f (',' :: ' '
        :: (dumpObj (.cons k2 v2 tl2) ++ '\x7d' :: rest)) hwf (by
        simp only [List.length_cons, List.length_append] at hfuel ⊢
        omega)
      (litStop ',' _ (by decide) (by decide) (by decide) (by decide))
    have h3 : parseValue f (((' ' :: (dumpJson v ++ (',' :: ' '
        :: (dumpObj (.cons k2 v2 tl2) ++ '\x7d' :: rest))))
        : List Char).dropWhile isJsonWs)
        = some (v, ',' :: ' '
          :: (dumpObj (.cons k2 v2 tl2) ++ '\x7d' :: rest)) := by
      rw [hdw2]
      exact hpv
    obtain ⟨t1, hct1⟩ := dumpObj_cons_head k2 v2 tl2 ('\x7d' :: rest)
    have hdw3 : ((' ' :: (dumpObj (.cons k2 v2 tl2) ++ '\x7d' :: rest))
        : List Char).dropWhile isJsonWs
        = dumpObj (.cons k2 v2 tl2) ++ '\x7d' :: rest := by
      rw [List.dropWhile_cons]
      simp only [show isJsonWs ' ' = true from rfl, if_true]
      rw [hct1]
      rfl
    rw [parseMembers_comma_step f _ _ _ _
      (' ' :: (dumpObj (.cons k2 v2 tl2) ++ '\x7d' :: rest)) k v hsb rfl h3
      rfl, hdw3,
      parseMembers_dump k2 v2 tl2 f rest hw.1 hw.2 (by
        obtain ⟨c0v, t0v, hctv, _, _, _⟩ := dumpJson_shape v hwf
        have hdv1 : 1 ≤ (dumpJson v).length := by rw [hctv]; simp
        simp only [List.length_cons, List.length_append] at hfuel ⊢
        omega)]
    rfl
termination_by sizeOf v + sizeOf tl + 1

end

end NewsAnalyzer.Tolerant

namespace NewsAnalyzer.Tolerant

/-- `json.loads` is a left inverse of `json.dumps` on well-formed values. -/
theorem loads_dumps (v : Json) (hwf : jsonWf v = true) :
    loads (dumpJson v) = some v := by
  unfold loads
  have hdw : (dumpJson v).dropWhile isJsonWs = dumpJson v := by
    have := dropWhile_ws_dumps v hwf []
    simpa using this
  rw [hdw]
  have hpv := parseValue_dump v (2 * (dumpJson v).length + 2) [] hwf
    (by simp) (fun c hc => by simp at hc)
  rw [List.append_nil] at hpv
  rw [hpv]
  simp

/-- Sanitizing a serialized object is a no-op when think-tag deletion
leaves it unchanged. -/
theorem sanitize_obj_dumps (o : JObj)
    (hthink : thinkSub (dumpJson (.obj o)) = dumpJson (.obj o)) :
    sanitizeResponseText (dumpJson (.obj o)) = dumpJson (.obj o) := by
  have hne : (dumpJson (.obj o)).isEmpty = false := by simp [dumpJson]
  have hshape : dumpJson (.obj o) = '\x7b' :: (dumpObj o ++ ['\x7d']) := by
    simp [dumpJson]
  unfold sanitizeResponseText
  rw [hne]
  simp only [Bool.false_eq_true, if_false]
  rw [hthink, hshape]
  exact pyStrip_id_of_ends '\x7b' '\x7d' (dumpObj o) (by decide) (by decide)

/-- The summary dict of the worked example in the specification. -/
def specSummaryObj : JObj :=
  .cons "summary".data (.str "hello".data)
    (.cons "key_points".data (.arr .nil)
      (.cons "sentiment".data (.str "neutral".data)
        (.cons "confidence_score".data (.num (decLit 0 9)) .nil)))

end NewsAnalyzer.Tolerant

namespace NewsAnalyzer.Tolerant

/-- **C3 (amended).** `extract_json_object` is a left inverse of JSON
serialization for every JSON-representable dict whose serialized form is
left unchanged by think-tag stripping (in particular whenever no string
value contains a `<think>…</think>` segment): `extract_json_object
(json.dumps(obj))` returns `(obj, false)`, and any raw response that the
sanitizer reduces to exactly `json.dumps(obj)` — such as a
`<think>…</think>` block followed by that serialization — also yields
`(obj, false)`. Without that proviso the round trip fails, as the
stripping runs inside string literals (see the counterexample). -/
theorem extract_json_object_roundtrip (o : JObj)
    (hwf : jobjWf o = true)
    (hthink : thinkSub (dumpJson (.obj o)) = dumpJson (.obj o)) :
    extractJsonObject (dumpJson (.obj o)) = (.obj o, false) ∧
    ∀ raw : List Char, sanitizeResponseText raw = dumpJson (.obj o) →
      extractJsonObject raw = (.obj o, false) := by
  have hwfj : jsonWf (.obj o) = true := hwf
  have key : ∀ raw : List Char,
      sanitizeResponseText raw = dumpJson (.obj o) →
      extractJsonObject raw = (.obj o, false) := by
    intro raw hsan
    have hne : (dumpJson (.obj o)).isEmpty = false := by simp [dumpJson]
    have hld : loads (dumpJson (.obj o)) = some (.obj o) :=
      loads_dumps _ hwfj
    simp only [extractJsonObject, hsan, hne, hld]
    simp
  exact ⟨key _ (sanitize_obj_dumps o hthink), key⟩

set_option maxRecDepth 1000000 in
/-- Witness: the specification's own scenario — a think block followed by
the serialized summary dict — satisfies the hypotheses and round-trips. -/
theorem extract_json_object_roundtrip_witness :
    jobjWf specSummaryObj = true
    ∧ thinkSub (dumpJson (.obj specSummaryObj))
      = dumpJson (.obj specSummaryObj)
    ∧ sanitizeResponseText ("<think>reasoning</think>".data
        ++ dumpJson (.obj specSummaryObj)) = dumpJson (.obj specSummaryObj)
    ∧ extractJsonObject ("<think>reasoning</think>".data
        ++ dumpJson (.obj specSummaryObj)) = (.obj specSummaryObj, false) := by
  have h1 : jobjWf specSummaryObj = true := by decide
  have h2 : thinkSub (dumpJson (.obj specSummaryObj))
      = dumpJson (.obj specSummaryObj) := by rfl
  have h3 : sanitizeResponseText ("<think>reasoning</think>".data
      ++ dumpJson (.obj specSummaryObj)) = dumpJson (.obj specSummaryObj) := by
    rfl
  exact ⟨h1, h2, h3,
    (extract_json_object_roundtrip specSummaryObj h1 h2).2 _ h3⟩

end NewsAnalyzer.Tolerant
